import Mathlib

/-!
# The instrument registry and the audio-output lifecycle of imj-audio

A shallow embedding of `src/imj-audio/c/extras.h` and `src/imj-audio/c/wrapper.cpp`.

The process-wide statics of the C++ code (the user count, the audio context, the two
channel-group collections, the three `Synths<Envel>` maps, the mutexes) are the fields
of one `State`.  A function of the source becomes a function from a `State` to an
`Outcome`: it returns a value and a new state, or it waits for ever on a mutex that is
locked (`blocked`), or it dereferences a null `unique_ptr` (`undefinedBehaviour`).

Code that is outside the two source files (the audio context, the synth objects, the wind
voice, the channel groups' realtime counter) is taken as a parameter, `External`; every
call made to it is written to `State.calls`.

The envelope analyzer `envelopeGraphVec` is a function of the envelope type alone: it takes
no lock and reads no static.  The envelope class is outside the source files and is the
parameter `Envelope`; the two loops are run with fuel.
-/

namespace imajuscule

/-! ## Data model -/

/-- A C `float`, carried as its bit pattern: the control path only passes it on. -/
structure AudioFloat where
  bits : Nat
deriving DecidableEq, Repr

/-- The three instantiations `Synths<Envel>` that exist in the program
(`teardownAudioOutput` names them). -/
inductive Family
  | SimpleLinear
  | WaitForKeyRelease
  | ReleaseAfterDecay
deriving DecidableEq, Repr

/-- The mutexes of the program: `initMutex()`, `Synths<Envel>::map_mutex()` and the
`isUsed` member of the `withChannels` object at address `o`. -/
inductive Latch
  | initMutex
  | map_mutex (f : Family)
  | isUsed (o : Nat)
deriving DecidableEq, Repr

/-- An `Event` as built by `mkNoteOn` and `mkNoteOff`. -/
inductive Event
  | mkNoteOn (pitch : Int) (velocity : AudioFloat)
  | mkNoteOff (pitch : Int)
deriving DecidableEq, Repr

/-- `struct withChannels<T>`: the object at address `addr`, its reference `chans` to a
channel group (the group's identity), and the envelope parameters that `SetParam` last
wrote into `obj`.  Its mutex `isUsed` is `Latch.isUsed addr`. -/
structure withChannels (K : Type) where
  addr : Nat
  chans : Nat
  param : Option K
deriving DecidableEq, Repr

/-- One element of a channel-group collection, as `emplace_front` builds it, with the flag
that the returned remover sets. -/
structure Channels where
  id : Nat
  nVoices : Int
  n_max_orchestrator_per_channel : Int
  flaggedForRemoval : Bool
deriving DecidableEq, Repr

/-- A call made to code outside the two source files. -/
inductive Call
  | overridePortaudioMinLatencyMillis (ms : Int)
  | disableDenormals
  | windVoiceInitializeSlow
  | windVoiceInitialize (chans : Nat)
  | windVoiceFinalize
  | sleep_for
  | synthInitialize (o chans : Nat)
  | synthFinalize (o : Nat)
  | onEvent2 (o : Nat) (e : Event)
  | playOneThing (chans : Option Nat) (program pitch : Int) (velocity : AudioFloat)
  | stopPlaying (chans : Option Nat) (pitch : Int)
deriving DecidableEq, Repr

/-- A `std::map<K, std::unique_ptr<withChannels<T>>>`: its entries in iteration order. -/
abbrev SynthMap (K : Type) := List (K × Option (withChannels K))

/-- The maps `Synths<Envel>::map()` of the three instantiations. -/
structure Registries (K : Type) where
  simpleLinear : SynthMap K
  waitForKeyRelease : SynthMap K
  releaseAfterDecay : SynthMap K
deriving DecidableEq, Repr

/-- The map of family `f`. -/
def Registries.get {K : Type} (r : Registries K) : Family → SynthMap K
  | .SimpleLinear => r.simpleLinear
  | .WaitForKeyRelease => r.waitForKeyRelease
  | .ReleaseAfterDecay => r.releaseAfterDecay

/-- The maps with the one of family `f` replaced. -/
def Registries.set {K : Type} (r : Registries K) (f : Family) (m : SynthMap K) :
    Registries K :=
  match f with
  | .SimpleLinear => { r with simpleLinear := m }
  | .WaitForKeyRelease => { r with waitForKeyRelease := m }
  | .ReleaseAfterDecay => { r with releaseAfterDecay := m }

/-- The three maps when the program starts. -/
def Registries.empty {K : Type} : Registries K :=
  { simpleLinear := [], waitForKeyRelease := [], releaseAfterDecay := [] }

/-- The statics of the program, and the bookkeeping of the calling thread.

* `countUsers`: the static `int` behind `countUsers()`; `++` and `--` leave the result as
  a 32-bit `int` holds it (`wrapInt32`);
* `locked`: the mutexes that are locked, by any thread;
* `held`: the mutexes the calling thread has locked and not yet unlocked;
* `acquisitions`: every acquisition of the calling thread, with `held` at that moment
  (a `lock` is recorded when it is called, a `try_lock` when it succeeds);
* `synths`: the three maps;
* `fresh`: the identity that the next created object gets. -/
structure State (C K : Type) where
  countUsers : Int
  ctxt : C
  xfade : List Channels
  noXfade : List Channels
  xfadeChannels : Option Nat
  synths : Registries K
  fresh : Nat
  calls : List Call
  locked : List Latch
  held : List Latch
  acquisitions : List (Latch × List Latch)
deriving DecidableEq, Repr

/-- The code outside the two source files, as far as the control path reads it.

`C` is the state of `getAudioContext()`, `K` is `Envel::Param` (the key type of the maps).
`initializeSynth k c` is the result of `p->obj.initialize(p->chans)` for parameters `k` and
group `c`; `onEvent2 o e` is the result of `onEvent2`, as `convert` reads it;
`SimpleLinearParam` and `AHDSRParam` build the key from the C arguments
(`AHDSR{a,itp::toItp(ai),h,d,itp::toItp(di),r,itp::toItp(ri),s}`). -/
structure External (C K : Type) where
  Initialized : C → Bool
  Init : AudioFloat → C → Bool × C
  onApplicationShouldClose : C → C
  TearDown : C → C
  overridePortaudioMinLatencyMillis : Int → Bool
  initializeWindVoice : Nat → Bool
  initializeSynth : K → Nat → Bool
  hasRealtimeFunctions : Nat → Bool
  n_channels : Int
  onEvent2 : Nat → Event → Bool
  playOneThing : Option Nat → Int → Int → AudioFloat → Bool
  stopPlaying : Option Nat → Int → Bool
  SimpleLinearParam : Int → K
  AHDSRParam : Int → Int → Int → Int → Int → AudioFloat → Int → Int → K

/-! ## Outcomes and sequencing -/

/-- What a call does: it returns, it waits on a locked mutex, or it has undefined
behaviour.  The state is the one reached at that point. -/
inductive Outcome (σ α : Type)
  | ret (a : α) (s : σ)
  | blocked (s : σ)
  | undefinedBehaviour (s : σ)
deriving DecidableEq, Repr

/-- The state an outcome ends in. -/
def Outcome.state {σ α : Type} : Outcome σ α → σ
  | .ret _ s => s
  | .blocked s => s
  | .undefinedBehaviour s => s

/-- A piece of the control path. -/
def M (C K α : Type) := State C K → Outcome (State C K) α

/-- Sequencing: the rest runs only when the first part returns. -/
def M.bind {C K α β : Type} (m : M C K α) (f : α → M C K β) : M C K β := fun s =>
  match m s with
  | .ret a s1 => f a s1
  | .blocked s1 => .blocked s1
  | .undefinedBehaviour s1 => .undefinedBehaviour s1

instance {C K : Type} : Monad (M C K) where
  pure a := fun s => .ret a s
  bind := M.bind

/-- The current statics. -/
def getState {C K : Type} : M C K (State C K) := fun s => .ret s s

/-- An update of the statics. -/
def modifyState {C K : Type} (g : State C K → State C K) : M C K Unit := fun s => .ret () (g s)

/-- A dereference of a null pointer. -/
def undefinedBehaviour {C K α : Type} : M C K α := fun s => .undefinedBehaviour s

/-- A call to outside code, written to `calls`. -/
def call {C K : Type} (c : Call) : M C K Unit :=
  modifyState fun s => { s with calls := s.calls ++ [c] }

/-! ## Mutexes -/

/-- `std::mutex::lock`: recorded with the latches held, then waits when the mutex is
locked. -/
def lock {C K : Type} (l : Latch) : M C K Unit := fun s =>
  let s1 := { s with acquisitions := s.acquisitions ++ [(l, s.held)] }
  if l ∈ s.locked then .blocked s1
  else .ret () { s1 with locked := l :: s.locked, held := l :: s.held }

/-- `std::mutex::try_lock`, without the spurious failure that the standard allows: it fails
exactly when the mutex is locked. -/
def try_lock {C K : Type} (l : Latch) : M C K Bool := fun s =>
  if l ∈ s.locked then .ret false s
  else .ret true { s with
    acquisitions := s.acquisitions ++ [(l, s.held)]
    locked := l :: s.locked
    held := l :: s.held }

/-- `std::mutex::unlock`. -/
def unlock {C K : Type} (l : Latch) : M C K Unit :=
  modifyState fun s => { s with locked := s.locked.erase l, held := s.held.erase l }

/-- `~withChannels()`: `std::lock_guard<std::mutex> l(isUsed);`. -/
def withChannels.destructor {C K : Type} (o : withChannels K) : M C K Unit := do
  lock (.isUsed o.addr)
  unlock (.isUsed o.addr)

/-- `struct Using<T>`: the reference `o` to its object. -/
structure Using where
  o : Nat
deriving DecidableEq, Repr

/-- `Using(std::lock_guard<std::mutex> && protectsDestruction, T&o)`: `o.isUsed.lock()`.
The guard is only bound by reference: it unlocks where its owner's scope ends. -/
def Using.ctor {C K : Type} (o : Nat) : M C K Using := do
  lock (.isUsed o)
  pure { o := o }

/-- `~Using()`: `o.isUsed.unlock()`. -/
def Using.destructor {C K : Type} (u : Using) : M C K Unit :=
  unlock (.isUsed u.o)

/-! ## `std::map` -/

/-- `map.find(k)`: the mapped value when `k` is a key. -/
def SynthMap.find {K : Type} [DecidableEq K] :
    SynthMap K → K → Option (Option (withChannels K))
  | [], _ => none
  | (k1, i) :: rest, k => if k1 = k then some i else SynthMap.find rest k

/-- `map.emplace(k, i)`: the map, the mapped value of the element with key `k`, and whether
it was inserted.  A new element goes before the first greater key. -/
def SynthMap.emplace {K : Type} [LinearOrder K] (k : K) (i : Option (withChannels K)) :
    SynthMap K → SynthMap K × Option (withChannels K) × Bool
  | [] => ([(k, i)], i, true)
  | (k1, i1) :: rest =>
    if k < k1 then ((k, i) :: (k1, i1) :: rest, i, true)
    else if k1 < k then
      let r := SynthMap.emplace k i rest
      ((k1, i1) :: r.1, r.2.1, r.2.2)
    else ((k1, i1) :: rest, i1, false)

/-- `SetParam<Envel>::set(k, i->obj)` for the instrument `i` that the element with key `k`
owns: the parameters are written into the object. -/
def SynthMap.SetParam {K : Type} [DecidableEq K] (k : K) (m : SynthMap K) : SynthMap K :=
  m.map fun e => if e.1 = k then (e.1, e.2.map fun o => { o with param := some k }) else e

/-- `Synths<Envel>::map()` of family `f`. -/
def State.map {C K : Type} (s : State C K) (f : Family) : SynthMap K :=
  s.synths.get f

/-- The statics with the map of family `f` replaced. -/
def State.setMap {C K : Type} (s : State C K) (f : Family) (m : SynthMap K) : State C K :=
  { s with synths := s.synths.set f m }

/-! ## `Synths<Envel>` -/

/-- `addNoXfadeChannels(nVoices)`: `getChannelsNoXFade().emplace_front(...)` with
`std::min(nVoices, 255)` voices and no orchestrator.  Returns the new group. -/
def addNoXfadeChannels {C K : Type} (nVoices : Int) : M C K Nat := fun s =>
  .ret s.fresh { s with
    noXfade :=
      { id := s.fresh, nVoices := min nVoices 255, n_max_orchestrator_per_channel := 0,
        flaggedForRemoval := false } :: s.noXfade
    fresh := s.fresh + 1 }

/-- `remover.flagForRemoval()` for the group `c` of the non-crossfaded collection. -/
def flagForRemoval {C K : Type} (c : Nat) : M C K Unit :=
  modifyState fun s => { s with
    noXfade := s.noXfade.map fun g => if g.id = c then { g with flaggedForRemoval := true } else g }

/-- The loop of `recycleInstrument`: `visited` are the entries before the iterator, in order,
and the second list starts at the iterator.  The map is their concatenation until an
instrument is moved.  `Assert(o.obj.areEnvelopesFinished())` is taken as in a build where
assertions are off.  When `emplace` finds the key (`isNew` is false, which the lookup of the
caller excludes), the instrument that `new_p` owned is destroyed while its in-use latch is
held by the `tryScopedLock` of the same thread. -/
def Synths.recycleLoop {C K : Type} [LinearOrder K] (ext : External C K) (f : Family)
    (envelParam : K) : SynthMap K → SynthMap K → M C K (Option Nat)
  | _, [] => pure none
  | visited, (k1, none) :: rest =>
    -- LG(ERR,"inconsistent map"); continue;
    Synths.recycleLoop ext f envelParam (visited ++ [(k1, none)]) rest
  | visited, (k1, some o) :: rest => do
    let success ← try_lock (.isUsed o.addr)
    if success then
      if ext.hasRealtimeFunctions o.chans then do
        unlock (.isUsed o.addr)
        Synths.recycleLoop ext f envelParam (visited ++ [(k1, some o)]) rest
      else
        -- new_p.swap(it->second); synths.erase(it); synths.emplace(envelParam, std::move(new_p));
        match SynthMap.emplace envelParam (some o) (visited ++ rest) with
        | (synths, inserted, true) =>
          match inserted with
          | some i => do
            modifyState fun s => s.setMap f synths
            modifyState fun s => s.setMap f (SynthMap.SetParam envelParam (s.map f))
            unlock (.isUsed o.addr)
            pure (some i.addr)
          | none => undefinedBehaviour
        | (_, _, false) => do
          -- the key was there: the instrument that new_p owned is destroyed while the
          -- tryScopedLock has its mutex
          withChannels.destructor o
          undefinedBehaviour
    else
      -- a note is being started or stopped, we can't recycle this instrument.
      Synths.recycleLoop ext f envelParam (visited ++ [(k1, some o)]) rest

/-- `Synths<Envel>::recycleInstrument(synths, envelParam)`. -/
def Synths.recycleInstrument {C K : Type} [LinearOrder K] (ext : External C K) (f : Family)
    (envelParam : K) : M C K (Option Nat) := do
  let s ← getState
  Synths.recycleLoop ext f envelParam [] (s.map f)

/-- The last statement of `Synths<Envel>::get`:
`return Using(std::move(l), *(synths.emplace(envelParam, std::move(p)).first->second));`
and the end of the scope of `l`. -/
def Synths.getEmplace {C K : Type} [LinearOrder K] (f : Family) (envelParam : K)
    (p : withChannels K) : M C K Using := do
  let s ← getState
  match SynthMap.emplace envelParam (some p) (s.map f) with
  | (synths, inserted, isNew) => do
    modifyState fun s => s.setMap f synths
    if !isNew then
      withChannels.destructor p
    match inserted with
    | none => undefinedBehaviour
    | some i => do
      let u ← Using.ctor i.addr
      unlock (.map_mutex f)
      pure u

/-- `Synths<Envel>::get(envelParam)`. -/
def Synths.get {C K : Type} [LinearOrder K] (ext : External C K) (f : Family)
    (envelParam : K) : M C K Using := do
  lock (.map_mutex f)
  let s ← getState
  match SynthMap.find (s.map f) envelParam with
  | some none => undefinedBehaviour
  | some (some o) => do
    let u ← Using.ctor o.addr
    unlock (.map_mutex f)
    pure u
  | none => do
    match ← Synths.recycleInstrument ext f envelParam with
    | some p => do
      let u ← Using.ctor p
      unlock (.map_mutex f)
      pure u
    | none => do
      let c ← addNoXfadeChannels ext.n_channels
      let s1 ← getState
      let p : withChannels K := { addr := s1.fresh, chans := c, param := none }
      modifyState fun s => { s with fresh := s.fresh + 1 }
      -- SetParam<Envel>::set(envelParam, p->obj);
      let p : withChannels K := { p with param := some envelParam }
      call (.synthInitialize p.addr c)
      if !ext.initializeSynth envelParam c then
        let s2 ← getState
        match s2.map f with
        | (_, oneSynth) :: _ => do
          -- LG(ERR, "a preexisting synth is returned");
          flagForRemoval c
          match oneSynth with
          | none => undefinedBehaviour
          | some o1 => do
            let u ← Using.ctor o1.addr
            withChannels.destructor p
            unlock (.map_mutex f)
            pure u
        | [] =>
          -- LG(ERR, "an uninitialized synth is returned");
          Synths.getEmplace f envelParam p
      else
        Synths.getEmplace f envelParam p

/-- The loop `for(auto & s : map()) s.second->finalize();`. -/
def Synths.finalizeLoop {C K : Type} : SynthMap K → M C K Unit
  | [] => pure ()
  | (_, none) :: _ => undefinedBehaviour
  | (_, some o) :: rest => do
    call (.synthFinalize o.addr)
    Synths.finalizeLoop rest

/-- The destruction of the elements of a map by `clear()`, the elements given in the order of
their destruction: each instrument is destroyed by `~withChannels()`. -/
def Synths.clear.erase {C K : Type} : SynthMap K → M C K Unit
  | [] => pure ()
  | (_, i) :: rest => do
    match i with
    | none => pure ()
    | some o => withChannels.destructor o
    Synths.clear.erase rest

/-- The call `map().clear()`.  The order in which the elements are destroyed is the
library's: `_M_erase` of libstdc++ frees the right subtree of a node, then the node, then
goes on with the left subtree, which is from the last key of the map to the first.  The
map is empty afterwards. -/
def Synths.clear {C K : Type} (f : Family) : M C K Unit := do
  let s ← getState
  Synths.clear.erase (s.map f).reverse
  modifyState fun s => s.setMap f []

/-- `Synths<Envel>::finalize()`. -/
def Synths.finalize {C K : Type} (f : Family) : M C K Unit := do
  lock (.map_mutex f)
  let s ← getState
  Synths.finalizeLoop (s.map f)
  Synths.clear f
  unlock (.map_mutex f)

/-- `midiEvent<Env>(env, e)`: the `Using` temporary is destroyed when the result of
`onEvent2` has been computed. -/
def midiEvent {C K : Type} [LinearOrder K] (ext : External C K) (f : Family) (env : K)
    (e : Event) : M C K Bool := do
  let u ← Synths.get ext f env
  call (.onEvent2 u.o e)
  let r := ext.onEvent2 u.o e
  Using.destructor u
  pure r

/-! ## `wrapper.cpp` -/

/-- The call `getChannelsXFade().emplace_front(..., 255, 1)` of `initializeAudioOutput`.  Returns the
new group. -/
def addXfadeChannels {C K : Type} : M C K Nat := fun s =>
  .ret s.fresh { s with
    xfade :=
      { id := s.fresh, nVoices := 255, n_max_orchestrator_per_channel := 1,
        flaggedForRemoval := false } :: s.xfade
    fresh := s.fresh + 1 }

/-- The first user's part of `initializeAudioOutput`: from `disableDenormals()` to the end
of the function. -/
def initializeAudioOutput.first {C K : Type} (ext : External C K)
    (minLatencySeconds : AudioFloat) : M C K Bool := do
  call .disableDenormals
  let xfadeChan ← addXfadeChannels
  call .windVoiceInitializeSlow
  call (.windVoiceInitialize xfadeChan)
  if !ext.initializeWindVoice xfadeChan then
    -- LG(ERR,"windVoice().initialize failed");
    pure false
  else do
    modifyState fun s => { s with xfadeChannels := some xfadeChan }
    let s ← getState
    let r := ext.Init minLatencySeconds s.ctxt
    modifyState fun s => { s with ctxt := r.2 }
    if !r.1 then
      pure false
    else do
      call .sleep_for
      pure true

/-- The value that a 32-bit `int` holds when the exact result of an operation is `n`: `n`
reduced modulo `2^32` into `[-2^31, 2^31)`.  This is the conversion of a `size_t` to `int`,
and it is what `++` and `--` leave in an `int` on a two's complement build. -/
def wrapInt32 (n : Int) : Int :=
  (n + 2147483648) % 4294967296 - 2147483648

/-- The body of `initializeAudioOutput` after `++countUsers()`, up to its `return`.
`Assert(0)` is taken as in a build where assertions are off: the next statement runs. -/
def initializeAudioOutput.body {C K : Type} (ext : External C K)
    (minLatencySeconds : AudioFloat) (portaudioMinLatencyMillis : Int) : M C K Bool := do
  let s ← getState
  if s.countUsers > 1 then
    -- We are ** not ** the first user.
    pure (ext.Initialized s.ctxt)
  else if s.countUsers ≤ 0 then
    pure (ext.Initialized s.ctxt)
  else if portaudioMinLatencyMillis > 0 then do
    call (.overridePortaudioMinLatencyMillis portaudioMinLatencyMillis)
    if !ext.overridePortaudioMinLatencyMillis portaudioMinLatencyMillis then
      pure false
    else
      initializeAudioOutput.first ext minLatencySeconds
  else
    initializeAudioOutput.first ext minLatencySeconds

/-- `initializeAudioOutput(minLatencySeconds, portaudioMinLatencyMillis)`. -/
def initializeAudioOutput {C K : Type} (ext : External C K)
    (minLatencySeconds : AudioFloat) (portaudioMinLatencyMillis : Int) : M C K Bool := do
  lock .initMutex
  modifyState fun s => { s with countUsers := wrapInt32 (s.countUsers + 1) }
  let r ← initializeAudioOutput.body ext minLatencySeconds portaudioMinLatencyMillis
  unlock .initMutex
  pure r

/-- The part of `teardownAudioOutput` that the last user runs. -/
def teardownAudioOutput.last {C K : Type} (ext : External C K) : M C K Unit := do
  let s ← getState
  if ext.Initialized s.ctxt then
    modifyState fun s => { s with ctxt := ext.onApplicationShouldClose s.ctxt }
    -- we sleep whil channels are crossfaded to zero
    call .sleep_for
  call .windVoiceFinalize
  Synths.finalize .SimpleLinear
  Synths.finalize .WaitForKeyRelease
  Synths.finalize .ReleaseAfterDecay
  modifyState fun s => { s with ctxt := ext.TearDown s.ctxt }
  modifyState fun s => { s with xfade := [] }
  modifyState fun s => { s with noXfade := [] }

/-- `teardownAudioOutput()`. -/
def teardownAudioOutput {C K : Type} (ext : External C K) : M C K Unit := do
  lock .initMutex
  modifyState fun s => { s with countUsers := wrapInt32 (s.countUsers - 1) }
  let s ← getState
  if s.countUsers > 0 then
    -- We are ** not ** the last user.
    unlock .initMutex
  else do
    teardownAudioOutput.last ext
    unlock .initMutex

/-- `midiNoteOn(envelCharacTime, pitch, velocity)`. -/
def midiNoteOn {C K : Type} [LinearOrder K] (ext : External C K)
    (envelCharacTime pitch : Int) (velocity : AudioFloat) : M C K Bool := do
  let s ← getState
  if !ext.Initialized s.ctxt then
    pure false
  else
    midiEvent ext .SimpleLinear (ext.SimpleLinearParam envelCharacTime) (.mkNoteOn pitch velocity)

/-- `midiNoteOff(envelCharacTime, pitch)`. -/
def midiNoteOff {C K : Type} [LinearOrder K] (ext : External C K)
    (envelCharacTime pitch : Int) : M C K Bool := do
  let s ← getState
  if !ext.Initialized s.ctxt then
    pure false
  else
    midiEvent ext .SimpleLinear (ext.SimpleLinearParam envelCharacTime) (.mkNoteOff pitch)

/-- Modelled from the spec: `imajuscule::envelType`, whose declaration is not in the source
files.  The spec has two AHDSR families, release-after-decay and wait-for-key-release, and
the discriminant selects one. -/
inductive envelType
  | AHDSR_ReleaseAfterDecay
  | AHDSR_WaitForKeyRelease
deriving DecidableEq, Repr

/-- Modelled from the spec: `midiEventAHDSR(t, p, n)`, whose definition is not in the source
files.  The spec (4.G): the AHDSR pair "dispatches to the correct family by an `envelType`
discriminant", acquires a handle from that registry and calls the instrument's `onEvent`. -/
def midiEventAHDSR {C K : Type} [LinearOrder K] (ext : External C K) (t : envelType) (p : K)
    (n : Event) : M C K Bool :=
  match t with
  | .AHDSR_ReleaseAfterDecay => midiEvent ext .ReleaseAfterDecay p n
  | .AHDSR_WaitForKeyRelease => midiEvent ext .WaitForKeyRelease p n

/-- `midiNoteOnAHDSR_(t, a, ai, h, d, di, s, r, ri, pitch, velocity)`. -/
def midiNoteOnAHDSR_ {C K : Type} [LinearOrder K] (ext : External C K) (t : envelType)
    (a ai h d di : Int) (s : AudioFloat) (r ri pitch : Int) (velocity : AudioFloat) :
    M C K Bool := do
  let st ← getState
  if !ext.Initialized st.ctxt then
    pure false
  else
    midiEventAHDSR ext t (ext.AHDSRParam a ai h d di s r ri) (.mkNoteOn pitch velocity)

/-- `midiNoteOffAHDSR_(t, a, ai, h, d, di, s, r, ri, pitch)`. -/
def midiNoteOffAHDSR_ {C K : Type} [LinearOrder K] (ext : External C K) (t : envelType)
    (a ai h d di : Int) (s : AudioFloat) (r ri pitch : Int) : M C K Bool := do
  let st ← getState
  if !ext.Initialized st.ctxt then
    pure false
  else
    midiEventAHDSR ext t (ext.AHDSRParam a ai h d di s r ri) (.mkNoteOff pitch)

/-- `effectOn(program, pitch, velocity)`: `playOneThing` is outside code, called on
`*getXfadeChannels()`. -/
def effectOn {C K : Type} (ext : External C K) (program pitch : Int) (velocity : AudioFloat) :
    M C K Bool := do
  let s ← getState
  if !ext.Initialized s.ctxt then
    pure false
  else do
    call (.playOneThing s.xfadeChannels program pitch velocity)
    pure (ext.playOneThing s.xfadeChannels program pitch velocity)

/-- `effectOff(pitch)`: `stopPlaying` is outside code, called on `*getXfadeChannels()`. -/
def effectOff {C K : Type} (ext : External C K) (pitch : Int) : M C K Bool := do
  let s ← getState
  if !ext.Initialized s.ctxt then
    pure false
  else do
    call (.stopPlaying s.xfadeChannels pitch)
    pure (ext.stopPlaying s.xfadeChannels pitch)

/-- The statics when the program starts: `static int n(0)`, empty maps and collections, no
mutex locked.  `c` is the audio context as constructed. -/
def State.initial {C K : Type} (c : C) : State C K :=
  { countUsers := 0, ctxt := c, xfade := [], noXfade := [], xfadeChannels := none,
    synths := Registries.empty,
    fresh := 0, calls := [], locked := [], held := [], acquisitions := [] }


/-! ## The envelope analyzer -/

/-- `enum class EnvelopeRelease`: the two values that the sources name. -/
inductive EnvelopeRelease
  | WaitForKeyRelease
  | ReleaseAfterDecay
deriving DecidableEq, Repr

/-- The envelope type `Env` of `envelopeGraphVec<Env>`.  Its class is outside the source
files and is taken as a parameter: `E` is the state of an envelope object, `P` is
`Env::Param`, `init` is the default-constructed object, every member function that
`envelopeGraphVec` calls is a function on `E`, `value` is `e.value()` converted to `float`,
`EnvelopeDone1 e` is `e.getRelaxedState() == EnvelopeState::EnvelopeDone1` and `Release`
is the constant `Env::Release`. -/
structure Envelope (E P : Type) where
  Release : EnvelopeRelease
  init : E
  setAHDSR : P → E → E
  onKeyPressed : E → E
  onKeyReleased : E → E
  step : E → E
  value : E → AudioFloat
  afterAttackBeforeSustain : E → Bool
  EnvelopeDone1 : E → Bool

/-- What `envelopeGraphVec` returns, `{std::move(v), splitAt}`, together with a record that
the C++ does not keep: `keyReleases` holds `v.size()` at each call of `e.onKeyReleased()`.
`splitAt` is an `int`: `v.size()` is narrowed when it is assigned. -/
structure EnvelopeGraph where
  v : List AudioFloat
  splitAt : Int
  keyReleases : List Nat
deriving DecidableEq, Repr

/-- The local variables of `envelopeGraphVec` that its two loops read and write. -/
structure envelopeGraphVec.Locals (E : Type) where
  e : E
  splitAt : Int
  v : List AudioFloat
  keyReleases : List Nat

/-- The `for` loop of `envelopeGraphVec`; its counter `i` is never read, so that no value of
`i` has an effect.  Each test of the
loop condition uses one unit of `fuel`; `none` means the loop is still running when the
fuel is spent. -/
def envelopeGraphVec.forLoop {E P : Type} (env : Envelope E P) :
    Nat → envelopeGraphVec.Locals E → Option (envelopeGraphVec.Locals E)
  | 0, _ => none
  | fuel + 1, l =>
    if env.EnvelopeDone1 l.e then
      some l
    else
      let l := { l with e := env.step l.e }
      let l := { l with v := l.v ++ [env.value l.e] }
      if !env.afterAttackBeforeSustain l.e then
        let l := { l with splitAt := wrapInt32 (l.v.length : Int) }
        if env.Release = EnvelopeRelease.WaitForKeyRelease then
          -- emulate a key-release
          some { l with e := env.onKeyReleased l.e, keyReleases := l.keyReleases ++ [l.v.length] }
        else
          some l
      else
        envelopeGraphVec.forLoop env fuel l

/-- The `while` loop of `envelopeGraphVec`, with fuel as in `forLoop`. -/
def envelopeGraphVec.whileLoop {E P : Type} (env : Envelope E P) :
    Nat → envelopeGraphVec.Locals E → Option (envelopeGraphVec.Locals E)
  | 0, _ => none
  | fuel + 1, l =>
    if env.EnvelopeDone1 l.e then
      some l
    else
      let l := { l with e := env.step l.e }
      envelopeGraphVec.whileLoop env fuel { l with v := l.v ++ [env.value l.e] }

/-- `envelopeGraphVec<Env>(envParams)`: the result when both loops end within `fuel` tests
of their condition each, `none` when one of them is still running then. -/
def envelopeGraphVec {E P : Type} (env : Envelope E P) (envParams : P) (fuel : Nat) :
    Option EnvelopeGraph :=
  let e := env.init
  let e := env.setAHDSR envParams e
  -- emulate a key-press
  let e := env.onKeyPressed e
  match envelopeGraphVec.forLoop env fuel { e := e, splitAt := -1, v := [], keyReleases := [] } with
  | none => none
  | some l =>
    match envelopeGraphVec.whileLoop env fuel l with
    | none => none
    | some l => some { v := l.v, splitAt := l.splitAt, keyReleases := l.keyReleases }

/-- Modelled from the spec: the parameters `AHDSR` of an envelope, whose declaration is not
in the source files; the fields are in the order in which `analyzeAHDSREnvelope_` builds
`AHDSR{a, toItp(ai), h, d, toItp(di), r, toItp(ri), s}`.  The spec (3): "attack time/curve,
hold, decay time/curve, sustain level, release time/curve"; times are in samples. -/
structure AHDSR where
  attack : Int
  attackItp : Int
  hold : Int
  decay : Int
  decayItp : Int
  release : Int
  releaseItp : Int
  sustain : AudioFloat
deriving DecidableEq, Repr

/-- Modelled from the spec: the state of an AHDSR envelope object, which is the parameters,
the number `t` of steps since the key press, and the value of `t` at the key release. -/
structure AHDSREnvelope.State where
  params : AHDSR
  t : Nat
  released : Option Nat
deriving DecidableEq, Repr

/-- Modelled from the spec: the phases of the envelope shape (glossary: "Attack, Hold,
Decay, Sustain, Release"), and the terminal state. -/
inductive AHDSREnvelope.Phase
  | attack
  | hold
  | decay
  | sustain
  | release
  | done
deriving DecidableEq, Repr

/-- Modelled from the spec: the phase of an AHDSR envelope.  Attack, hold and decay last
`a`, `h` and `d` steps (property 5: the boundary is at `10+5+20`).  Then the
wait-for-key-release family stays in sustain until the key release and is done `r` steps
after it ("note-off drives the release segment"), and the release-after-decay family goes
on with the release and is done `r` steps later ("no note-off honoured"). -/
def AHDSREnvelope.phase (rel : EnvelopeRelease) (e : AHDSREnvelope.State) :
    AHDSREnvelope.Phase :=
  let a := e.params.attack.toNat
  let h := e.params.hold.toNat
  let d := e.params.decay.toNat
  let r := e.params.release.toNat
  match e.released with
  | some t0 => if r ≤ e.t - t0 then .done else .release
  | none =>
    if e.t < a then .attack
    else if e.t < a + h then .hold
    else if e.t < a + h + d then .decay
    else
      match rel with
      | .WaitForKeyRelease => .sustain
      | .ReleaseAfterDecay => if a + h + d + r ≤ e.t then .done else .release

/-- Modelled from the spec: the class `AHDSREnvelope<A, T, Rel>`, which is not in the source
files, as far as `envelopeGraphVec` uses it.  The spec (4.A) has the analyzer step "until
the attack→sustain phase boundary is observed": `afterAttackBeforeSustain` is false in the
sustain phase only.  The samples are floating-point values of the curves and are taken as
a parameter, `value`. -/
def AHDSREnvelope (rel : EnvelopeRelease) (value : AHDSREnvelope.State → AudioFloat) :
    Envelope AHDSREnvelope.State AHDSR :=
  { Release := rel
    init :=
      { params := { attack := 0, attackItp := 0, hold := 0, decay := 0, decayItp := 0,
                    release := 0, releaseItp := 0, sustain := { bits := 0 } },
        t := 0, released := none }
    setAHDSR := fun p e => { e with params := p }
    onKeyPressed := fun e => { e with t := 0, released := none }
    onKeyReleased := fun e =>
      match rel, e.released with
      | .WaitForKeyRelease, none => { e with released := some e.t }
      | _, _ => e
    step := fun e => { e with t := e.t + 1 }
    value := value
    afterAttackBeforeSustain := fun e => AHDSREnvelope.phase rel e != .sustain
    EnvelopeDone1 := fun e => AHDSREnvelope.phase rel e == .done }

/-! ## Vocabulary of the statements -/

/-- The call returns, and its result and the state it leaves satisfy `P`. -/
def Outcome.Returns {σ α : Type} (o : Outcome σ α) (P : α → σ → Prop) : Prop :=
  match o with
  | .ret a s => P a s
  | .blocked _ => False
  | .undefinedBehaviour _ => False

/-- A call of the lifecycle interface. -/
inductive LifecycleCall
  | init (minLatencySeconds : AudioFloat) (portaudioMinLatencyMillis : Int)
  | teardown
deriving DecidableEq, Repr

/-- Runs one lifecycle call; the result of an initialization is dropped. -/
def LifecycleCall.run {C K : Type} (ext : External C K) : LifecycleCall → M C K Unit
  | .init minLatencySeconds portaudioMinLatencyMillis => do
    let _ ← initializeAudioOutput ext minLatencySeconds portaudioMinLatencyMillis
    pure ()
  | .teardown => teardownAudioOutput ext

/-- Runs lifecycle calls one after the other, each with what the outside code answers
during that call. -/
def runCalls {C K : Type} : List (External C K × LifecycleCall) → M C K Unit
  | [] => pure ()
  | (ext, c) :: rest => do
    c.run ext
    runCalls rest

/-- The number of calls to `initializeAudioOutput` in a sequence. -/
def countInitializations {C K : Type} (calls : List (External C K × LifecycleCall)) : Nat :=
  calls.countP fun c => c.2 != .teardown

/-- The number of calls to `teardownAudioOutput` in a sequence. -/
def countTeardowns {C K : Type} (calls : List (External C K × LifecycleCall)) : Nat :=
  calls.countP fun c => c.2 == .teardown

/-- The instruments that a map owns, in the order of the map. -/
def SynthMap.instruments {K : Type} (m : SynthMap K) : List (withChannels K) :=
  m.filterMap fun e => e.2

/-- No element of the map has a null pointer. -/
def SynthMap.NoNull {K : Type} (m : SynthMap K) : Prop :=
  ∀ e ∈ m, e.2 ≠ none

/-- The in-use latch of every instrument of the map is free. -/
def SynthMap.NotInUse {K : Type} (m : SynthMap K) (locked : List Latch) : Prop :=
  ∀ o ∈ m.instruments, Latch.isUsed o.addr ∉ locked

/-- The calls `s.second->finalize()` that `Synths<Envel>::finalize()` makes on a map. -/
def SynthMap.finalizeCalls {K : Type} (m : SynthMap K) : List Call :=
  m.instruments.map fun o => .synthFinalize o.addr

/-- The acquisitions of `map().clear()`: the in-use latch of each instrument, with `held`,
from the last instrument of the map to the first. -/
def SynthMap.clearAcquisitions {K : Type} (m : SynthMap K) (held : List Latch) :
    List (Latch × List Latch) :=
  m.instruments.reverse.map fun o => (.isUsed o.addr, held)

/-- The acquisitions of `Synths<Envel>::finalize()` for family `f` on map `m`. -/
def SynthMap.finalizeAcquisitions {K : Type} (f : Family) (m : SynthMap K)
    (held : List Latch) : List (Latch × List Latch) :=
  (.map_mutex f, held) :: m.clearAcquisitions (.map_mutex f :: held)

/-- The keys of the map are strictly increasing in iteration order, as in every `std::map`. -/
def SynthMap.Ordered {K : Type} [LinearOrder K] (m : SynthMap K) : Prop :=
  m.Pairwise fun a b => a.1 < b.1

/-- The test of `recycleInstrument` on one element: the pointer is not null, the in-use latch
of the instrument is free, and its channel group has no realtime function. -/
def recyclable {C K : Type} (ext : External C K) (locked : List Latch)
    (e : K × Option (withChannels K)) : Bool :=
  match e.2 with
  | none => false
  | some o => decide (Latch.isUsed o.addr ∉ locked) && !ext.hasRealtimeFunctions o.chans

/-- The acquisitions of the `tryScopedLock`s of `recycleInstrument` over the elements `m`:
one for each instrument whose in-use latch is free. -/
def SynthMap.tryAcquisitions {K : Type} (m : SynthMap K) (locked held : List Latch) :
    List (Latch × List Latch) :=
  (m.instruments.filter fun o => decide (Latch.isUsed o.addr ∉ locked)).map fun o =>
    (.isUsed o.addr, held)

/-- The flag that `remover.flagForRemoval()` sets on the group `c`. -/
def flagged (c : Nat) (g : Channels) : Channels :=
  if g.id = c then { g with flaggedForRemoval := true } else g

/-- The degraded path of `Synths<Envel>::get(k)`: `k` is not in the map, no element can be
recycled, the initialization of the new instrument (on the group `s.fresh`, the next that is
created) fails, and the map is not empty. -/
def Synths.isFallback {C K : Type} [DecidableEq K] (ext : External C K) (s : State C K)
    (f : Family) (k : K) : Prop :=
  SynthMap.find (s.map f) k = none ∧ (∀ e ∈ s.map f, recyclable ext s.locked e = false) ∧
    ext.initializeSynth k s.fresh = false ∧ s.map f ≠ []

/-- Objects that are not created yet have no identity in the statics: no in-use latch of
such an object is locked, and the instruments of the map of `f` and the non-crossfaded
groups were created before. -/
def State.Fresh {C K : Type} (s : State C K) (f : Family) : Prop :=
  (∀ a, s.fresh ≤ a → Latch.isUsed a ∉ s.locked) ∧
    (∀ o ∈ (s.map f).instruments, o.addr < s.fresh) ∧ (∀ g ∈ s.noXfade, g.id < s.fresh)

/-- The latch is the `map_mutex()` of a family. -/
def Latch.isRegistry : Latch → Bool
  | .map_mutex _ => true
  | _ => false

/-- The latch is the `isUsed` of an instrument. -/
def Latch.isInUse : Latch → Bool
  | .isUsed _ => true
  | _ => false

/-- The acquisition of `l` by a thread that holds `held` is against the order
init → registry → in-use: the init latch is acquired while a registry latch or an in-use
latch is held, or a registry latch is acquired while an in-use latch is held. -/
def violatesOrder : Latch → List Latch → Bool
  | .initMutex, held => held.any fun h => h.isRegistry || h.isInUse
  | .map_mutex _, held => held.any fun h => h.isInUse
  | .isUsed _, _ => false

/-- Every recorded acquisition respects the order init → registry → in-use. -/
def State.LockOrdered {C K : Type} (s : State C K) : Prop :=
  ∀ a ∈ s.acquisitions, violatesOrder a.1 a.2 = false

/-- The operations of the control path. -/
inductive ControlOp (K : Type)
  | initializeAudioOutput (minLatencySeconds : AudioFloat) (portaudioMinLatencyMillis : Int)
  | teardownAudioOutput
  | get (f : Family) (envelParam : K)
  | recycleInstrument (f : Family) (envelParam : K)
  | finalize (f : Family)
  | withChannelsDestructor (o : withChannels K)
  | UsingConstructor (o : Nat)
  | UsingDestructor (u : Using)
  | midiEvent (f : Family) (env : K) (e : Event)
  | midiNoteOn (envelCharacTime pitch : Int) (velocity : AudioFloat)
  | midiNoteOff (envelCharacTime pitch : Int)
  | midiNoteOnAHDSR_ (t : envelType) (a ai h d di : Int) (s : AudioFloat) (r ri pitch : Int)
      (velocity : AudioFloat)
  | midiNoteOffAHDSR_ (t : envelType) (a ai h d di : Int) (s : AudioFloat) (r ri pitch : Int)

/-- Runs an operation; its result is dropped. -/
def ControlOp.run {C K : Type} [LinearOrder K] (ext : External C K) :
    ControlOp K → M C K Unit
  | .initializeAudioOutput l ms => do
    let _ ← imajuscule.initializeAudioOutput ext l ms
    pure ()
  | .teardownAudioOutput => imajuscule.teardownAudioOutput ext
  | .get f k => do
    let _ ← Synths.get ext f k
    pure ()
  | .recycleInstrument f k => do
    let _ ← Synths.recycleInstrument ext f k
    pure ()
  | .finalize f => Synths.finalize f
  | .withChannelsDestructor o => withChannels.destructor o
  | .UsingConstructor o => do
    let _ ← Using.ctor o
    pure ()
  | .UsingDestructor u => Using.destructor u
  | .midiEvent f env e => do
    let _ ← imajuscule.midiEvent ext f env e
    pure ()
  | .midiNoteOn t p v => do
    let _ ← imajuscule.midiNoteOn ext t p v
    pure ()
  | .midiNoteOff t p => do
    let _ ← imajuscule.midiNoteOff ext t p
    pure ()
  | .midiNoteOnAHDSR_ t a ai h d di s r ri p v => do
    let _ ← imajuscule.midiNoteOnAHDSR_ ext t a ai h d di s r ri p v
    pure ()
  | .midiNoteOffAHDSR_ t a ai h d di s r ri p => do
    let _ ← imajuscule.midiNoteOffAHDSR_ ext t a ai h d di s r ri p
    pure ()

/-- What the caller may hold when the operation starts: nothing that is later in the order
than the first latch the operation acquires.  The two lifecycle functions start with the
init latch; `get`, `finalize` and the note calls with a registry latch; the others only
acquire in-use latches. -/
def ControlOp.entry {K : Type} : ControlOp K → List Latch → Bool
  | .initializeAudioOutput _ _, held => !violatesOrder .initMutex held
  | .teardownAudioOutput, held => !violatesOrder .initMutex held
  | .recycleInstrument _ _, _ => true
  | .withChannelsDestructor _, _ => true
  | .UsingConstructor _, _ => true
  | .UsingDestructor _, _ => true
  | _, held => !held.any fun h => h.isInUse

/-- A piece of the control path that starts while the caller holds `H`: the record of the
acquisitions stays in order, whatever the outcome, and when the piece returns `a` the
caller holds what `Q a` says. -/
def SafeFrom {C K α : Type} (H : List Latch) (m : M C K α) (Q : α → List Latch → Prop) :
    Prop :=
  ∀ s : State C K, s.LockOrdered → s.held = H →
    (m s).state.LockOrdered ∧ ∀ a s1, m s = .ret a s1 → Q a s1.held

/-- The statics are consistent: every map is a `std::map` of non-null pointers, and no
identity is used before its object is created. -/
def State.Wellformed {C K : Type} [LinearOrder K] (s : State C K) : Prop :=
  ∀ f, (s.map f).NoNull ∧ (s.map f).Ordered ∧ s.Fresh f

/-- The statics between two calls of the interface by one thread: consistent, and no mutex
is locked. -/
def State.Idle {C K : Type} [LinearOrder K] (s : State C K) : Prop :=
  s.Wellformed ∧ s.locked = []

/-- A call of the foreign interface. -/
inductive ApiCall
  | initializeAudioOutput (minLatencySeconds : AudioFloat) (portaudioMinLatencyMillis : Int)
  | teardownAudioOutput
  | midiNoteOn (envelCharacTime pitch : Int) (velocity : AudioFloat)
  | midiNoteOff (envelCharacTime pitch : Int)
  | midiNoteOnAHDSR_ (t : envelType) (a ai h d di : Int) (s : AudioFloat) (r ri pitch : Int)
      (velocity : AudioFloat)
  | midiNoteOffAHDSR_ (t : envelType) (a ai h d di : Int) (s : AudioFloat) (r ri pitch : Int)
  | effectOn (program pitch : Int) (velocity : AudioFloat)
  | effectOff (pitch : Int)

/-- Runs a call of the foreign interface; its result is dropped. -/
def ApiCall.run {C K : Type} [LinearOrder K] (ext : External C K) : ApiCall → M C K Unit
  | .initializeAudioOutput l ms => do
    let _ ← imajuscule.initializeAudioOutput ext l ms
    pure ()
  | .teardownAudioOutput => imajuscule.teardownAudioOutput ext
  | .midiNoteOn t p v => do
    let _ ← imajuscule.midiNoteOn ext t p v
    pure ()
  | .midiNoteOff t p => do
    let _ ← imajuscule.midiNoteOff ext t p
    pure ()
  | .midiNoteOnAHDSR_ t a ai h d di s r ri p v => do
    let _ ← imajuscule.midiNoteOnAHDSR_ ext t a ai h d di s r ri p v
    pure ()
  | .midiNoteOffAHDSR_ t a ai h d di s r ri p => do
    let _ ← imajuscule.midiNoteOffAHDSR_ ext t a ai h d di s r ri p
    pure ()
  | .effectOn program p v => do
    let _ ← imajuscule.effectOn ext program p v
    pure ()
  | .effectOff p => do
    let _ ← imajuscule.effectOff ext p
    pure ()

/-- Runs calls of the foreign interface one after the other, each with what the outside
code answers during that call. -/
def runApi {C K : Type} [LinearOrder K] : List (External C K × ApiCall) → M C K Unit
  | [] => pure ()
  | (ext, c) :: rest => do
    c.run ext
    runApi rest

/-- The statics of a program that has no instrument and no locked mutex. -/
def Quiet {C K : Type} (s : State C K) : Prop :=
  s.locked = [] ∧ s.synths = Registries.empty

/-- The acquisitions of the last user's teardown: the three `finalize()` in turn. -/
def Registries.finalizeAcquisitions {K : Type} (r : Registries K) (held : List Latch) :
    List (Latch × List Latch) :=
  r.simpleLinear.finalizeAcquisitions .SimpleLinear held ++
    r.waitForKeyRelease.finalizeAcquisitions .WaitForKeyRelease held ++
    r.releaseAfterDecay.finalizeAcquisitions .ReleaseAfterDecay held

/-- The calls `finalize()` of the last user's teardown on the instruments. -/
def Registries.finalizeCalls {K : Type} (r : Registries K) : List Call :=
  r.simpleLinear.finalizeCalls ++ r.waitForKeyRelease.finalizeCalls ++
    r.releaseAfterDecay.finalizeCalls

/-! ## Concrete instances -/

/-- Outside code for the concrete instances: the context is its initialized flag, `Init`
succeeds, `synthOk` is the result of every synth initialization, and the channel groups
listed in `busy` have realtime functions. -/
def Example.ext (synthOk : Bool) (busy : List Nat) : External Bool Int :=
  { Initialized := fun c => c
    Init := fun _ _ => (true, true)
    onApplicationShouldClose := fun c => c
    TearDown := fun _ => false
    overridePortaudioMinLatencyMillis := fun _ => true
    initializeWindVoice := fun _ => true
    initializeSynth := fun _ _ => synthOk
    hasRealtimeFunctions := fun c => decide (c ∈ busy)
    n_channels := 32
    onEvent2 := fun _ _ => true
    playOneThing := fun _ _ _ _ => true
    stopPlaying := fun _ _ => true
    SimpleLinearParam := fun t => t
    AHDSRParam := fun a _ _ _ _ _ _ _ => a }

/-- Statics with `n` users, the context initialized or not, and two simple-linear
instruments under the keys 100 and 200, on the groups 1 and 3. -/
def Example.twoSynths (n : Int) (initialized : Bool) (locked : List Latch) : State Bool Int :=
  { countUsers := n, ctxt := initialized
    xfade := [{ id := 0, nVoices := 255, n_max_orchestrator_per_channel := 1,
                flaggedForRemoval := false }]
    noXfade := [{ id := 3, nVoices := 32, n_max_orchestrator_per_channel := 0,
                  flaggedForRemoval := false },
                { id := 1, nVoices := 32, n_max_orchestrator_per_channel := 0,
                  flaggedForRemoval := false }]
    xfadeChannels := some 0
    synths :=
      { simpleLinear := [(100, some { addr := 2, chans := 1, param := some 100 }),
                         (200, some { addr := 4, chans := 3, param := some 200 })]
        waitForKeyRelease := []
        releaseAfterDecay := [] }
    fresh := 5, calls := [], locked := locked, held := [], acquisitions := [] }

/-- Three lifecycle calls, two initializations and a teardown, with outside code whose
initializations succeed. -/
def Example.lifecycle : List (External Bool Int × LifecycleCall) :=
  [(Example.ext true [], .init ⟨0⟩ 0), (Example.ext true [], .init ⟨0⟩ 0),
   (Example.ext true [], .teardown)]

/-- The statics `Example.twoSynths` inside `Synths<Envel>::get` for the simple-linear
family: the map's latch is held, and the instrument 2 is in use. -/
def Example.inUse : State Bool Int :=
  { Example.twoSynths 1 true [.isUsed 2, .map_mutex .SimpleLinear] with
    held := [.map_mutex .SimpleLinear] }

/-- The simple-linear map of `Example.twoSynths` after the instrument 4 has been recycled
for the key 150. -/
def Example.rekeyed : SynthMap Int :=
  [(100, some { addr := 2, chans := 1, param := some 100 }),
   (150, some { addr := 4, chans := 3, param := some 150 })]

/-- The statics `Example.twoSynths 1 true []` after `get` has created the instrument 6 on
the new group 5 for the key 300: the handle holds its in-use latch. -/
def Example.created : State Bool Int :=
  { Example.twoSynths 1 true [.isUsed 6] with
    noXfade :=
      { id := 5, nVoices := 32, n_max_orchestrator_per_channel := 0,
        flaggedForRemoval := false } :: (Example.twoSynths 1 true []).noXfade
    fresh := 7
    calls := [.synthInitialize 6 5]
    synths :=
      { simpleLinear := (Example.twoSynths 1 true []).synths.simpleLinear ++
          [(300, some { addr := 6, chans := 5, param := some 300 })]
        waitForKeyRelease := []
        releaseAfterDecay := [] }
    held := [.isUsed 6]
    acquisitions :=
      [(.map_mutex .SimpleLinear, []), (.isUsed 2, [.map_mutex .SimpleLinear]),
       (.isUsed 4, [.map_mutex .SimpleLinear]), (.isUsed 6, [.map_mutex .SimpleLinear])] }

/-- The statics `Example.twoSynths 1 true []` after the degraded fallback of `get` for the
key 300: the group 5 was created and flagged, the instrument 6 was created and destroyed,
the handle holds the in-use latch of the first instrument, 2. -/
def Example.degraded : State Bool Int :=
  { Example.twoSynths 1 true [.isUsed 2] with
    noXfade :=
      { id := 5, nVoices := 32, n_max_orchestrator_per_channel := 0,
        flaggedForRemoval := true } :: (Example.twoSynths 1 true []).noXfade
    fresh := 7
    calls := [.synthInitialize 6 5]
    held := [.isUsed 2]
    acquisitions :=
      [(.map_mutex .SimpleLinear, []), (.isUsed 2, [.map_mutex .SimpleLinear]),
       (.isUsed 4, [.map_mutex .SimpleLinear]), (.isUsed 2, [.map_mutex .SimpleLinear]),
       (.isUsed 6, [.isUsed 2, .map_mutex .SimpleLinear])] }

/-- The statics `Example.twoSynths 1 true [.isUsed 2]` after `get` has found the key 200:
the handle holds the in-use latch of the instrument 4. -/
def Example.handle : State Bool Int :=
  { Example.twoSynths 1 true [.isUsed 4, .isUsed 2] with
    held := [.isUsed 4]
    acquisitions := [(.map_mutex .SimpleLinear, []), (.isUsed 4, [.map_mutex .SimpleLinear])] }


/-! ## Vocabulary of the envelope analysis -/

/-- The envelope object of `envelopeGraphVec` when its first loop starts: constructed,
parameters set, key pressed. -/
def Envelope.pressed {E P : Type} (env : Envelope E P) (envParams : P) : E :=
  env.onKeyPressed (env.setAHDSR envParams env.init)

/-- The values of an envelope after each of `n` steps taken from `e`, in order. -/
def Envelope.samples {E P : Type} (env : Envelope E P) (e : E) (n : Nat) : List AudioFloat :=
  (List.range n).map fun i => env.value (env.step^[i + 1] e)

/-- Stepped from `e`, the envelope first reports done after `n` steps. -/
def Envelope.DoneAfter {E P : Type} (env : Envelope E P) (e : E) (n : Nat) : Prop :=
  env.EnvelopeDone1 (env.step^[n] e) = true ∧ ∀ j, j < n → env.EnvelopeDone1 (env.step^[j] e) = false

/-- Stepped from `e`, the envelope reports done after `n` steps, not earlier, and the
boundary is not observed after any of these steps. -/
def Envelope.DoneBeforeBoundary {E P : Type} (env : Envelope E P) (e : E) (n : Nat) : Prop :=
  env.DoneAfter e n ∧
    ∀ k, 1 ≤ k → k ≤ n → env.afterAttackBeforeSustain (env.step^[k] e) = true

/-- Stepped from `e`, step `m` is the first step after which the boundary is observed
(`afterAttackBeforeSustain()` false), and the envelope has not reported done before it. -/
def Envelope.BoundaryAt {E P : Type} (env : Envelope E P) (e : E) (m : Nat) : Prop :=
  1 ≤ m ∧ (∀ j, j < m → env.EnvelopeDone1 (env.step^[j] e) = false) ∧
    (∀ k, 1 ≤ k → k < m → env.afterAttackBeforeSustain (env.step^[k] e) = true) ∧
    env.afterAttackBeforeSustain (env.step^[m] e) = false

/-- The envelope right after the boundary was observed in state `e`: the key is released
when the family honours the key release. -/
def Envelope.afterBoundary {E P : Type} (env : Envelope E P) (e : E) : E :=
  if env.Release = EnvelopeRelease.WaitForKeyRelease then env.onKeyReleased e else e

/-- The analysis that the spec describes for `envParams`, as a relation with the result
`g`.  Either the envelope reports done after `n` steps with no boundary observed: the
samples are the `n` values, the split is `-1` and no key release is issued.  Or the
boundary is first observed after step `m`, and from there (key released when the family
honours it) the envelope reports done after `n` more steps: the samples are the `m + n`
values, the split is `m`, and the key release, when honoured, is issued at `m` samples.
The split is the exact number here, not narrowed to an `int`. -/
def Analyzed {E P : Type} (env : Envelope E P) (envParams : P) (g : EnvelopeGraph) : Prop :=
  (∃ n, env.DoneBeforeBoundary (env.pressed envParams) n ∧
      g = { v := env.samples (env.pressed envParams) n, splitAt := -1, keyReleases := [] }) ∨
  (∃ m n, env.BoundaryAt (env.pressed envParams) m ∧
      env.DoneAfter (env.afterBoundary (env.step^[m] (env.pressed envParams))) n ∧
      g = { v := env.samples (env.pressed envParams) m ++
                  env.samples (env.afterBoundary (env.step^[m] (env.pressed envParams))) n,
            splitAt := (m : Int),
            keyReleases :=
              if env.Release = EnvelopeRelease.WaitForKeyRelease then [m] else [] })

/-- The result `g` as `envelopeGraphVec` holds it: the split in an `int`. -/
def EnvelopeGraph.narrowed (g : EnvelopeGraph) : EnvelopeGraph :=
  { g with splitAt := wrapInt32 g.splitAt }

/-- What the `for` loop leaves, started with the locals `l`, when it ends at index `k`:
either done is reported after `k` steps with no boundary observed, or the boundary is
first observed after step `k`. -/
def envelopeGraphVec.ForSpec {E P : Type} (env : Envelope E P) (l l' : envelopeGraphVec.Locals E) (k : Nat) : Prop :=
  (env.DoneBeforeBoundary l.e k ∧
      l' = { l with e := env.step^[k] l.e, v := l.v ++ env.samples l.e k }) ∨
  (env.BoundaryAt l.e k ∧
      l' = { e := env.afterBoundary (env.step^[k] l.e)
             splitAt := wrapInt32 ((l.v.length + k : Nat) : Int)
             v := l.v ++ env.samples l.e k
             keyReleases :=
               if env.Release = EnvelopeRelease.WaitForKeyRelease then
                 l.keyReleases ++ [l.v.length + k]
               else l.keyReleases })

/-- The number of steps of the attack, hold, decay and release of `p`, a negative time
counting as none. -/
def AHDSR.duration (p : AHDSR) : Nat :=
  p.attack.toNat + p.hold.toNat + p.decay.toNat + p.release.toNat

/-- An envelope that never reports done and never leaves the attack: its state is the
number of steps taken. -/
def Example.neverDone : Envelope Nat Unit :=
  { Release := .WaitForKeyRelease
    init := 0
    setAHDSR := fun _ e => e
    onKeyPressed := fun _ => 0
    onKeyReleased := fun e => e
    step := fun e => e + 1
    value := fun e => { bits := e }
    afterAttackBeforeSustain := fun _ => true
    EnvelopeDone1 := fun _ => false }

/-- An envelope that reports done after `envParams` steps and never leaves the attack. -/
def Example.countdown : Envelope Nat Nat :=
  { Release := .WaitForKeyRelease
    init := 0
    setAHDSR := fun n _ => n
    onKeyPressed := fun e => e
    onKeyReleased := fun e => e
    step := fun e => e - 1
    value := fun e => { bits := e }
    afterAttackBeforeSustain := fun _ => true
    EnvelopeDone1 := fun e => e == 0 }

/-- The parameters of the spec's properties 5 and 6: `a=10, h=5, d=20, r=15` and a sustain
level `s` (`0.5` there).  The interpolation codes select the curves, which the model does
not look at; they are left at `0`. -/
def Example.ahdsr (s : AudioFloat) : AHDSR :=
  { attack := 10, attackItp := 0, hold := 5, decay := 20, decayItp := 0,
    release := 15, releaseItp := 0, sustain := s }

/-- A sample that carries the step count, for runs of the AHDSR envelope whose curves are
not looked at. -/
def Example.stepCount (e : AHDSREnvelope.State) : AudioFloat :=
  { bits := e.t }

/-- An envelope of the wait-for-key-release kind: the boundary is observed after the third
step, and done is reported two steps after the key release. -/
def Example.plateau : Envelope (Nat × Option Nat) Unit :=
  { Release := .WaitForKeyRelease
    init := (0, none)
    setAHDSR := fun _ e => e
    onKeyPressed := fun _ => (0, none)
    onKeyReleased := fun e => (e.1, some e.1)
    step := fun e => (e.1 + 1, e.2)
    value := fun e => { bits := 10 * e.1 }
    afterAttackBeforeSustain := fun e => e.1 < 3
    EnvelopeDone1 := fun e =>
      match e.2 with
      | some t0 => t0 + 2 ≤ e.1
      | none => false }
/-! # Theorems -/


/-! ## Sequencing lemmas -/

section Lemmas

variable {C K : Type}

@[simp] theorem M.pure_apply {α : Type} (a : α) (s : State C K) :
    (pure a : M C K α) s = .ret a s := rfl

@[simp] theorem M.bind_apply {α β : Type} (m : M C K α) (f : α → M C K β) (s : State C K) :
    (m >>= f) s = M.bind m f s := rfl

@[simp] theorem getState_apply (s : State C K) : (getState : M C K _) s = .ret s s := rfl

@[simp] theorem modifyState_apply (g : State C K → State C K) (s : State C K) :
    modifyState g s = .ret () (g s) := rfl

@[simp] theorem call_apply (c : Call) (s : State C K) :
    call c s = .ret () { s with calls := s.calls ++ [c] } := rfl

@[simp] theorem unlock_apply (l : Latch) (s : State C K) :
    unlock l s = .ret () { s with locked := s.locked.erase l, held := s.held.erase l } := rfl

@[simp] theorem M.ite_apply {α : Type} (c : Prop) [Decidable c] (m1 m2 : M C K α)
    (s : State C K) : (if c then m1 else m2) s = if c then m1 s else m2 s := by
  split <;> rfl

theorem lock_free {l : Latch} {s : State C K} (h : l ∉ s.locked) :
    lock l s = .ret () { s with
      acquisitions := s.acquisitions ++ [(l, s.held)]
      locked := l :: s.locked
      held := l :: s.held } := by
  simp [lock, h]

/-! ### The maps of the statics -/

@[simp] theorem Registries.get_set_self (r : Registries K) (f : Family) (m : SynthMap K) :
    (r.set f m).get f = m := by
  cases f <;> rfl

theorem Registries.get_set_of_ne (r : Registries K) {f g : Family} (m : SynthMap K)
    (h : g ≠ f) : (r.set f m).get g = r.get g := by
  cases f <;> cases g <;> first | rfl | exact absurd rfl h

@[simp] theorem Registries.set_set (r : Registries K) (f : Family) (m m1 : SynthMap K) :
    (r.set f m).set f m1 = r.set f m1 := by
  cases f <;> rfl

@[simp] theorem Registries.set_get_self (r : Registries K) (f : Family) :
    r.set f (r.get f) = r := by
  cases f <;> rfl

/-! ### `Synths<Envel>::finalize` -/

theorem SynthMap.instruments_cons_some (k : K) (o : withChannels K) (m : SynthMap K) :
    SynthMap.instruments ((k, some o) :: m) = o :: SynthMap.instruments m := by
  simp [SynthMap.instruments]

theorem SynthMap.instruments_cons_none (k : K) (m : SynthMap K) :
    SynthMap.instruments ((k, none) :: m) = SynthMap.instruments m := by
  simp [SynthMap.instruments]

theorem Synths.finalizeLoop_eq (m : SynthMap K) (hn : m.NoNull) (s : State C K) :
    Synths.finalizeLoop m s = .ret () { s with calls := s.calls ++ m.finalizeCalls } := by
  induction m generalizing s with
  | nil => simp [Synths.finalizeLoop, SynthMap.finalizeCalls, SynthMap.instruments]
  | cons e rest ih =>
    obtain ⟨k, i⟩ := e
    have hrest : SynthMap.NoNull rest := fun e he => hn e (List.mem_cons_of_mem _ he)
    cases i with
    | none => exact absurd rfl (hn (k, none) (List.mem_cons_self _ _))
    | some o =>
      simp [Synths.finalizeLoop, M.bind, ih hrest, SynthMap.finalizeCalls,
        SynthMap.instruments_cons_some]

theorem Synths.clear.erase_eq (m : SynthMap K) (s : State C K)
    (hfree : m.NotInUse s.locked) :
    Synths.clear.erase m s = .ret ()
      { s with
        acquisitions :=
          s.acquisitions ++ m.instruments.map fun o => (Latch.isUsed o.addr, s.held) } := by
  induction m generalizing s with
  | nil => simp [Synths.clear.erase, SynthMap.instruments]
  | cons e rest ih =>
    obtain ⟨k, i⟩ := e
    cases i with
    | none =>
      have hfree1 : SynthMap.NotInUse rest s.locked := by
        intro o ho
        exact hfree o (by simpa [SynthMap.instruments_cons_none] using ho)
      simp only [Synths.clear.erase, M.bind_apply, M.bind, M.pure_apply]
      rw [ih _ hfree1]
      simp [SynthMap.instruments_cons_none]
    | some o =>
      have ho : Latch.isUsed o.addr ∉ s.locked :=
        hfree o (by simp [SynthMap.instruments_cons_some])
      have hfree1 : SynthMap.NotInUse rest s.locked := by
        intro o1 ho1
        exact hfree o1 (by simp [SynthMap.instruments_cons_some, ho1])
      simp only [Synths.clear.erase, withChannels.destructor, M.bind_apply, M.bind,
        lock_free ho, unlock_apply]
      rw [ih]
      · simp [SynthMap.instruments_cons_some]
      · simpa using hfree1

theorem SynthMap.instruments_reverse (m : SynthMap K) :
    SynthMap.instruments m.reverse = (SynthMap.instruments m).reverse := by
  simp [SynthMap.instruments, List.filterMap_reverse]

theorem Synths.clear_eq (f : Family) (s : State C K)
    (hfree : (s.map f).NotInUse s.locked) :
    Synths.clear f s = .ret ()
      { s with
        acquisitions := s.acquisitions ++ (s.map f).clearAcquisitions s.held
        synths := s.synths.set f [] } := by
  have hfree1 : SynthMap.NotInUse (s.map f).reverse s.locked := by
    intro o ho
    rw [SynthMap.instruments_reverse] at ho
    exact hfree o (List.mem_reverse.1 ho)
  simp only [Synths.clear, M.bind_apply, M.bind, getState_apply]
  rw [Synths.clear.erase_eq _ _ hfree1]
  simp [SynthMap.clearAcquisitions, SynthMap.instruments_reverse, State.setMap]

theorem Synths.finalize_eq (f : Family) (s : State C K) (hl : Latch.map_mutex f ∉ s.locked)
    (hn : (s.map f).NoNull) (hfree : (s.map f).NotInUse s.locked) :
    Synths.finalize f s = .ret ()
      { s with
        calls := s.calls ++ (s.map f).finalizeCalls
        acquisitions := s.acquisitions ++ (s.map f).finalizeAcquisitions f s.held
        synths := s.synths.set f [] } := by
  have hfree1 : (s.map f).NotInUse (Latch.map_mutex f :: s.locked) := by
    intro o ho
    simp [hfree o ho]
  simp only [State.map] at hn hfree1
  simp only [Synths.finalize, M.bind_apply, M.bind, lock_free hl, getState_apply, State.map]
  rw [Synths.finalizeLoop_eq _ hn]
  simp only []
  rw [Synths.clear_eq]
  · simp [SynthMap.finalizeAcquisitions, State.map]
  · exact hfree1

end Lemmas


section Lifecycle

variable {C K : Type}

theorem Outcome.Returns.bind_returns {α β : Type} {m : M C K α} {g : α → M C K β} {s : State C K}
    {P : α → State C K → Prop} {Q : β → State C K → Prop}
    (h : (m s).Returns P) (hg : ∀ a s1, P a s1 → (g a s1).Returns Q) :
    (M.bind m g s).Returns Q := by
  unfold M.bind
  cases hm : m s with
  | ret a s1 =>
    rw [hm] at h
    exact hg a s1 h
  | blocked s1 => rw [hm] at h; exact h.elim
  | undefinedBehaviour s1 => rw [hm] at h; exact h.elim

theorem Outcome.Returns.exists_ret {α : Type} {o : Outcome (State C K) α}
    {P : α → State C K → Prop} (h : o.Returns P) : ∃ a s, o = .ret a s ∧ P a s := by
  cases o with
  | ret a s => exact ⟨a, s, rfl, h⟩
  | blocked s => exact h.elim
  | undefinedBehaviour s => exact h.elim

theorem wrapInt32_of_range {n : Int} (h1 : -2147483648 ≤ n) (h2 : n < 2147483648) :
    wrapInt32 n = n := by
  unfold wrapInt32
  omega

theorem wrapInt32_add (a b : Int) : wrapInt32 (wrapInt32 a + b) = wrapInt32 (a + b) := by
  unfold wrapInt32
  omega

theorem wrapInt32_range (n : Int) : -2147483648 ≤ wrapInt32 n ∧ wrapInt32 n < 2147483648 := by
  unfold wrapInt32
  omega

theorem initializeAudioOutput_quiet (ext : External C K) (l : AudioFloat) (ms : Int)
    (s : State C K) (h : Quiet s) :
    (initializeAudioOutput ext l ms s).Returns fun _ s1 =>
      Quiet s1 ∧ s1.countUsers = wrapInt32 (s.countUsers + 1) := by
  obtain ⟨h1, h2⟩ := h
  simp only [initializeAudioOutput, initializeAudioOutput.body, initializeAudioOutput.first,
    M.bind_apply, M.bind, lock, h1, List.not_mem_nil, if_false, modifyState_apply,
    getState_apply, addXfadeChannels, call_apply, unlock_apply, M.pure_apply, M.ite_apply]
  split_ifs <;> simp [Outcome.Returns, Quiet, h2, M.bind, M.ite_apply, addXfadeChannels]

theorem teardownAudioOutput.last_eq (ext : External C K) (s : State C K)
    (hl : ∀ f, Latch.map_mutex f ∉ s.locked) (hn : ∀ f, (s.map f).NoNull)
    (hfree : ∀ f, (s.map f).NotInUse s.locked) :
    teardownAudioOutput.last ext s = .ret ()
      { s with
        ctxt := ext.TearDown
          (if ext.Initialized s.ctxt then ext.onApplicationShouldClose s.ctxt else s.ctxt)
        xfade := []
        noXfade := []
        synths := Registries.empty
        calls := s.calls ++ (if ext.Initialized s.ctxt then [Call.sleep_for] else []) ++
          [Call.windVoiceFinalize] ++ s.synths.finalizeCalls
        acquisitions := s.acquisitions ++ s.synths.finalizeAcquisitions s.held } := by
  have hn1 := hn .SimpleLinear
  have hn2 := hn .WaitForKeyRelease
  have hn3 := hn .ReleaseAfterDecay
  have hf1 := hfree .SimpleLinear
  have hf2 := hfree .WaitForKeyRelease
  have hf3 := hfree .ReleaseAfterDecay
  simp only [State.map, Registries.get] at hn1 hn2 hn3 hf1 hf2 hf3
  cases hi : ext.Initialized s.ctxt <;>
  · simp only [teardownAudioOutput.last, M.bind_apply, M.bind, getState_apply, hi, if_true,
      modifyState_apply, call_apply, M.pure_apply, Bool.false_eq_true, if_false, M.ite_apply]
    rw [Synths.finalize_eq]
    rotate_left
    · exact hl _
    · simpa [State.map, Registries.get] using hn1
    · simpa [State.map, Registries.get] using hf1
    simp only []
    rw [Synths.finalize_eq]
    rotate_left
    · exact hl _
    · simpa [State.map, Registries.get, Registries.set] using hn2
    · simpa [State.map, Registries.get, Registries.set] using hf2
    simp only []
    rw [Synths.finalize_eq]
    rotate_left
    · exact hl _
    · simpa [State.map, Registries.get, Registries.set] using hn3
    · simpa [State.map, Registries.get, Registries.set] using hf3
    simp [State.map, Registries.get, Registries.set, Registries.empty,
      Registries.finalizeCalls, Registries.finalizeAcquisitions]

end Lifecycle


section Lifecycle

variable {C K : Type}

theorem teardownAudioOutput_eq_of_pos (ext : External C K) (s : State C K)
    (hl : Latch.initMutex ∉ s.locked) (h : wrapInt32 (s.countUsers - 1) > 0) :
    teardownAudioOutput ext s = .ret ()
      { s with
        countUsers := wrapInt32 (s.countUsers - 1)
        acquisitions := s.acquisitions ++ [(.initMutex, s.held)] } := by
  simp [teardownAudioOutput, M.bind, lock, hl, h]

theorem teardownAudioOutput_eq_of_not_pos (ext : External C K) (s : State C K)
    (hl : Latch.initMutex ∉ s.locked) (h : ¬ wrapInt32 (s.countUsers - 1) > 0)
    (hm : ∀ f, Latch.map_mutex f ∉ s.locked) (hn : ∀ f, (s.map f).NoNull)
    (hfree : ∀ f, (s.map f).NotInUse s.locked) :
    teardownAudioOutput ext s = .ret ()
      { s with
        countUsers := wrapInt32 (s.countUsers - 1)
        ctxt := ext.TearDown
          (if ext.Initialized s.ctxt then ext.onApplicationShouldClose s.ctxt else s.ctxt)
        xfade := []
        noXfade := []
        synths := Registries.empty
        calls := s.calls ++ (if ext.Initialized s.ctxt then [Call.sleep_for] else []) ++
          [Call.windVoiceFinalize] ++ s.synths.finalizeCalls
        acquisitions := s.acquisitions ++ [(.initMutex, s.held)] ++
          s.synths.finalizeAcquisitions (.initMutex :: s.held) } := by
  simp only [teardownAudioOutput, M.bind_apply, M.bind, lock_free hl, modifyState_apply,
    getState_apply, h, if_false, M.ite_apply]
  rw [teardownAudioOutput.last_eq]
  · simp
  · intro f; simp [hm f]
  · exact hn
  · intro f o ho
    simp [hfree f o ho]

end Lifecycle

section Sequences

variable {C K : Type}

theorem teardownAudioOutput_quiet (ext : External C K) (s : State C K) (h : Quiet s) :
    (teardownAudioOutput ext s).Returns fun _ s1 =>
      Quiet s1 ∧ s1.countUsers = wrapInt32 (s.countUsers - 1) := by
  obtain ⟨h1, h2⟩ := h
  have hl : Latch.initMutex ∉ s.locked := by simp [h1]
  have e : ∀ f : Family, (Registries.empty : Registries K).get f = [] := by
    intro f; cases f <;> rfl
  by_cases hp : wrapInt32 (s.countUsers - 1) > 0
  · rw [teardownAudioOutput_eq_of_pos ext s hl hp]
    simp [Outcome.Returns, Quiet, h1, h2]
  · rw [teardownAudioOutput_eq_of_not_pos ext s hl hp (by simp [h1])
      (by intro f; simp [State.map, h2, e, SynthMap.NoNull])
      (by intro f; simp [State.map, h2, e, SynthMap.NotInUse, SynthMap.instruments])]
    simp [Outcome.Returns, Quiet, h1]

theorem LifecycleCall.run_quiet (ext : External C K) (c : LifecycleCall) (s : State C K)
    (h : Quiet s) :
    (c.run ext s).Returns fun _ s1 =>
      Quiet s1 ∧ s1.countUsers =
        wrapInt32 (s.countUsers + (if c = .teardown then -1 else 1)) := by
  cases c with
  | init l ms =>
    simp only [LifecycleCall.run, M.bind_apply]
    refine Outcome.Returns.bind_returns (initializeAudioOutput_quiet ext l ms s h) ?_
    intro a s1 h1
    simpa [Outcome.Returns] using h1
  | teardown =>
    simpa [LifecycleCall.run, sub_eq_add_neg] using teardownAudioOutput_quiet ext s h

theorem runCalls_quiet (calls : List (External C K × LifecycleCall)) (s : State C K)
    (h : Quiet s) (hr : wrapInt32 s.countUsers = s.countUsers) :
    (runCalls calls s).Returns fun _ s1 =>
      Quiet s1 ∧ s1.countUsers =
        wrapInt32
          (s.countUsers + (countInitializations calls : Int) - (countTeardowns calls : Int)) := by
  induction calls generalizing s with
  | nil => simp [runCalls, Outcome.Returns, h, countInitializations, countTeardowns, hr]
  | cons e rest ih =>
    obtain ⟨ext, c⟩ := e
    simp only [runCalls, M.bind_apply]
    refine Outcome.Returns.bind_returns (LifecycleCall.run_quiet ext c s h) ?_
    intro _ s1 h1
    have hr1 : wrapInt32 s1.countUsers = s1.countUsers := by
      rw [h1.2]
      have := wrapInt32_range (s.countUsers + (if c = .teardown then -1 else 1))
      exact wrapInt32_of_range this.1 this.2
    have h2 := ih s1 h1.1 hr1
    cases hr : runCalls rest s1 with
    | ret a s2 =>
      rw [hr] at h2
      refine ⟨h2.1, ?_⟩
      have h3 := h2.2
      rw [h1.2, Int.add_sub_assoc, wrapInt32_add] at h3
      rw [h3]
      by_cases hc : c = .teardown
      · simp [countInitializations, countTeardowns, hc]
        ring_nf
      · simp [countInitializations, countTeardowns, hc]
        ring_nf
    | blocked s2 => rw [hr] at h2; exact h2.elim
    | undefinedBehaviour s2 => rw [hr] at h2; exact h2.elim

end Sequences

/-! ### `std::map` -/

section MapLemmas

variable {K : Type}

theorem SynthMap.find_append [DecidableEq K] (m1 m2 : SynthMap K) (k : K) :
    SynthMap.find (m1 ++ m2) k =
      match SynthMap.find m1 k with
      | some i => some i
      | none => SynthMap.find m2 k := by
  induction m1 with
  | nil => simp [SynthMap.find]
  | cons e rest ih =>
    obtain ⟨k1, i⟩ := e
    by_cases h : k1 = k <;> simp [SynthMap.find, h, ih]

theorem SynthMap.find_eq_none_iff [DecidableEq K] (m : SynthMap K) (k : K) :
    SynthMap.find m k = none ↔ ∀ e ∈ m, e.1 ≠ k := by
  induction m with
  | nil => simp [SynthMap.find]
  | cons e rest ih =>
    obtain ⟨k1, i⟩ := e
    by_cases h : k1 = k <;> simp [SynthMap.find, h, ih]

theorem SynthMap.find_eq_some_of_mem [LinearOrder K] (m : SynthMap K) (hm : m.Ordered)
    (k : K) (i : Option (withChannels K)) (h : (k, i) ∈ m) : SynthMap.find m k = some i := by
  induction m with
  | nil => simp at h
  | cons e rest ih =>
    obtain ⟨k1, i1⟩ := e
    rw [SynthMap.Ordered, List.pairwise_cons] at hm
    rcases List.mem_cons.1 h with h1 | h1
    · cases h1
      simp [SynthMap.find]
    · have hlt := hm.1 _ h1
      have hne : k1 ≠ k := ne_of_lt hlt
      simp [SynthMap.find, hne, ih hm.2 h1]

theorem SynthMap.mem_of_find_eq_some [DecidableEq K] (m : SynthMap K) (k : K)
    (i : Option (withChannels K)) (h : SynthMap.find m k = some i) : (k, i) ∈ m := by
  induction m with
  | nil => simp [SynthMap.find] at h
  | cons e rest ih =>
    obtain ⟨k1, i1⟩ := e
    by_cases h1 : k1 = k
    · simp [SynthMap.find, h1] at h
      simp [h1, h]
    · simp [SynthMap.find, h1] at h
      exact List.mem_cons_of_mem _ (ih h)

/-- Erasing the element at the iterator: its key is no longer found. -/
theorem SynthMap.find_erased_self [LinearOrder K] (pre post : SynthMap K) (k1 : K)
    (i : Option (withChannels K)) (hm : SynthMap.Ordered (pre ++ (k1, i) :: post)) :
    SynthMap.find (pre ++ post) k1 = none := by
  rw [SynthMap.find_eq_none_iff]
  intro e he
  rw [SynthMap.Ordered, List.pairwise_append] at hm
  obtain ⟨_, h2, h3⟩ := hm
  rw [List.pairwise_cons] at h2
  rcases List.mem_append.1 he with h | h
  · exact ne_of_lt (h3 e h (k1, i) (List.mem_cons_self _ _))
  · exact (ne_of_lt (h2.1 e h)).symm

/-- Erasing the element at the iterator: the other keys are found as before. -/
theorem SynthMap.find_erased_of_ne [DecidableEq K] (pre post : SynthMap K) (k1 k : K)
    (i : Option (withChannels K)) (h : k ≠ k1) :
    SynthMap.find (pre ++ post) k = SynthMap.find (pre ++ (k1, i) :: post) k := by
  rw [SynthMap.find_append, SynthMap.find_append]
  simp [SynthMap.find, Ne.symm h]

theorem SynthMap.emplace_of_find_eq_none [LinearOrder K] (k : K)
    (i : Option (withChannels K)) (m : SynthMap K) (h : SynthMap.find m k = none) :
    (SynthMap.emplace k i m).2 = (i, true) ∧
    SynthMap.find (SynthMap.emplace k i m).1 k = some i ∧
    (∀ k1, k1 ≠ k →
      SynthMap.find (SynthMap.emplace k i m).1 k1 = SynthMap.find m k1) ∧
    (SynthMap.emplace k i m).1.length = m.length + 1 ∧
    (∀ e, e ∈ (SynthMap.emplace k i m).1 ↔ e = (k, i) ∨ e ∈ m) := by
  induction m with
  | nil =>
    refine ⟨rfl, by simp [SynthMap.emplace, SynthMap.find], ?_, rfl, by simp [SynthMap.emplace]⟩
    intro k1 h1
    simp [SynthMap.emplace, SynthMap.find, Ne.symm h1]
  | cons e rest ih =>
    obtain ⟨k1, i1⟩ := e
    have hne : k1 ≠ k := by
      intro h1
      simp [SynthMap.find, h1] at h
    have hrest : SynthMap.find rest k = none := by
      simpa [SynthMap.find, hne] using h
    obtain ⟨ih1, ih2, ih3, ih4, ih5⟩ := ih hrest
    by_cases hlt : k < k1
    · refine ⟨by simp [SynthMap.emplace, hlt], by simp [SynthMap.emplace, hlt, SynthMap.find],
        ?_, by simp [SynthMap.emplace, hlt], by simp [SynthMap.emplace, hlt]⟩
      intro k2 h2
      simp [SynthMap.emplace, hlt, SynthMap.find, Ne.symm h2]
    · have hgt : k1 < k := lt_of_le_of_ne (not_lt.1 hlt) hne
      refine ⟨by simp [SynthMap.emplace, hlt, hgt, ih1],
        by simp [SynthMap.emplace, hlt, hgt, SynthMap.find, hne, ih2], ?_,
        by simp [SynthMap.emplace, hlt, hgt, ih4], ?_⟩
      · intro k2 h2
        by_cases h3 : k1 = k2
        · subst h3
          simp [SynthMap.emplace, hlt, hgt, SynthMap.find]
        · simp [SynthMap.emplace, hlt, hgt, SynthMap.find, h3, ih3 k2 h2]
      · intro e
        simp only [SynthMap.emplace, hlt, hgt, if_false, if_true, List.mem_cons, ih5 e]
        tauto

theorem SynthMap.mem_emplace [LinearOrder K] (k : K) (i : Option (withChannels K))
    (m : SynthMap K) (e : K × Option (withChannels K)) (he : e ∈ (SynthMap.emplace k i m).1) :
    e = (k, i) ∨ e ∈ m := by
  induction m with
  | nil => simpa [SynthMap.emplace] using he
  | cons e1 rest ih =>
    obtain ⟨k1, i1⟩ := e1
    by_cases hlt : k < k1
    · simpa [SynthMap.emplace, hlt] using he
    · by_cases hgt : k1 < k
      · simp only [SynthMap.emplace, hlt, hgt, if_false, if_true, List.mem_cons] at he
        rcases he with h | h
        · exact Or.inr (by simp [h])
        · rcases ih h with h1 | h1
          · exact Or.inl h1
          · exact Or.inr (List.mem_cons_of_mem _ h1)
      · simp only [SynthMap.emplace, hlt, hgt, if_false] at he
        exact Or.inr he

theorem SynthMap.emplace_ordered [LinearOrder K] (k : K) (i : Option (withChannels K))
    (m : SynthMap K) (hm : m.Ordered) : (SynthMap.emplace k i m).1.Ordered := by
  induction m with
  | nil => simp [SynthMap.emplace, SynthMap.Ordered]
  | cons e rest ih =>
    obtain ⟨k1, i1⟩ := e
    have hm1 := hm
    rw [SynthMap.Ordered, List.pairwise_cons] at hm
    by_cases hlt : k < k1
    · simp only [SynthMap.emplace, hlt, if_true, SynthMap.Ordered, List.pairwise_cons]
      refine ⟨?_, hm⟩
      intro e he
      rcases List.mem_cons.1 he with h | h
      · rw [h]; exact hlt
      · exact lt_trans hlt (hm.1 e h)
    · by_cases hgt : k1 < k
      · simp only [SynthMap.emplace, hlt, hgt, if_false, if_true, SynthMap.Ordered,
          List.pairwise_cons]
        refine ⟨?_, ih hm.2⟩
        intro e he
        rcases SynthMap.mem_emplace k i rest e he with h | h
        · rw [h]; exact hgt
        · exact hm.1 e h
      · simpa [SynthMap.emplace, hlt, hgt] using hm1

end MapLemmas

section MapLemmas2

variable {K : Type}

theorem SynthMap.SetParam_cons [DecidableEq K] (k k2 : K) (i : Option (withChannels K))
    (m : SynthMap K) :
    SynthMap.SetParam k ((k2, i) :: m) =
      (k2, if k2 = k then i.map fun o => { o with param := some k } else i) ::
        SynthMap.SetParam k m := by
  by_cases h : k2 = k <;> simp [SynthMap.SetParam, h]

theorem SynthMap.find_SetParam [DecidableEq K] (k k1 : K) (m : SynthMap K) :
    SynthMap.find (SynthMap.SetParam k m) k1 =
      if k1 = k then
        (SynthMap.find m k).map fun i => i.map fun o => { o with param := some k }
      else SynthMap.find m k1 := by
  induction m with
  | nil => simp [SynthMap.SetParam, SynthMap.find]
  | cons e rest ih =>
    obtain ⟨k2, i⟩ := e
    rw [SynthMap.SetParam_cons]
    by_cases h1 : k1 = k
    · subst h1
      by_cases h2 : k2 = k1
      · simp [SynthMap.find, h2]
      · simpa [SynthMap.find, h2] using ih
    · by_cases h3 : k2 = k1
      · subst h3
        simp [SynthMap.find, h1]
      · simpa [SynthMap.find, h3, h1] using ih

theorem SynthMap.length_SetParam [DecidableEq K] (k : K) (m : SynthMap K) :
    (SynthMap.SetParam k m).length = m.length := by
  simp [SynthMap.SetParam]

theorem SynthMap.mem_SetParam_of_ne [DecidableEq K] (k : K) (m : SynthMap K)
    (e : K × Option (withChannels K)) (h : e.1 ≠ k) (he : e ∈ m) :
    e ∈ SynthMap.SetParam k m := by
  simp only [SynthMap.SetParam, List.mem_map]
  exact ⟨e, he, by simp [h]⟩

end MapLemmas2

/-! ### `recycleInstrument` -/

section Recycle

variable {C K : Type}

theorem SynthMap.tryAcquisitions_cons_none (k : K) (m : SynthMap K) (locked held : List Latch) :
    SynthMap.tryAcquisitions ((k, none) :: m) locked held =
      SynthMap.tryAcquisitions m locked held := by
  simp [SynthMap.tryAcquisitions, SynthMap.instruments]

theorem SynthMap.tryAcquisitions_cons_some (k : K) (o : withChannels K) (m : SynthMap K)
    (locked held : List Latch) :
    SynthMap.tryAcquisitions ((k, some o) :: m) locked held =
      (if Latch.isUsed o.addr ∈ locked then [] else [(Latch.isUsed o.addr, held)]) ++
        SynthMap.tryAcquisitions m locked held := by
  by_cases h : Latch.isUsed o.addr ∈ locked <;>
    simp [SynthMap.tryAcquisitions, SynthMap.instruments, List.filter_cons, h]

theorem try_lock_free {l : Latch} {s : State C K} (h : l ∉ s.locked) :
    try_lock l s = .ret true { s with
      acquisitions := s.acquisitions ++ [(l, s.held)]
      locked := l :: s.locked
      held := l :: s.held } := by
  simp [try_lock, h]

theorem try_lock_locked {l : Latch} {s : State C K} (h : l ∈ s.locked) :
    try_lock l s = .ret false s := by
  simp [try_lock, h]

theorem Synths.recycleLoop_none [LinearOrder K] (ext : External C K) (f : Family) (k : K)
    (visited rest : SynthMap K) (s : State C K)
    (h : ∀ e ∈ rest, recyclable ext s.locked e = false) :
    Synths.recycleLoop ext f k visited rest s = .ret none
      { s with acquisitions := s.acquisitions ++ rest.tryAcquisitions s.locked s.held } := by
  induction rest generalizing visited s with
  | nil => simp [Synths.recycleLoop, SynthMap.tryAcquisitions, SynthMap.instruments]
  | cons e rest ih =>
    obtain ⟨k1, i⟩ := e
    have hrest : ∀ e ∈ rest, recyclable ext s.locked e = false :=
      fun e he => h e (List.mem_cons_of_mem _ he)
    cases i with
    | none =>
      rw [Synths.recycleLoop, ih _ _ hrest, SynthMap.tryAcquisitions_cons_none]
    | some o =>
      have ho := h (k1, some o) (List.mem_cons_self _ _)
      by_cases hl : Latch.isUsed o.addr ∈ s.locked
      · simp only [Synths.recycleLoop, M.bind_apply, M.bind, try_lock_locked hl]
        rw [if_neg (by simp), ih _ _ hrest, SynthMap.tryAcquisitions_cons_some, if_pos hl]
        rfl
      · have hrt : ext.hasRealtimeFunctions o.chans = true := by
          simpa [recyclable, hl] using ho
        simp only [Synths.recycleLoop, M.bind_apply, M.bind, try_lock_free hl, hrt, if_true,
          unlock_apply, M.ite_apply]
        rw [ih]
        · simp [SynthMap.tryAcquisitions_cons_some, hl]
        · simpa using hrest

theorem Synths.recycleLoop_some [LinearOrder K] (ext : External C K) (f : Family) (k : K)
    (visited pre post : SynthMap K) (k1 : K) (o : withChannels K) (s : State C K)
    (hpre : ∀ e ∈ pre, recyclable ext s.locked e = false)
    (ho : recyclable ext s.locked (k1, some o) = true)
    (hk : SynthMap.find (visited ++ pre ++ post) k = none) :
    Synths.recycleLoop ext f k visited (pre ++ (k1, some o) :: post) s = .ret (some o.addr)
      { s with
        acquisitions := s.acquisitions ++ pre.tryAcquisitions s.locked s.held ++
          [(.isUsed o.addr, s.held)]
        synths := s.synths.set f
          (SynthMap.SetParam k (SynthMap.emplace k (some o) (visited ++ pre ++ post)).1) } := by
  induction pre generalizing visited s with
  | nil =>
    have hl : Latch.isUsed o.addr ∉ s.locked := by
      simp [recyclable] at ho
      exact ho.1
    have hrt : ext.hasRealtimeFunctions o.chans = false := by
      simp [recyclable] at ho
      exact ho.2
    have hk1 : SynthMap.find (visited ++ post) k = none := by simpa using hk
    have he := (SynthMap.emplace_of_find_eq_none k (some o) _ hk1).1
    simp only [List.nil_append, Synths.recycleLoop, M.bind_apply, M.bind, try_lock_free hl, hrt,
      if_true, M.ite_apply, Bool.false_eq_true, if_false]
    rw [show SynthMap.emplace k (some o) (visited ++ post) =
      ((SynthMap.emplace k (some o) (visited ++ post)).1, some o, true) from
      Prod.ext rfl he]
    simp [M.bind, State.setMap, State.map, SynthMap.tryAcquisitions, SynthMap.instruments]
  | cons e pre ih =>
    obtain ⟨k2, i⟩ := e
    have hpre1 : ∀ e ∈ pre, recyclable ext s.locked e = false :=
      fun e he => hpre e (List.mem_cons_of_mem _ he)
    have hk1 : SynthMap.find (visited ++ [(k2, i)] ++ pre ++ post) k = none := by
      simpa using hk
    cases i with
    | none =>
      rw [List.cons_append, Synths.recycleLoop, ih _ _ hpre1 ho hk1,
        SynthMap.tryAcquisitions_cons_none]
      simp
    | some o2 =>
      have ho2 := hpre (k2, some o2) (List.mem_cons_self _ _)
      by_cases hl : Latch.isUsed o2.addr ∈ s.locked
      · simp only [List.cons_append, Synths.recycleLoop, M.bind_apply, M.bind,
          try_lock_locked hl, List.append_eq]
        rw [if_neg (by simp), ih _ _ hpre1 ho hk1, SynthMap.tryAcquisitions_cons_some,
          if_pos hl]
        simp
      · have hrt : ext.hasRealtimeFunctions o2.chans = true := by
          simpa [recyclable, hl] using ho2
        simp only [List.cons_append, Synths.recycleLoop, M.bind_apply, M.bind,
          try_lock_free hl, hrt, if_true, unlock_apply, M.ite_apply, List.append_eq]
        rw [ih]
        · simp [SynthMap.tryAcquisitions_cons_some, hl]
        · simpa using hpre1
        · simpa using ho
        · exact hk1

end Recycle

/-! ### `Synths<Envel>::get` -/

section Get

variable {C K : Type}

theorem recyclable_cons_map_mutex (ext : External C K) (f : Family) (locked : List Latch)
    (e : K × Option (withChannels K)) :
    recyclable ext (Latch.map_mutex f :: locked) e = recyclable ext locked e := by
  obtain ⟨k, i⟩ := e
  cases i <;> simp [recyclable]

theorem SynthMap.tryAcquisitions_cons_map_mutex (m : SynthMap K) (f : Family)
    (locked held : List Latch) :
    m.tryAcquisitions (Latch.map_mutex f :: locked) held = m.tryAcquisitions locked held := by
  simp [SynthMap.tryAcquisitions]

theorem Synths.recycleInstrument_none [LinearOrder K] (ext : External C K) (f : Family)
    (k : K) (s : State C K) (h : ∀ e ∈ s.map f, recyclable ext s.locked e = false) :
    Synths.recycleInstrument ext f k s = .ret none
      { s with
        acquisitions := s.acquisitions ++ (s.map f).tryAcquisitions s.locked s.held } := by
  simp only [Synths.recycleInstrument, M.bind_apply, M.bind, getState_apply]
  exact Synths.recycleLoop_none ext f k [] _ s h

theorem Synths.recycleInstrument_some [LinearOrder K] (ext : External C K) (f : Family)
    (k : K) (s : State C K) (pre post : SynthMap K) (k1 : K) (o : withChannels K)
    (hmap : s.map f = pre ++ (k1, some o) :: post)
    (hpre : ∀ e ∈ pre, recyclable ext s.locked e = false)
    (ho : recyclable ext s.locked (k1, some o) = true)
    (hk : SynthMap.find (pre ++ post) k = none) :
    Synths.recycleInstrument ext f k s = .ret (some o.addr)
      { s with
        acquisitions := s.acquisitions ++ pre.tryAcquisitions s.locked s.held ++
          [(.isUsed o.addr, s.held)]
        synths := s.synths.set f
          (SynthMap.SetParam k (SynthMap.emplace k (some o) (pre ++ post)).1) } := by
  simp only [Synths.recycleInstrument, M.bind_apply, M.bind, getState_apply, hmap]
  simpa using Synths.recycleLoop_some ext f k [] pre post k1 o s hpre ho (by simpa using hk)

theorem Synths.get_locked [LinearOrder K] (ext : External C K) (f : Family) (k : K)
    (s : State C K) (hm : Latch.map_mutex f ∈ s.locked) :
    Synths.get ext f k s = .blocked
      { s with acquisitions := s.acquisitions ++ [(.map_mutex f, s.held)] } := by
  simp [Synths.get, M.bind, lock, hm]

theorem Synths.get_hit [LinearOrder K] (ext : External C K) (f : Family) (k : K)
    (s : State C K) (o : withChannels K) (hm : Latch.map_mutex f ∉ s.locked)
    (hf : SynthMap.find (s.map f) k = some (some o)) (hu : Latch.isUsed o.addr ∉ s.locked) :
    Synths.get ext f k s = .ret { o := o.addr }
      { s with
        acquisitions := s.acquisitions ++
          [(.map_mutex f, s.held), (.isUsed o.addr, .map_mutex f :: s.held)]
        locked := .isUsed o.addr :: s.locked
        held := .isUsed o.addr :: s.held } := by
  simp only [State.map] at hf
  simp [Synths.get, M.bind, lock, hm, State.map, hf, Using.ctor, hu]

theorem Synths.get_hit_blocked [LinearOrder K] (ext : External C K) (f : Family) (k : K)
    (s : State C K) (o : withChannels K) (hm : Latch.map_mutex f ∉ s.locked)
    (hf : SynthMap.find (s.map f) k = some (some o)) (hu : Latch.isUsed o.addr ∈ s.locked) :
    Synths.get ext f k s = .blocked
      { s with
        acquisitions := s.acquisitions ++
          [(.map_mutex f, s.held), (.isUsed o.addr, .map_mutex f :: s.held)]
        locked := .map_mutex f :: s.locked
        held := .map_mutex f :: s.held } := by
  simp only [State.map] at hf
  simp [Synths.get, M.bind, lock, hm, State.map, hf, Using.ctor, hu]

theorem Synths.get_recycle [LinearOrder K] (ext : External C K) (f : Family) (k : K)
    (s : State C K) (pre post : SynthMap K) (k1 : K) (o : withChannels K)
    (hm : Latch.map_mutex f ∉ s.locked) (hf : SynthMap.find (s.map f) k = none)
    (hmap : s.map f = pre ++ (k1, some o) :: post)
    (hpre : ∀ e ∈ pre, recyclable ext s.locked e = false)
    (ho : recyclable ext s.locked (k1, some o) = true) :
    Synths.get ext f k s = .ret { o := o.addr }
      { s with
        acquisitions := s.acquisitions ++ [(.map_mutex f, s.held)] ++
          pre.tryAcquisitions s.locked (.map_mutex f :: s.held) ++
          [(.isUsed o.addr, .map_mutex f :: s.held), (.isUsed o.addr, .map_mutex f :: s.held)]
        synths := s.synths.set f
          (SynthMap.SetParam k (SynthMap.emplace k (some o) (pre ++ post)).1)
        locked := .isUsed o.addr :: s.locked
        held := .isUsed o.addr :: s.held } := by
  have hk : SynthMap.find (pre ++ post) k = none := by
    rw [SynthMap.find_eq_none_iff] at hf ⊢
    intro e he
    apply hf e
    rw [hmap]
    rcases List.mem_append.1 he with h | h
    · exact List.mem_append_left _ h
    · exact List.mem_append_right _ (List.mem_cons_of_mem _ h)
  have hl : Latch.isUsed o.addr ∉ s.locked := by
    simp [recyclable] at ho
    exact ho.1
  simp only [State.map] at hf hmap
  simp only [Synths.get, M.bind_apply, M.bind, lock_free hm, getState_apply, State.map, hf]
  rw [Synths.recycleInstrument_some ext f k _ pre post k1 o (by simpa [State.map] using hmap)
    (by simpa [recyclable_cons_map_mutex] using hpre)
    (by simpa [recyclable_cons_map_mutex] using ho) hk]
  simp [Using.ctor, lock, M.bind, hl, SynthMap.tryAcquisitions_cons_map_mutex]

/-- The group that `addNoXfadeChannels` adds in the statics `s`. -/
theorem addNoXfadeChannels_apply (n : Int) (s : State C K) :
    addNoXfadeChannels n s = .ret s.fresh
      { s with
        noXfade :=
          { id := s.fresh, nVoices := min n 255, n_max_orchestrator_per_channel := 0,
            flaggedForRemoval := false } :: s.noXfade
        fresh := s.fresh + 1 } := rfl

theorem Synths.getEmplace_new [LinearOrder K] (f : Family) (k : K) (p : withChannels K)
    (s : State C K) (hf : SynthMap.find (s.map f) k = none)
    (hu : Latch.isUsed p.addr ∉ s.locked) :
    Synths.getEmplace f k p s = .ret { o := p.addr }
      { s with
        synths := s.synths.set f (SynthMap.emplace k (some p) (s.map f)).1
        acquisitions := s.acquisitions ++ [(.isUsed p.addr, s.held)]
        locked := (Latch.isUsed p.addr :: s.locked).erase (.map_mutex f)
        held := (Latch.isUsed p.addr :: s.held).erase (.map_mutex f) } := by
  have he := (SynthMap.emplace_of_find_eq_none k (some p) _ hf).1
  simp only [State.map] at hf he ⊢
  simp only [Synths.getEmplace, M.bind_apply, M.bind, getState_apply, State.map]
  rw [show SynthMap.emplace k (some p) (s.synths.get f) =
    ((SynthMap.emplace k (some p) (s.synths.get f)).1, some p, true) from Prod.ext rfl he]
  simp [M.bind, State.setMap, Using.ctor, lock, hu]

theorem Synths.get_create [LinearOrder K] (ext : External C K) (f : Family) (k : K)
    (s : State C K) (hm : Latch.map_mutex f ∉ s.locked)
    (hf : SynthMap.find (s.map f) k = none)
    (hnone : ∀ e ∈ s.map f, recyclable ext s.locked e = false)
    (hinit : ext.initializeSynth k s.fresh = true ∨ s.map f = [])
    (hu : Latch.isUsed (s.fresh + 1) ∉ s.locked) :
    Synths.get ext f k s = .ret { o := s.fresh + 1 }
      { s with
        noXfade :=
          { id := s.fresh, nVoices := min ext.n_channels 255,
            n_max_orchestrator_per_channel := 0, flaggedForRemoval := false } :: s.noXfade
        fresh := s.fresh + 2
        calls := s.calls ++ [.synthInitialize (s.fresh + 1) s.fresh]
        synths := s.synths.set f
          (SynthMap.emplace k (some { addr := s.fresh + 1, chans := s.fresh, param := some k })
            (s.map f)).1
        acquisitions := s.acquisitions ++ [(.map_mutex f, s.held)] ++
          (s.map f).tryAcquisitions s.locked (.map_mutex f :: s.held) ++
          [(.isUsed (s.fresh + 1), .map_mutex f :: s.held)]
        locked := .isUsed (s.fresh + 1) :: s.locked
        held := .isUsed (s.fresh + 1) :: s.held } := by
  simp only [State.map] at hf hnone hinit
  simp only [Synths.get, M.bind_apply, M.bind, lock_free hm, getState_apply, State.map, hf]
  rw [Synths.recycleInstrument_none ext f k _
    (by simpa [State.map, recyclable_cons_map_mutex] using hnone)]
  simp only [addNoXfadeChannels_apply, getState_apply, modifyState_apply, call_apply,
    M.ite_apply, State.map, SynthMap.tryAcquisitions_cons_map_mutex, M.bind_apply, M.bind]
  rcases hinit with hi | hi
  · simp only [hi, Bool.not_true, Bool.false_eq_true, if_false]
    rw [Synths.getEmplace_new]
    · simp [State.map]
    · simpa [State.map] using hf
    · simpa using hu
  · cases hb : ext.initializeSynth k s.fresh
    · simp only [Bool.not_false, if_true, M.bind, getState_apply, hi]
      rw [Synths.getEmplace_new]
      · simp [State.map, hi]
      · simp [State.map, hi, SynthMap.find]
      · simpa using hu
    · simp only [Bool.not_true, Bool.false_eq_true, if_false]
      rw [Synths.getEmplace_new]
      · simp [State.map]
      · simpa [State.map] using hf
      · simpa using hu

theorem Synths.get_fallback [LinearOrder K] (ext : External C K) (f : Family) (k : K)
    (s : State C K) (k0 : K) (o0 : withChannels K) (rest : SynthMap K)
    (hm : Latch.map_mutex f ∉ s.locked) (hf : SynthMap.find (s.map f) k = none)
    (hnone : ∀ e ∈ s.map f, recyclable ext s.locked e = false)
    (hinit : ext.initializeSynth k s.fresh = false)
    (hmap : s.map f = (k0, some o0) :: rest) :
    Synths.get ext f k s =
      if Latch.isUsed o0.addr ∈ s.locked then
        .blocked
          { s with
            noXfade :=
              { id := s.fresh, nVoices := min ext.n_channels 255,
                n_max_orchestrator_per_channel := 0, flaggedForRemoval := true } ::
                s.noXfade.map (flagged s.fresh)
            fresh := s.fresh + 2
            calls := s.calls ++ [.synthInitialize (s.fresh + 1) s.fresh]
            acquisitions := s.acquisitions ++ [(.map_mutex f, s.held)] ++
              (s.map f).tryAcquisitions s.locked (.map_mutex f :: s.held) ++
              [(.isUsed o0.addr, .map_mutex f :: s.held)]
            locked := .map_mutex f :: s.locked
            held := .map_mutex f :: s.held }
      else if s.fresh + 1 = o0.addr ∨ Latch.isUsed (s.fresh + 1) ∈ s.locked then
        .blocked
          { s with
            noXfade :=
              { id := s.fresh, nVoices := min ext.n_channels 255,
                n_max_orchestrator_per_channel := 0, flaggedForRemoval := true } ::
                s.noXfade.map (flagged s.fresh)
            fresh := s.fresh + 2
            calls := s.calls ++ [.synthInitialize (s.fresh + 1) s.fresh]
            acquisitions := s.acquisitions ++ [(.map_mutex f, s.held)] ++
              (s.map f).tryAcquisitions s.locked (.map_mutex f :: s.held) ++
              [(.isUsed o0.addr, .map_mutex f :: s.held),
               (.isUsed (s.fresh + 1), .isUsed o0.addr :: .map_mutex f :: s.held)]
            locked := .isUsed o0.addr :: .map_mutex f :: s.locked
            held := .isUsed o0.addr :: .map_mutex f :: s.held }
      else
        .ret { o := o0.addr }
          { s with
            noXfade :=
              { id := s.fresh, nVoices := min ext.n_channels 255,
                n_max_orchestrator_per_channel := 0, flaggedForRemoval := true } ::
                s.noXfade.map (flagged s.fresh)
            fresh := s.fresh + 2
            calls := s.calls ++ [.synthInitialize (s.fresh + 1) s.fresh]
            acquisitions := s.acquisitions ++ [(.map_mutex f, s.held)] ++
              (s.map f).tryAcquisitions s.locked (.map_mutex f :: s.held) ++
              [(.isUsed o0.addr, .map_mutex f :: s.held),
               (.isUsed (s.fresh + 1), .isUsed o0.addr :: .map_mutex f :: s.held)]
            locked := .isUsed o0.addr :: s.locked
            held := .isUsed o0.addr :: s.held } := by
  simp only [State.map] at hf hnone hmap
  simp only [Synths.get, M.bind_apply, M.bind, lock_free hm, getState_apply, State.map, hf]
  rw [Synths.recycleInstrument_none ext f k _
    (by simpa [State.map, recyclable_cons_map_mutex] using hnone)]
  simp only [addNoXfadeChannels_apply, getState_apply, modifyState_apply, call_apply,
    M.ite_apply, State.map, SynthMap.tryAcquisitions_cons_map_mutex, hinit, Bool.not_false,
    if_true, M.bind_apply, M.bind, hmap, flagForRemoval]
  by_cases h0 : Latch.isUsed o0.addr ∈ s.locked
  · simp [Using.ctor, lock, M.bind, h0, flagged, hmap]
  · by_cases h1 : s.fresh + 1 = o0.addr ∨ Latch.isUsed (s.fresh + 1) ∈ s.locked
    · simp only [if_neg h0, if_pos h1]
      simp [Using.ctor, lock, M.bind, h0, flagged, hmap, withChannels.destructor, h1]
    · simp only [if_neg h0, if_neg h1]
      simp [Using.ctor, lock, M.bind, h0, flagged, hmap, withChannels.destructor, h1]

end Get

section RecycleFacts

variable {C K : Type}

/-- The first element that passes the test, as a position in the map. -/
theorem recyclable_split (ext : External C K) (locked : List Latch) (m : SynthMap K)
    (e : K × Option (withChannels K)) (h : m.find? (recyclable ext locked) = some e) :
    ∃ pre post o, e.2 = some o ∧ m = pre ++ (e.1, some o) :: post ∧
      (∀ x ∈ pre, recyclable ext locked x = false) ∧
      recyclable ext locked (e.1, some o) = true ∧
      m.eraseP (recyclable ext locked) = pre ++ post := by
  obtain ⟨he, pre, post, hm, hpre⟩ := List.find?_eq_some.1 h
  obtain ⟨k1, i⟩ := e
  cases i with
  | none => simp [recyclable] at he
  | some o =>
    have hpre1 : ∀ x ∈ pre, recyclable ext locked x = false := by
      intro x hx
      simpa using hpre x hx
    refine ⟨pre, post, o, rfl, hm, hpre1, he, ?_⟩
    rw [hm, List.eraseP_append_right _ (by intro x hx; simp [hpre1 x hx]),
      List.eraseP_cons_of_pos he]

end RecycleFacts

section GetFacts

variable {C K : Type}

theorem SynthMap.mem_instruments (m : SynthMap K) (o : withChannels K) :
    o ∈ m.instruments ↔ ∃ k, (k, some o) ∈ m := by
  simp [SynthMap.instruments]

theorem map_flagged_of_lt (c : Nat) (l : List Channels) (h : ∀ g ∈ l, g.id < c) :
    l.map (flagged c) = l := by
  induction l with
  | nil => rfl
  | cons g rest ih =>
    have hg : g.id ≠ c := Nat.ne_of_lt (h g (List.mem_cons_self _ _))
    simp [flagged, hg, ih (fun x hx => h x (List.mem_cons_of_mem _ hx))]

/-- The four paths of `Synths<Envel>::get`, on a map without null pointer. -/
theorem Synths.get_cases [LinearOrder K] (ext : External C K) (s : State C K) (f : Family)
    (k : K) (hn : (s.map f).NoNull) :
    (∃ o, SynthMap.find (s.map f) k = some (some o)) ∨
    (SynthMap.find (s.map f) k = none ∧
      ∃ pre post k1 o, s.map f = pre ++ (k1, some o) :: post ∧
        (∀ x ∈ pre, recyclable ext s.locked x = false) ∧
        recyclable ext s.locked (k1, some o) = true) ∨
    (SynthMap.find (s.map f) k = none ∧ (∀ e ∈ s.map f, recyclable ext s.locked e = false) ∧
      (ext.initializeSynth k s.fresh = true ∨ s.map f = [])) ∨
    (Synths.isFallback ext s f k ∧ ∃ k0 o0 rest, s.map f = (k0, some o0) :: rest) := by
  cases hf : SynthMap.find (s.map f) k with
  | some i =>
    cases i with
    | none => exact absurd rfl (hn _ (SynthMap.mem_of_find_eq_some _ _ _ hf))
    | some o => exact Or.inl ⟨o, rfl⟩
  | none =>
    right
    cases hfind : (s.map f).find? (recyclable ext s.locked) with
    | some e =>
      obtain ⟨pre, post, o, -, hm, hpre, ho, -⟩ := recyclable_split ext s.locked _ e hfind
      exact Or.inl ⟨rfl, pre, post, e.1, o, hm, hpre, ho⟩
    | none =>
      right
      have hall : ∀ e ∈ s.map f, recyclable ext s.locked e = false := by simpa using hfind
      cases hi : ext.initializeSynth k s.fresh with
      | true => exact Or.inl ⟨rfl, hall, Or.inl rfl⟩
      | false =>
        by_cases hmap : s.map f = []
        · exact Or.inl ⟨rfl, hall, Or.inr hmap⟩
        · obtain ⟨e, rest, he⟩ := List.exists_cons_of_ne_nil hmap
          obtain ⟨k0, i0⟩ := e
          cases i0 with
          | none => exact absurd rfl (hn (k0, none) (by rw [he]; simp))
          | some o0 => exact Or.inr ⟨⟨hf, hall, hi, hmap⟩, k0, o0, rest, he⟩

end GetFacts

section GetLatches

variable {C K : Type}

/-- The mutexes around `Synths<Envel>::get`, path by path. -/
theorem Synths.get_latches [LinearOrder K] (ext : External C K) (f : Family) (k : K)
    (s : State C K) (hm : Latch.map_mutex f ∉ s.locked) (hn : (s.map f).NoNull)
    (hfresh : s.Fresh f) :
    match Synths.get ext f k s with
    | .ret u s1 =>
      Latch.isUsed u.o ∉ s.locked ∧ s1.locked = .isUsed u.o :: s.locked ∧
        s1.held = .isUsed u.o :: s.held ∧ Latch.map_mutex f ∉ s1.locked ∧
        (∃ new, s1.acquisitions = s.acquisitions ++ (.map_mutex f, s.held) :: new ∧
          (∀ r ∈ new, Latch.map_mutex f ∈ r.2) ∧
          (Latch.isUsed u.o, .map_mutex f :: s.held) ∈ new) ∧
        Using.destructor u s1 = .ret () { s1 with locked := s.locked, held := s.held }
    | .blocked s1 =>
      ∃ o ∈ (s.map f).instruments, Latch.isUsed o.addr ∈ s.locked ∧
        ∃ old, s1.acquisitions = old ++ [(.isUsed o.addr, .map_mutex f :: s.held)]
    | .undefinedBehaviour _ => False := by
  obtain ⟨h1, h2, h3⟩ := hfresh
  have htry : ∀ (m : SynthMap K) (r : Latch × List Latch),
      r ∈ m.tryAcquisitions s.locked (.map_mutex f :: s.held) → Latch.map_mutex f ∈ r.2 := by
    intro m r hr
    simp only [SynthMap.tryAcquisitions, List.mem_map] at hr
    obtain ⟨o, -, rfl⟩ := hr
    simp
  rcases Synths.get_cases ext s f k hn with ⟨o, hf⟩ |
    ⟨hf, pre, post, k1, o, hmap, hpre, ho⟩ | ⟨hf, hall, hinit⟩ |
    ⟨⟨hf, hall, hinit, -⟩, k0, o0, rest, hmap⟩
  · have hmem : o ∈ (s.map f).instruments :=
      (SynthMap.mem_instruments _ _).2 ⟨k, SynthMap.mem_of_find_eq_some _ _ _ hf⟩
    by_cases hu : Latch.isUsed o.addr ∈ s.locked
    · rw [Synths.get_hit_blocked ext f k s o hm hf hu]
      exact ⟨o, hmem, hu, s.acquisitions ++ [(.map_mutex f, s.held)], by simp⟩
    · rw [Synths.get_hit ext f k s o hm hf hu]
      refine ⟨hu, rfl, rfl, by simp [hm], ⟨_, rfl, by simp, by simp⟩, ?_⟩
      simp [Using.destructor]
  · have hu : Latch.isUsed o.addr ∉ s.locked := by
      simp [recyclable] at ho
      exact ho.1
    rw [Synths.get_recycle ext f k s pre post k1 o hm hf hmap hpre ho]
    refine ⟨hu, rfl, rfl, by simp [hm],
      ⟨SynthMap.tryAcquisitions pre s.locked (.map_mutex f :: s.held) ++
          [(.isUsed o.addr, .map_mutex f :: s.held), (.isUsed o.addr, .map_mutex f :: s.held)],
        by simp, ?_, by simp⟩, ?_⟩
    · intro r hr
      rcases List.mem_append.1 hr with hr | hr
      · exact htry _ _ hr
      · simp only [List.mem_cons, List.mem_singleton, List.not_mem_nil, or_false] at hr
        rcases hr with rfl | rfl <;> simp
    simp [Using.destructor]
  · have hu := h1 _ (Nat.le_succ s.fresh)
    rw [Synths.get_create ext f k s hm hf hall hinit hu]
    refine ⟨hu, rfl, rfl, by simp [hm],
      ⟨(s.map f).tryAcquisitions s.locked (.map_mutex f :: s.held) ++
          [(.isUsed (s.fresh + 1), .map_mutex f :: s.held)],
        by simp, ?_, by simp⟩, ?_⟩
    · intro r hr
      rcases List.mem_append.1 hr with hr | hr
      · exact htry _ _ hr
      · simp only [List.mem_singleton] at hr
        subst hr
        simp
    simp [Using.destructor]
  · have hmem : o0 ∈ (s.map f).instruments := by
      rw [hmap]; simp [SynthMap.instruments]
    have ho0 : o0.addr < s.fresh := h2 o0 hmem
    have hnot : ¬ (s.fresh + 1 = o0.addr ∨ Latch.isUsed (s.fresh + 1) ∈ s.locked) := by
      intro h
      rcases h with h | h
      · omega
      · exact h1 _ (Nat.le_succ _) h
    rw [Synths.get_fallback ext f k s k0 o0 rest hm hf hall hinit hmap]
    by_cases h0 : Latch.isUsed o0.addr ∈ s.locked
    · rw [if_pos h0]
      exact ⟨o0, hmem, h0, _, rfl⟩
    · rw [if_neg h0, if_neg hnot]
      refine ⟨h0, rfl, rfl, by simp [hm],
        ⟨(s.map f).tryAcquisitions s.locked (.map_mutex f :: s.held) ++
            [(.isUsed o0.addr, .map_mutex f :: s.held),
             (.isUsed (s.fresh + 1), .isUsed o0.addr :: .map_mutex f :: s.held)],
          by simp, ?_, by simp⟩, ?_⟩
      · intro r hr
        rcases List.mem_append.1 hr with hr | hr
        · exact htry _ _ hr
        · simp only [List.mem_cons, List.mem_singleton, List.not_mem_nil, or_false] at hr
          rcases hr with rfl | rfl <;> simp
      simp [Using.destructor]

end GetLatches

/-! ### The order of the acquisitions -/

section LockOrder

variable {C K : Type}

theorem SafeFrom.pure {α : Type} (H : List Latch) (a : α) :
    SafeFrom (C := C) (K := K) H (Pure.pure a) fun _ H1 => H1 = H := by
  intro s hs hH
  refine ⟨hs, ?_⟩
  intro b s1 h
  cases h
  exact hH

theorem SafeFrom.undefinedBehaviour {α : Type} (H : List Latch) (Q : α → List Latch → Prop) :
    SafeFrom (C := C) (K := K) H imajuscule.undefinedBehaviour Q := by
  intro s hs _
  refine ⟨hs, ?_⟩
  intro b s1 h
  cases h

theorem SafeFrom.getState (H : List Latch) :
    SafeFrom (C := C) (K := K) H imajuscule.getState fun _ H1 => H1 = H := by
  intro s hs hH
  refine ⟨hs, ?_⟩
  intro b s1 h
  cases h
  exact hH

theorem SafeFrom.modifyState (H : List Latch) (g : State C K → State C K)
    (hg : ∀ s, (g s).held = s.held ∧ (g s).acquisitions = s.acquisitions) :
    SafeFrom H (imajuscule.modifyState g) fun _ H1 => H1 = H := by
  intro s hs hH
  refine ⟨?_, ?_⟩
  · intro a ha
    simp only [modifyState_apply, Outcome.state, (hg s).2] at ha
    exact hs a ha
  · intro b s1 h
    cases h
    rw [(hg s).1, hH]

theorem SafeFrom.call (H : List Latch) (c : Call) :
    SafeFrom (C := C) (K := K) H (imajuscule.call c) fun _ H1 => H1 = H :=
  SafeFrom.modifyState H _ fun _ => ⟨rfl, rfl⟩

theorem SafeFrom.lock (H : List Latch) (l : Latch) (h : violatesOrder l H = false) :
    SafeFrom (C := C) (K := K) H (imajuscule.lock l) fun _ H1 => H1 = l :: H := by
  intro s hs hH
  have hord : ∀ a ∈ s.acquisitions ++ [(l, s.held)], violatesOrder a.1 a.2 = false := by
    intro a ha
    rcases List.mem_append.1 ha with h1 | h1
    · exact hs a h1
    · simp only [List.mem_singleton] at h1
      rw [h1, hH]
      exact h
  by_cases hl : l ∈ s.locked
  · simp only [imajuscule.lock, hl, if_true, Outcome.state]
    exact ⟨hord, fun _ _ h1 => by cases h1⟩
  · simp only [imajuscule.lock, hl, if_false, Outcome.state]
    refine ⟨hord, ?_⟩
    intro b s1 h1
    cases h1
    simp [hH]

theorem SafeFrom.try_lock (H : List Latch) (l : Latch) (h : violatesOrder l H = false) :
    SafeFrom (C := C) (K := K) H (imajuscule.try_lock l)
      fun b H1 => H1 = if b then l :: H else H := by
  intro s hs hH
  by_cases hl : l ∈ s.locked
  · simp only [imajuscule.try_lock, hl, if_true, Outcome.state]
    refine ⟨hs, ?_⟩
    intro b s1 h1
    cases h1
    simp [hH]
  · simp only [imajuscule.try_lock, hl, if_false, Outcome.state]
    refine ⟨?_, ?_⟩
    · intro a ha
      rcases List.mem_append.1 ha with h1 | h1
      · exact hs a h1
      · simp only [List.mem_singleton] at h1
        rw [h1, hH]
        exact h
    · intro b s1 h1
      cases h1
      simp [hH]

theorem SafeFrom.unlock (H : List Latch) (l : Latch) :
    SafeFrom (C := C) (K := K) H (imajuscule.unlock l) fun _ H1 => H1 = H.erase l := by
  intro s hs hH
  refine ⟨hs, ?_⟩
  intro b s1 h1
  cases h1
  simp [hH]

theorem SafeFrom.bind {α β : Type} {H : List Latch} {m : M C K α} {g : α → M C K β}
    {Q1 : α → List Latch → Prop} {Q2 : β → List Latch → Prop}
    (hm : SafeFrom H m Q1) (hg : ∀ a H1, Q1 a H1 → SafeFrom H1 (g a) Q2) :
    SafeFrom H (m >>= g) Q2 := by
  intro s hs hH
  obtain ⟨h1, h2⟩ := hm s hs hH
  simp only [M.bind_apply, M.bind]
  cases hr : m s with
  | ret a s1 =>
    rw [hr] at h1
    exact hg a s1.held (h2 a s1 hr) s1 h1 rfl
  | blocked s1 =>
    rw [hr] at h1
    exact ⟨h1, fun _ _ h => by cases h⟩
  | undefinedBehaviour s1 =>
    rw [hr] at h1
    exact ⟨h1, fun _ _ h => by cases h⟩

theorem SafeFrom.mono {α : Type} {H : List Latch} {m : M C K α}
    {Q1 Q2 : α → List Latch → Prop} (hm : SafeFrom H m Q1) (h : ∀ a H1, Q1 a H1 → Q2 a H1) :
    SafeFrom H m Q2 := by
  intro s hs hH
  obtain ⟨h1, h2⟩ := hm s hs hH
  exact ⟨h1, fun a s1 hr => h a _ (h2 a s1 hr)⟩

theorem SafeFrom.bind_eq {α β : Type} {H : List Latch} {m : M C K α} {g : α → M C K β}
    {F : α → List Latch} {Q2 : β → List Latch → Prop}
    (hm : SafeFrom H m fun a H1 => H1 = F a) (hg : ∀ a, SafeFrom (F a) (g a) Q2) :
    SafeFrom H (m >>= g) Q2 :=
  SafeFrom.bind hm fun a H1 h => by rw [h]; exact hg a

theorem SafeFrom.unlock_eq (H H1 : List Latch) (l : Latch) (h : H.erase l = H1) :
    SafeFrom (C := C) (K := K) H (imajuscule.unlock l) fun _ H2 => H2 = H1 := by
  rw [← h]
  exact SafeFrom.unlock _ _

theorem SafeFrom.pure_val {α : Type} (H : List Latch) (a : α) :
    SafeFrom (C := C) (K := K) H (Pure.pure a) fun b H1 => b = a ∧ H1 = H := by
  intro s hs hH
  refine ⟨hs, ?_⟩
  intro b s1 h
  cases h
  exact ⟨rfl, hH⟩

theorem violatesOrder_isUsed (o : Nat) (H : List Latch) :
    violatesOrder (.isUsed o) H = false := rfl

theorem withChannels.destructor_safe (H : List Latch) (o : withChannels K) :
    SafeFrom (C := C) (K := K) H (withChannels.destructor o) fun _ H1 => H1 = H := by
  unfold withChannels.destructor
  refine SafeFrom.bind (SafeFrom.lock H _ (violatesOrder_isUsed _ _)) ?_
  rintro _ _ rfl
  refine SafeFrom.mono (SafeFrom.unlock _ _) ?_
  rintro _ _ rfl
  simp

theorem Using.ctor_safe (H : List Latch) (o : Nat) :
    SafeFrom (C := C) (K := K) H (Using.ctor o)
      fun u H1 => u.o = o ∧ H1 = .isUsed o :: H := by
  unfold Using.ctor
  refine SafeFrom.bind (SafeFrom.lock H _ (violatesOrder_isUsed _ _)) ?_
  rintro _ _ rfl
  exact SafeFrom.mono (SafeFrom.pure_val _ _) fun _ _ h => ⟨by rw [h.1], h.2⟩

/-- The end of every path of `get`: `Using(std::move(l), o)`, then the scope of `l`
ends. -/
theorem Using.ctor_unlock_safe (H : List Latch) (o : Nat) (f : Family) :
    SafeFrom (C := C) (K := K) H
      (do
        let u ← Using.ctor o
        imajuscule.unlock (.map_mutex f)
        Pure.pure u)
      fun u H1 => H1 = (Latch.isUsed u.o :: H).erase (.map_mutex f) := by
  refine SafeFrom.bind (Using.ctor_safe _ _) ?_
  rintro u _ ⟨hu, rfl⟩
  refine SafeFrom.bind_eq (SafeFrom.unlock _ _) ?_
  intro _
  refine SafeFrom.mono (SafeFrom.pure_val _ _) ?_
  rintro _ _ ⟨rfl, rfl⟩
  rw [hu]

theorem Using.release_safe (H : List Latch) (u : Using) :
    SafeFrom (C := C) (K := K) H (Using.destructor u) fun _ H1 => H1 = H.erase (.isUsed u.o) :=
  SafeFrom.unlock _ _

theorem Synths.recycleLoop_safe [LinearOrder K] (ext : External C K) (f : Family) (k : K)
    (visited rest : SynthMap K) (H : List Latch) :
    SafeFrom H (Synths.recycleLoop ext f k visited rest) fun _ H1 => H1 = H := by
  induction rest generalizing visited with
  | nil =>
    rw [Synths.recycleLoop]
    exact SafeFrom.pure _ _
  | cons e rest ih =>
    obtain ⟨k1, i⟩ := e
    cases i with
    | none =>
      rw [Synths.recycleLoop]
      exact ih _
    | some o =>
      rw [Synths.recycleLoop]
      refine SafeFrom.bind_eq (SafeFrom.try_lock H _ rfl) ?_
      intro b
      cases b with
      | false =>
        simp only [Bool.false_eq_true, if_false]
        exact ih _
      | true =>
        simp only [if_true]
        split
        · refine SafeFrom.bind_eq (SafeFrom.unlock_eq _ H _ (by simp)) ?_
          intro _
          exact ih _
        · split
          · split
            · refine SafeFrom.bind_eq (SafeFrom.modifyState _ _ fun s => ⟨rfl, rfl⟩) ?_
              intro _
              refine SafeFrom.bind_eq (SafeFrom.modifyState _ _ fun s => ⟨rfl, rfl⟩) ?_
              intro _
              refine SafeFrom.bind_eq (SafeFrom.unlock_eq _ H _ (by simp)) ?_
              intro _
              exact SafeFrom.pure _ _
            · exact SafeFrom.undefinedBehaviour _ _
          · refine SafeFrom.bind_eq (withChannels.destructor_safe _ _) ?_
            intro _
            exact SafeFrom.undefinedBehaviour _ _

theorem Synths.recycleInstrument_safe [LinearOrder K] (ext : External C K) (f : Family)
    (k : K) (H : List Latch) :
    SafeFrom H (Synths.recycleInstrument ext f k) fun _ H1 => H1 = H := by
  unfold Synths.recycleInstrument
  refine SafeFrom.bind_eq (SafeFrom.getState _) ?_
  intro s
  exact Synths.recycleLoop_safe ext f k _ _ H

theorem Synths.getEmplace_safe [LinearOrder K] (f : Family) (k : K) (p : withChannels K)
    (H : List Latch) :
    SafeFrom (C := C) H (Synths.getEmplace f k p)
      fun u H1 => H1 = (Latch.isUsed u.o :: H).erase (.map_mutex f) := by
  unfold Synths.getEmplace
  refine SafeFrom.bind_eq (SafeFrom.getState _) ?_
  intro s
  split
  rename_i synths inserted isNew _
  refine SafeFrom.bind_eq (SafeFrom.modifyState _ _ fun s => ⟨rfl, rfl⟩) ?_
  intro _
  have hrest : SafeFrom (C := C) (K := K) H
      (match inserted with
        | none => imajuscule.undefinedBehaviour
        | some i => do
          let u ← Using.ctor i.addr
          imajuscule.unlock (.map_mutex f)
          Pure.pure u)
      fun u H1 => H1 = (Latch.isUsed u.o :: H).erase (.map_mutex f) := by
    split
    · exact SafeFrom.undefinedBehaviour _ _
    · exact Using.ctor_unlock_safe _ _ _
  dsimp only
  split
  · refine SafeFrom.bind_eq (withChannels.destructor_safe _ _) ?_
    intro _
    exact hrest
  · refine SafeFrom.bind_eq (SafeFrom.pure _ _) ?_
    intro _
    exact hrest

theorem SafeFrom.of_frame {α : Type} (H : List Latch) (m : M C K α)
    (hm : ∀ s, (m s).state.held = s.held ∧ (m s).state.acquisitions = s.acquisitions) :
    SafeFrom H m fun _ H1 => H1 = H := by
  intro s hs hH
  refine ⟨?_, ?_⟩
  · intro a ha
    rw [(hm s).2] at ha
    exact hs a ha
  · intro b s1 h
    have := (hm s).1
    rw [h] at this
    rw [← hH]
    exact this

theorem violatesOrder_map_mutex (f : Family) (H : List Latch)
    (h : (H.any fun l => l.isInUse) = false) : violatesOrder (.map_mutex f) H = false := h

theorem Synths.get_safe [LinearOrder K] (ext : External C K) (f : Family) (k : K)
    (H : List Latch) (hH : (H.any fun l => l.isInUse) = false) :
    SafeFrom H (Synths.get ext f k) fun u H1 => H1 = .isUsed u.o :: H := by
  have hend : ∀ o : Nat, SafeFrom (C := C) (K := K) (.map_mutex f :: H)
      (do
        let u ← Using.ctor o
        imajuscule.unlock (.map_mutex f)
        Pure.pure u)
      fun u H1 => H1 = .isUsed u.o :: H := by
    intro o
    refine SafeFrom.mono (Using.ctor_unlock_safe _ _ _) ?_
    rintro u _ rfl
    simp
  have hemplace : ∀ p : withChannels K, SafeFrom (C := C) (.map_mutex f :: H)
      (Synths.getEmplace f k p) fun u H1 => H1 = .isUsed u.o :: H := by
    intro p
    refine SafeFrom.mono (Synths.getEmplace_safe _ _ _ _) ?_
    rintro u _ rfl
    simp
  unfold Synths.get
  refine SafeFrom.bind_eq (SafeFrom.lock H _ (violatesOrder_map_mutex f H hH)) ?_
  intro _
  refine SafeFrom.bind_eq (SafeFrom.getState _) ?_
  intro s
  split
  · exact SafeFrom.undefinedBehaviour _ _
  · exact hend _
  · refine SafeFrom.bind_eq (Synths.recycleInstrument_safe ext f k _) ?_
    intro r
    split
    · exact hend _
    · refine SafeFrom.bind_eq (SafeFrom.of_frame _ _ fun s => ⟨rfl, rfl⟩) ?_
      intro c
      refine SafeFrom.bind_eq (SafeFrom.getState _) ?_
      intro s1
      dsimp only
      refine SafeFrom.bind_eq (SafeFrom.modifyState _ _ fun s => ⟨rfl, rfl⟩) ?_
      intro _
      refine SafeFrom.bind_eq (SafeFrom.call _ _) ?_
      intro _
      split
      · refine SafeFrom.bind_eq (SafeFrom.getState _) ?_
        intro s2
        split
        · refine SafeFrom.bind_eq (SafeFrom.modifyState _ _ fun s => ⟨rfl, rfl⟩) ?_
          intro _
          split
          · exact SafeFrom.undefinedBehaviour _ _
          · refine SafeFrom.bind (Using.ctor_safe _ _) ?_
            rintro u _ ⟨hu, rfl⟩
            refine SafeFrom.bind_eq (withChannels.destructor_safe _ _) ?_
            intro _
            refine SafeFrom.bind_eq (SafeFrom.unlock _ _) ?_
            intro _
            refine SafeFrom.mono (SafeFrom.pure_val _ _) ?_
            rintro _ _ ⟨rfl, rfl⟩
            simp [hu]
        · exact hemplace _
      · exact hemplace _

theorem Synths.finalizeLoop_safe (m : SynthMap K) (H : List Latch) :
    SafeFrom (C := C) H (Synths.finalizeLoop m) fun _ H1 => H1 = H := by
  induction m with
  | nil =>
    rw [Synths.finalizeLoop]
    exact SafeFrom.pure _ _
  | cons e rest ih =>
    obtain ⟨k, i⟩ := e
    cases i with
    | none =>
      rw [Synths.finalizeLoop]
      exact SafeFrom.undefinedBehaviour _ _
    | some o =>
      rw [Synths.finalizeLoop]
      refine SafeFrom.bind_eq (SafeFrom.call _ _) ?_
      intro _
      exact ih

theorem Synths.clear.erase_safe (m : SynthMap K) (H : List Latch) :
    SafeFrom (C := C) H (Synths.clear.erase m) fun _ H1 => H1 = H := by
  induction m with
  | nil =>
    rw [Synths.clear.erase]
    exact SafeFrom.pure _ _
  | cons e rest ih =>
    obtain ⟨k, i⟩ := e
    cases i with
    | none =>
      rw [Synths.clear.erase]
      refine SafeFrom.bind_eq (SafeFrom.pure _ _) ?_
      intro _
      exact ih
    | some o =>
      rw [Synths.clear.erase]
      refine SafeFrom.bind_eq (withChannels.destructor_safe _ _) ?_
      intro _
      exact ih

theorem Synths.clear_safe (f : Family) (H : List Latch) :
    SafeFrom (C := C) (K := K) H (Synths.clear f) fun _ H1 => H1 = H := by
  unfold Synths.clear
  refine SafeFrom.bind_eq (SafeFrom.getState _) ?_
  intro s
  refine SafeFrom.bind_eq (Synths.clear.erase_safe _ _) ?_
  intro _
  exact SafeFrom.modifyState _ _ fun s => ⟨rfl, rfl⟩

theorem Synths.finalize_safe (f : Family) (H : List Latch)
    (hH : (H.any fun l => l.isInUse) = false) :
    SafeFrom (C := C) (K := K) H (Synths.finalize f) fun _ H1 => H1 = H := by
  unfold Synths.finalize
  refine SafeFrom.bind_eq (SafeFrom.lock H _ (violatesOrder_map_mutex f H hH)) ?_
  intro _
  refine SafeFrom.bind_eq (SafeFrom.getState _) ?_
  intro s
  refine SafeFrom.bind_eq (Synths.finalizeLoop_safe _ _) ?_
  intro _
  refine SafeFrom.bind_eq (Synths.clear_safe _ _) ?_
  intro _
  exact SafeFrom.unlock_eq _ _ _ (by simp)

theorem initializeAudioOutput.first_frame (ext : External C K) (l : AudioFloat)
    (s : State C K) :
    (initializeAudioOutput.first ext l s).state.held = s.held ∧
      (initializeAudioOutput.first ext l s).state.acquisitions = s.acquisitions := by
  simp only [initializeAudioOutput.first, M.bind_apply, M.bind, call_apply, addXfadeChannels,
    M.ite_apply, modifyState_apply, getState_apply, M.pure_apply]
  split_ifs <;> simp [Outcome.state]

theorem initializeAudioOutput.body_frame (ext : External C K) (l : AudioFloat) (ms : Int)
    (s : State C K) :
    (initializeAudioOutput.body ext l ms s).state.held = s.held ∧
      (initializeAudioOutput.body ext l ms s).state.acquisitions = s.acquisitions := by
  simp only [initializeAudioOutput.body, M.bind_apply, M.bind, call_apply, M.ite_apply,
    getState_apply, M.pure_apply]
  split_ifs
  · simp [Outcome.state]
  · simp [Outcome.state]
  · simp [Outcome.state]
  · exact initializeAudioOutput.first_frame ext l _
  · exact initializeAudioOutput.first_frame ext l _

theorem violatesOrder_initMutex_cons (H : List Latch)
    (hH : violatesOrder .initMutex H = false) :
    ((Latch.initMutex :: H).any fun l => l.isInUse) = false := by
  simp only [violatesOrder, List.any_eq_false, Bool.or_eq_true, not_or] at hH
  simp only [List.any_cons, Latch.isInUse, Bool.false_or, List.any_eq_false]
  intro l hl
  exact (hH l hl).2

theorem initializeAudioOutput_safe (ext : External C K) (l : AudioFloat) (ms : Int)
    (H : List Latch) (hH : violatesOrder .initMutex H = false) :
    SafeFrom H (initializeAudioOutput ext l ms) fun _ H1 => H1 = H := by
  unfold initializeAudioOutput
  refine SafeFrom.bind_eq (SafeFrom.lock H _ hH) ?_
  intro _
  refine SafeFrom.bind_eq (SafeFrom.modifyState _ _ fun s => ⟨rfl, rfl⟩) ?_
  intro _
  refine SafeFrom.bind_eq
    (SafeFrom.of_frame _ _ (initializeAudioOutput.body_frame ext l ms)) ?_
  intro r
  refine SafeFrom.bind_eq (SafeFrom.unlock_eq _ H _ (by simp)) ?_
  intro _
  exact SafeFrom.pure _ _

theorem teardownAudioOutput.last_safe (ext : External C K) (H : List Latch)
    (hH : (H.any fun l => l.isInUse) = false) :
    SafeFrom H (teardownAudioOutput.last ext) fun _ H1 => H1 = H := by
  have htail : SafeFrom (C := C) (K := K) H
      (do
        imajuscule.call .windVoiceFinalize
        Synths.finalize .SimpleLinear
        Synths.finalize .WaitForKeyRelease
        Synths.finalize .ReleaseAfterDecay
        imajuscule.modifyState fun s => { s with ctxt := ext.TearDown s.ctxt }
        imajuscule.modifyState fun s => { s with xfade := [] }
        imajuscule.modifyState fun s => { s with noXfade := [] })
      fun _ H1 => H1 = H := by
    refine SafeFrom.bind_eq (SafeFrom.call _ _) ?_
    intro _
    refine SafeFrom.bind_eq (Synths.finalize_safe _ _ hH) ?_
    intro _
    refine SafeFrom.bind_eq (Synths.finalize_safe _ _ hH) ?_
    intro _
    refine SafeFrom.bind_eq (Synths.finalize_safe _ _ hH) ?_
    intro _
    refine SafeFrom.bind_eq (SafeFrom.modifyState _ _ fun s => ⟨rfl, rfl⟩) ?_
    intro _
    refine SafeFrom.bind_eq (SafeFrom.modifyState _ _ fun s => ⟨rfl, rfl⟩) ?_
    intro _
    exact SafeFrom.modifyState _ _ fun s => ⟨rfl, rfl⟩
  unfold teardownAudioOutput.last
  refine SafeFrom.bind_eq (SafeFrom.getState _) ?_
  intro s
  dsimp only
  split
  · refine SafeFrom.bind_eq (SafeFrom.modifyState _ _ fun s => ⟨rfl, rfl⟩) ?_
    intro _
    refine SafeFrom.bind_eq (SafeFrom.call _ _) ?_
    intro _
    exact htail
  · refine SafeFrom.bind_eq (SafeFrom.pure _ _) ?_
    intro _
    exact htail

theorem teardownAudioOutput_safe (ext : External C K) (H : List Latch)
    (hH : violatesOrder .initMutex H = false) :
    SafeFrom H (teardownAudioOutput ext) fun _ H1 => H1 = H := by
  unfold teardownAudioOutput
  refine SafeFrom.bind_eq (SafeFrom.lock H _ hH) ?_
  intro _
  refine SafeFrom.bind_eq (SafeFrom.modifyState _ _ fun s => ⟨rfl, rfl⟩) ?_
  intro _
  refine SafeFrom.bind_eq (SafeFrom.getState _) ?_
  intro s
  split
  · exact SafeFrom.unlock_eq _ H _ (by simp)
  · refine SafeFrom.bind_eq
      (teardownAudioOutput.last_safe ext _ (violatesOrder_initMutex_cons H hH)) ?_
    intro _
    exact SafeFrom.unlock_eq _ H _ (by simp)

theorem midiEvent_safe [LinearOrder K] (ext : External C K) (f : Family) (env : K)
    (e : Event) (H : List Latch) (hH : (H.any fun l => l.isInUse) = false) :
    SafeFrom H (midiEvent ext f env e) fun _ H1 => H1 = H := by
  unfold midiEvent
  refine SafeFrom.bind_eq (Synths.get_safe ext f env H hH) ?_
  intro u
  refine SafeFrom.bind_eq (SafeFrom.call _ _) ?_
  intro _
  refine SafeFrom.bind_eq (SafeFrom.unlock_eq _ H _ (by simp)) ?_
  intro _
  exact SafeFrom.pure _ _

theorem midiEventAHDSR_safe [LinearOrder K] (ext : External C K) (t : envelType) (p : K)
    (n : Event) (H : List Latch) (hH : (H.any fun l => l.isInUse) = false) :
    SafeFrom H (midiEventAHDSR ext t p n) fun _ H1 => H1 = H := by
  cases t <;> exact midiEvent_safe ext _ p n H hH

/-- The result of a piece is dropped. -/
theorem SafeFrom.drop {α : Type} {H : List Latch} {m : M C K α} {Q : α → List Latch → Prop}
    (hm : SafeFrom H m Q) :
    SafeFrom H
      (do
        let _ ← m
        Pure.pure ())
      fun _ _ => True :=
  SafeFrom.bind hm fun _ _ _ => SafeFrom.mono (SafeFrom.pure _ _) fun _ _ _ => trivial

end LockOrder

/-! ### Consistency of the statics -/

section Wellformed

variable {C K : Type}

theorem State.initial_wellformed [LinearOrder K] (c : C) :
    (State.initial c : State C K).Wellformed := by
  intro f
  have hm : (State.initial c : State C K).map f = [] := by cases f <;> rfl
  refine ⟨?_, ?_, ?_, ?_, ?_⟩
  · rw [hm]; intro e he; cases he
  · rw [hm]; exact List.Pairwise.nil
  · intro a _ h; cases h
  · rw [hm]; intro o ho; cases ho
  · intro g hg; cases hg

/-- Consistency only reads the maps, the non-crossfaded groups, `fresh` and `locked`. -/
theorem State.Wellformed.of_eq [LinearOrder K] {s s1 : State C K} (h : s.Wellformed)
    (hsynths : s1.synths = s.synths) (hno : s1.noXfade = s.noXfade)
    (hfresh : s1.fresh = s.fresh) (hlocked : s1.locked = s.locked) : s1.Wellformed := by
  intro f
  obtain ⟨h1, h2, h3, h4, h5⟩ := h f
  simp only [State.map, State.Fresh] at h1 h2 h3 h4 h5 ⊢
  rw [hsynths, hno, hfresh, hlocked]
  exact ⟨h1, h2, h3, h4, h5⟩

theorem State.Wellformed.lock_isUsed [LinearOrder K] {s s1 : State C K} (h : s.Wellformed)
    (o : Nat) (ho : o < s1.fresh) (hsynths : s1.synths = s.synths)
    (hno : s1.noXfade = s.noXfade) (hfresh : s1.fresh = s.fresh)
    (hlocked : s1.locked = .isUsed o :: s.locked) : s1.Wellformed := by
  intro f
  obtain ⟨h1, h2, h3, h4, h5⟩ := h f
  simp only [State.map, State.Fresh] at h1 h2 h3 h4 h5 ⊢
  rw [hsynths, hno, hlocked]
  rw [hfresh] at ho ⊢
  refine ⟨h1, h2, ?_, h4, h5⟩
  intro a ha
  simp only [List.mem_cons, Latch.isUsed.injEq, not_or]
  exact ⟨by omega, h3 a ha⟩

theorem State.Wellformed.erase [LinearOrder K] {s s1 : State C K} (h : s.Wellformed)
    (l : Latch) (hsynths : s1.synths = s.synths) (hno : s1.noXfade = s.noXfade)
    (hfresh : s1.fresh = s.fresh) (hlocked : s1.locked = s.locked.erase l) :
    s1.Wellformed := by
  intro f
  obtain ⟨h1, h2, h3, h4, h5⟩ := h f
  simp only [State.map, State.Fresh] at h1 h2 h3 h4 h5 ⊢
  rw [hsynths, hno, hfresh, hlocked]
  exact ⟨h1, h2, fun a ha hm => h3 a ha (List.mem_of_mem_erase hm), h4, h5⟩

theorem State.Wellformed.update [LinearOrder K] {s s1 : State C K} (h : s.Wellformed)
    (f : Family) (m : SynthMap K) (hsynths : s1.synths = s.synths.set f m)
    (hm1 : m.NoNull) (hm2 : m.Ordered) (hm3 : ∀ o ∈ m.instruments, o.addr < s1.fresh)
    (hfresh : s.fresh ≤ s1.fresh) (hno : ∀ g ∈ s1.noXfade, g.id < s1.fresh)
    (hlocked : ∀ l ∈ s1.locked, l ∈ s.locked ∨ ∃ o, l = .isUsed o ∧ o < s1.fresh) :
    s1.Wellformed := by
  intro g
  obtain ⟨h1, h2, h3, h4, h5⟩ := h g
  have hl : ∀ a, s1.fresh ≤ a → Latch.isUsed a ∉ s1.locked := by
    intro a ha hmem
    rcases hlocked _ hmem with hh | ⟨o, ho, hlt⟩
    · exact h3 a (le_trans hfresh ha) hh
    · cases ho
      omega
  by_cases hg : g = f
  · subst hg
    have e : s1.map g = m := by simp [State.map, hsynths]
    rw [State.Fresh, e]
    exact ⟨hm1, hm2, hl, hm3, hno⟩
  · have e : s1.map g = s.map g := by
      simp only [State.map, hsynths]
      exact Registries.get_set_of_ne _ _ hg
    rw [State.Fresh, e]
    exact ⟨h1, h2, hl, fun o ho => lt_of_lt_of_le (h4 o ho) hfresh, hno⟩

theorem SynthMap.NoNull_emplace [LinearOrder K] (k : K) (o : withChannels K) (m : SynthMap K)
    (h : m.NoNull) : (SynthMap.emplace k (some o) m).1.NoNull := by
  intro e he
  rcases SynthMap.mem_emplace k (some o) m e he with h1 | h1
  · rw [h1]; simp
  · exact h e h1

theorem SynthMap.instruments_emplace [LinearOrder K] (k : K) (o : withChannels K)
    (m : SynthMap K) (o1 : withChannels K)
    (h : o1 ∈ (SynthMap.emplace k (some o) m).1.instruments) :
    o1 = o ∨ o1 ∈ m.instruments := by
  rw [SynthMap.mem_instruments] at h
  obtain ⟨k1, hk1⟩ := h
  rcases SynthMap.mem_emplace k (some o) m _ hk1 with h1 | h1
  · left
    injection h1 with _ h2
    injection h2 with h3
  · right
    exact (SynthMap.mem_instruments _ _).2 ⟨k1, h1⟩

theorem SynthMap.NoNull_SetParam [DecidableEq K] (k : K) (m : SynthMap K) (h : m.NoNull) :
    (SynthMap.SetParam k m).NoNull := by
  intro e he
  simp only [SynthMap.SetParam, List.mem_map] at he
  obtain ⟨e0, he0, rfl⟩ := he
  have := h e0 he0
  split
  · cases h2 : e0.2 with
    | none => exact absurd h2 this
    | some o => simp
  · exact this

theorem SynthMap.Ordered_SetParam [LinearOrder K] (k : K) (m : SynthMap K) (h : m.Ordered) :
    (SynthMap.SetParam k m).Ordered := by
  have e : ∀ x : K × Option (withChannels K),
      (if x.1 = k then (x.1, x.2.map fun o => { o with param := some k }) else x).1 = x.1 := by
    intro x
    split <;> rfl
  simp only [SynthMap.Ordered, SynthMap.SetParam, List.pairwise_map, e]
  exact h

theorem SynthMap.instruments_SetParam [DecidableEq K] (k : K) (m : SynthMap K)
    (o : withChannels K) (h : o ∈ (SynthMap.SetParam k m).instruments) :
    ∃ o0 ∈ m.instruments, o.addr = o0.addr := by
  rw [SynthMap.mem_instruments] at h
  obtain ⟨k1, hk1⟩ := h
  simp only [SynthMap.SetParam, List.mem_map] at hk1
  obtain ⟨e0, he0, he⟩ := hk1
  obtain ⟨k0, i0⟩ := e0
  by_cases hk : k0 = k
  · simp only [hk, if_true] at he
    injection he with _ h2
    cases i0 with
    | none => cases h2
    | some o0 =>
      simp only [Option.map_some'] at h2
      injection h2 with h3
      exact ⟨o0, (SynthMap.mem_instruments _ _).2 ⟨k0, he0⟩, by rw [← h3]⟩
  · simp only [hk, if_false] at he
    injection he with h1 h2
    subst h2
    exact ⟨o, (SynthMap.mem_instruments _ _).2 ⟨k0, he0⟩, rfl⟩

theorem SynthMap.erased_facts [LinearOrder K] (pre post : SynthMap K)
    (e : K × Option (withChannels K)) (h1 : SynthMap.NoNull (pre ++ e :: post))
    (h2 : SynthMap.Ordered (pre ++ e :: post)) :
    SynthMap.NoNull (pre ++ post) ∧ SynthMap.Ordered (pre ++ post) ∧
      ∀ o ∈ SynthMap.instruments (pre ++ post), o ∈ SynthMap.instruments (pre ++ e :: post) := by
  have hsub : ∀ x ∈ pre ++ post, x ∈ pre ++ e :: post := by
    intro x hx
    rcases List.mem_append.1 hx with h | h
    · exact List.mem_append_left _ h
    · exact List.mem_append_right _ (List.mem_cons_of_mem _ h)
  refine ⟨fun x hx => h1 x (hsub x hx), ?_, ?_⟩
  · exact List.Pairwise.sublist
      (List.Sublist.append (List.Sublist.refl pre) (List.sublist_cons_self e post)) h2
  · intro o ho
    rw [SynthMap.mem_instruments] at ho ⊢
    obtain ⟨k, hk⟩ := ho
    exact ⟨k, hsub _ hk⟩

/-- A handle that `get` returns leaves the statics consistent. -/
theorem Synths.get_wellformed [LinearOrder K] (ext : External C K) (f : Family) (k : K)
    (s : State C K) (h : s.Wellformed) (hm : Latch.map_mutex f ∉ s.locked) :
    match Synths.get ext f k s with
    | .ret u s1 => s1.Wellformed ∧ u.o < s1.fresh
    | .blocked _ => True
    | .undefinedBehaviour _ => False := by
  obtain ⟨hn, hord, h1, h2, h3⟩ := h f
  rcases Synths.get_cases ext s f k hn with ⟨o, hf⟩ |
    ⟨hf, pre, post, k1, o, hmap, hpre, ho⟩ | ⟨hf, hall, hinit⟩ |
    ⟨⟨hf, hall, hinit, -⟩, k0, o0, rest, hmap⟩
  · have hmem : o ∈ (s.map f).instruments :=
      (SynthMap.mem_instruments _ _).2 ⟨k, SynthMap.mem_of_find_eq_some _ _ _ hf⟩
    by_cases hu : Latch.isUsed o.addr ∈ s.locked
    · rw [Synths.get_hit_blocked ext f k s o hm hf hu]
      trivial
    · rw [Synths.get_hit ext f k s o hm hf hu]
      exact ⟨h.lock_isUsed o.addr (h2 o hmem) rfl rfl rfl rfl, h2 o hmem⟩
  · have hmem : o ∈ (s.map f).instruments := by
      rw [hmap]; simp [SynthMap.instruments]
    rw [Synths.get_recycle ext f k s pre post k1 o hm hf hmap hpre ho]
    rw [hmap] at hn hord h2
    obtain ⟨e1, e2, e3⟩ := SynthMap.erased_facts pre post _ hn hord
    refine ⟨h.update f _ rfl
      (SynthMap.NoNull_SetParam _ _ (SynthMap.NoNull_emplace _ _ _ e1))
      (SynthMap.Ordered_SetParam _ _ (SynthMap.emplace_ordered _ _ _ e2)) ?_ (le_refl _) h3 ?_,
      h2 o (by simp [SynthMap.instruments])⟩
    · intro o1 ho1
      obtain ⟨o2, ho2, hadd⟩ := SynthMap.instruments_SetParam _ _ _ ho1
      rw [hadd]
      rcases SynthMap.instruments_emplace _ _ _ _ ho2 with hh | hh
      · rw [hh]
        exact h2 o (by simp [SynthMap.instruments])
      · exact h2 o2 (e3 o2 hh)
    · intro l hl
      rcases List.mem_cons.1 hl with hh | hh
      · exact Or.inr ⟨o.addr, hh, h2 o (by simp [SynthMap.instruments])⟩
      · exact Or.inl hh
  · have hu := h1 _ (Nat.le_succ s.fresh)
    rw [Synths.get_create ext f k s hm hf hall hinit hu]
    refine ⟨h.update f _ rfl (SynthMap.NoNull_emplace _ _ _ hn)
      (SynthMap.emplace_ordered _ _ _ hord) ?_ (by simp) ?_ ?_, by simp⟩
    · intro o1 ho1
      rcases SynthMap.instruments_emplace _ _ _ _ ho1 with hh | hh
      · rw [hh]
        simp
      · exact lt_trans (h2 o1 hh) (by simp)
    · intro g hg
      rcases List.mem_cons.1 hg with hh | hh
      · rw [hh]
        simp
      · exact lt_trans (h3 g hh) (by simp)
    · intro l hl
      rcases List.mem_cons.1 hl with hh | hh
      · exact Or.inr ⟨s.fresh + 1, hh, by simp⟩
      · exact Or.inl hh
  · have hmem : o0 ∈ (s.map f).instruments := by
      rw [hmap]; simp [SynthMap.instruments]
    have ho0 : o0.addr < s.fresh := h2 o0 hmem
    have hnot : ¬ (s.fresh + 1 = o0.addr ∨ Latch.isUsed (s.fresh + 1) ∈ s.locked) := by
      intro hh
      rcases hh with hh | hh
      · omega
      · exact h1 _ (Nat.le_succ _) hh
    rw [Synths.get_fallback ext f k s k0 o0 rest hm hf hall hinit hmap]
    by_cases h0 : Latch.isUsed o0.addr ∈ s.locked
    · rw [if_pos h0]
      trivial
    · rw [if_neg h0, if_neg hnot]
      refine ⟨h.update f (s.map f) (by simp [State.map]) hn hord ?_ (by simp) ?_ ?_,
        lt_trans ho0 (by simp)⟩
      · intro o1 ho1
        exact lt_trans (h2 o1 ho1) (by simp)
      · intro g hg
        rcases List.mem_cons.1 hg with hh | hh
        · rw [hh]
          simp
        · rw [map_flagged_of_lt _ _ h3] at hh
          exact lt_trans (h3 g hh) (by simp)
      · intro l hl
        rcases List.mem_cons.1 hl with hh | hh
        · exact Or.inr ⟨o0.addr, hh, lt_trans ho0 (by simp)⟩
        · exact Or.inl hh

theorem State.Wellformed.grow [LinearOrder K] {s s1 : State C K} (h : s.Wellformed)
    (hsynths : s1.synths = s.synths) (hno : s1.noXfade = s.noXfade)
    (hfresh : s.fresh ≤ s1.fresh) (hlocked : s1.locked = s.locked) : s1.Wellformed := by
  refine h.update .SimpleLinear (s.map .SimpleLinear) (by simp [State.map, hsynths])
    (h _).1 (h _).2.1 (fun o ho => lt_of_lt_of_le ((h _).2.2.2.1 o ho) hfresh) hfresh ?_ ?_
  · intro g hg
    rw [hno] at hg
    exact lt_of_lt_of_le ((h .SimpleLinear).2.2.2.2 g hg) hfresh
  · intro l hl
    rw [hlocked] at hl
    exact Or.inl hl

theorem midiEvent_idle [LinearOrder K] (ext : External C K) (f : Family) (k : K) (e : Event)
    (s : State C K) (h : s.Idle) :
    (midiEvent ext f k e s).Returns fun _ s1 => s1.Idle := by
  obtain ⟨hw, hl⟩ := h
  have hm : Latch.map_mutex f ∉ s.locked := by simp [hl]
  have h1 := Synths.get_wellformed ext f k s hw hm
  have h2 := Synths.get_latches ext f k s hm (hw f).1 (hw f).2.2
  simp only [midiEvent, M.bind_apply, M.bind]
  cases hr : Synths.get ext f k s with
  | ret u s1 =>
    rw [hr] at h1 h2
    obtain ⟨-, h3, -, -, -, -⟩ := h2
    simp only [call_apply, Using.destructor, unlock_apply, M.pure_apply, Outcome.Returns]
    refine ⟨h1.1.erase (.isUsed u.o) rfl rfl rfl rfl, ?_⟩
    simp [h3, hl]
  | blocked s1 =>
    rw [hr] at h2
    obtain ⟨o, -, ho, -⟩ := h2
    rw [hl] at ho
    cases ho
  | undefinedBehaviour s1 =>
    rw [hr] at h2
    exact h2.elim

theorem initializeAudioOutput_idle [LinearOrder K] (ext : External C K) (l : AudioFloat)
    (ms : Int) (s : State C K) (h : s.Idle) :
    (initializeAudioOutput ext l ms s).Returns fun _ s1 => s1.Idle := by
  obtain ⟨hw, hl⟩ := h
  simp only [initializeAudioOutput, initializeAudioOutput.body, initializeAudioOutput.first,
    M.bind_apply, M.bind, lock, hl, List.not_mem_nil, if_false, modifyState_apply,
    getState_apply, addXfadeChannels, call_apply, unlock_apply, M.pure_apply, M.ite_apply]
  split_ifs <;> simp only [Outcome.Returns, State.Idle, List.erase_cons_head, and_true] <;>
    exact hw.grow rfl rfl (by simp) (by simp [hl])

theorem teardownAudioOutput_idle [LinearOrder K] (ext : External C K) (s : State C K)
    (h : s.Idle) : (teardownAudioOutput ext s).Returns fun _ s1 => s1.Idle := by
  obtain ⟨hw, hl⟩ := h
  have hi : Latch.initMutex ∉ s.locked := by simp [hl]
  by_cases hp : wrapInt32 (s.countUsers - 1) > 0
  · rw [teardownAudioOutput_eq_of_pos ext s hi hp]
    exact ⟨hw.of_eq rfl rfl rfl rfl, hl⟩
  · rw [teardownAudioOutput_eq_of_not_pos ext s hi hp (by simp [hl]) (fun f => (hw f).1)
      (by intro f o _; simp [hl])]
    refine ⟨?_, hl⟩
    intro f
    have hm : ∀ g : Family, (Registries.empty : Registries K).get g = [] := by
      intro g; cases g <;> rfl
    simp only [State.map, State.Fresh, hm]
    refine ⟨?_, List.Pairwise.nil, (hw f).2.2.1, ?_, ?_⟩
    · intro e he; cases he
    · intro o ho; cases ho
    · intro g hg; cases hg

theorem ApiCall.run_idle [LinearOrder K] (ext : External C K) (c : ApiCall) (s : State C K)
    (h : s.Idle) : (c.run ext s).Returns fun _ s1 => s1.Idle := by
  have hdrop : ∀ {α : Type} (m : M C K α), (m s).Returns (fun _ s1 => s1.Idle) →
      ((do
        let _ ← m
        Pure.pure ()) s).Returns fun _ s1 => s1.Idle := by
    intro α m hm
    exact Outcome.Returns.bind_returns hm fun _ _ h1 => h1
  have hnote : ∀ (b : Bool) (m : M C K Bool), (m s).Returns (fun _ s1 => s1.Idle) →
      ((do
        let _ ← getState
        if (!b) = true then Pure.pure false else m : M C K Bool) s).Returns
        fun _ s1 => s1.Idle := by
    intro b m hm
    simp only [M.bind_apply, M.bind, getState_apply, M.ite_apply]
    split
    · exact h
    · exact hm
  cases c with
  | initializeAudioOutput l ms => exact hdrop _ (initializeAudioOutput_idle ext l ms s h)
  | teardownAudioOutput => exact teardownAudioOutput_idle ext s h
  | midiNoteOn t p v => exact hdrop _ (hnote _ _ (midiEvent_idle ext _ _ _ s h))
  | midiNoteOff t p => exact hdrop _ (hnote _ _ (midiEvent_idle ext _ _ _ s h))
  | midiNoteOnAHDSR_ t a ai h1 d di su r ri p v =>
    refine hdrop _ (hnote _ _ ?_)
    cases t <;> exact midiEvent_idle ext _ _ _ s h
  | midiNoteOffAHDSR_ t a ai h1 d di su r ri p =>
    refine hdrop _ (hnote _ _ ?_)
    cases t <;> exact midiEvent_idle ext _ _ _ s h
  | effectOn program p v =>
    refine hdrop _ ?_
    simp only [imajuscule.effectOn, M.bind_apply, M.bind, getState_apply, M.ite_apply, call_apply,
      M.pure_apply]
    split
    · exact h
    · exact ⟨h.1.of_eq rfl rfl rfl rfl, h.2⟩
  | effectOff p =>
    refine hdrop _ ?_
    simp only [imajuscule.effectOff, M.bind_apply, M.bind, getState_apply, M.ite_apply, call_apply,
      M.pure_apply]
    split
    · exact h
    · exact ⟨h.1.of_eq rfl rfl rfl rfl, h.2⟩

/-- Every sequence of calls of the interface by one thread, from the start of the program:
each call returns (none waits for ever, none dereferences a null pointer), and it leaves
the statics consistent and every mutex free. -/
theorem runApi_idle [LinearOrder K] (calls : List (External C K × ApiCall)) (s : State C K)
    (h : s.Idle) : (runApi calls s).Returns fun _ s1 => s1.Idle := by
  induction calls generalizing s with
  | nil => exact h
  | cons e rest ih =>
    obtain ⟨ext, c⟩ := e
    simp only [runApi, M.bind_apply]
    exact Outcome.Returns.bind_returns (ApiCall.run_idle ext c s h) fun _ s1 h1 => ih s1 h1

theorem runApi_initial_idle [LinearOrder K] (c : C) (calls : List (External C K × ApiCall)) :
    (runApi calls (State.initial c)).Returns fun _ s1 => s1.Idle :=
  runApi_idle calls _ ⟨State.initial_wellformed c, rfl⟩

end Wellformed

section EnvelopeLemmas

variable {E P : Type} (env : Envelope E P)

theorem Envelope.samples_zero (e : E) : env.samples e 0 = [] := rfl

theorem Envelope.samples_succ (e : E) (n : Nat) :
    env.samples e (n + 1) = env.value (env.step e) :: env.samples (env.step e) n := by
  simp only [Envelope.samples, List.range_succ_eq_map, List.map_cons, List.map_map]
  rfl

theorem Envelope.samples_length (e : E) (n : Nat) : (env.samples e n).length = n := by
  simp [Envelope.samples]

theorem Envelope.doneAfter_zero {e : E} (h : env.EnvelopeDone1 e = true) :
    env.DoneAfter e 0 :=
  ⟨h, fun j hj => absurd hj (Nat.not_lt_zero j)⟩

theorem Envelope.doneAfter_succ {e : E} {n : Nat} (h : env.EnvelopeDone1 e = false)
    (hn : env.DoneAfter (env.step e) n) : env.DoneAfter e (n + 1) := by
  refine ⟨by simpa [Function.iterate_succ_apply] using hn.1, fun j hj => ?_⟩
  cases j with
  | zero => simpa using h
  | succ j =>
    rw [Function.iterate_succ_apply]
    exact hn.2 j (by omega)

theorem Envelope.doneAfter_not_done {e : E} {n : Nat} (hn : env.DoneAfter e (n + 1)) :
    env.EnvelopeDone1 e = false := by
  simpa using hn.2 0 (by omega)

theorem Envelope.doneAfter_pred {e : E} {n : Nat} (hn : env.DoneAfter e (n + 1)) :
    env.DoneAfter (env.step e) n := by
  refine ⟨by simpa [Function.iterate_succ_apply] using hn.1, fun j hj => ?_⟩
  have := hn.2 (j + 1) (by omega)
  rwa [Function.iterate_succ_apply] at this

theorem Envelope.doneAfter_done_zero {e : E} {n : Nat} (hn : env.DoneAfter e n)
    (h : env.EnvelopeDone1 e = true) : n = 0 := by
  cases n with
  | zero => rfl
  | succ n => rw [Envelope.doneAfter_not_done env hn] at h; cases h

theorem Envelope.doneBeforeBoundary_zero {e : E} (h : env.EnvelopeDone1 e = true) :
    env.DoneBeforeBoundary e 0 :=
  ⟨Envelope.doneAfter_zero env h, fun k h1 h0 => by omega⟩

theorem Envelope.doneBeforeBoundary_succ {e : E} {n : Nat} (h : env.EnvelopeDone1 e = false)
    (ha : env.afterAttackBeforeSustain (env.step e) = true)
    (hn : env.DoneBeforeBoundary (env.step e) n) : env.DoneBeforeBoundary e (n + 1) := by
  refine ⟨Envelope.doneAfter_succ env h hn.1, fun k h1 hk => ?_⟩
  obtain ⟨k, rfl⟩ : ∃ i, k = i + 1 := ⟨k - 1, by omega⟩
  rw [Function.iterate_succ_apply]
  cases k with
  | zero => simpa using ha
  | succ k => exact hn.2 (k + 1) (by omega) (by omega)

theorem Envelope.doneBeforeBoundary_pred {e : E} {n : Nat}
    (hn : env.DoneBeforeBoundary e (n + 1)) :
    env.afterAttackBeforeSustain (env.step e) = true ∧ env.DoneBeforeBoundary (env.step e) n := by
  refine ⟨by simpa using hn.2 1 (by omega) (by omega),
    Envelope.doneAfter_pred env hn.1, fun k h1 hk => ?_⟩
  have := hn.2 (k + 1) (by omega) (by omega)
  rwa [Function.iterate_succ_apply] at this

theorem Envelope.boundaryAt_one {e : E} (h : env.EnvelopeDone1 e = false)
    (ha : env.afterAttackBeforeSustain (env.step e) = false) : env.BoundaryAt e 1 := by
  refine ⟨le_refl 1, fun j hj => ?_, fun k h1 hk => by omega, by simpa using ha⟩
  obtain rfl : j = 0 := by omega
  simpa using h

theorem Envelope.boundaryAt_succ {e : E} {m : Nat} (h : env.EnvelopeDone1 e = false)
    (ha : env.afterAttackBeforeSustain (env.step e) = true)
    (hm : env.BoundaryAt (env.step e) m) : env.BoundaryAt e (m + 1) := by
  refine ⟨by omega, fun j hj => ?_, fun k h1 hk => ?_, ?_⟩
  · cases j with
    | zero => simpa using h
    | succ j =>
      rw [Function.iterate_succ_apply]
      exact hm.2.1 j (by omega)
  · obtain ⟨k, rfl⟩ : ∃ i, k = i + 1 := ⟨k - 1, by omega⟩
    rw [Function.iterate_succ_apply]
    cases k with
    | zero => simpa using ha
    | succ k => exact hm.2.2.1 (k + 1) (by omega) (by omega)
  · rw [Function.iterate_succ_apply]
    exact hm.2.2.2

theorem Envelope.boundaryAt_not_done {e : E} {m : Nat} (hm : env.BoundaryAt e m) :
    env.EnvelopeDone1 e = false := by
  simpa using hm.2.1 0 (by have := hm.1; omega)

theorem Envelope.boundaryAt_pos {e : E} {m : Nat} (hm : env.BoundaryAt e m) : 1 ≤ m := hm.1

theorem Envelope.boundaryAt_at_one {e : E} (hm : env.BoundaryAt e 1) :
    env.afterAttackBeforeSustain (env.step e) = false := by
  simpa using hm.2.2.2

theorem Envelope.boundaryAt_pred {e : E} {m : Nat} (hm : env.BoundaryAt e (m + 2)) :
    env.afterAttackBeforeSustain (env.step e) = true ∧ env.BoundaryAt (env.step e) (m + 1) := by
  refine ⟨by simpa using hm.2.2.1 1 (by omega) (by omega), by omega, fun j hj => ?_,
    fun k h1 hk => ?_, ?_⟩
  · have := hm.2.1 (j + 1) (by omega)
    rwa [Function.iterate_succ_apply] at this
  · have := hm.2.2.1 (k + 1) (by omega) (by omega)
    rwa [Function.iterate_succ_apply] at this
  · have := hm.2.2.2
    rwa [Function.iterate_succ_apply] at this

/-- What the `while` loop leaves when it ends after `n` steps. -/
theorem envelopeGraphVec.whileLoop_complete (n : Nat) :
    ∀ (fuel : Nat) (l : envelopeGraphVec.Locals E), n < fuel → env.DoneAfter l.e n →
      envelopeGraphVec.whileLoop env fuel l =
        some { l with e := env.step^[n] l.e, v := l.v ++ env.samples l.e n } := by
  induction n with
  | zero =>
    intro fuel l hf hd
    obtain ⟨fuel, rfl⟩ : ∃ k, fuel = k + 1 := ⟨fuel - 1, by omega⟩
    have h0 : env.EnvelopeDone1 l.e = true := by simpa using hd.1
    simp [envelopeGraphVec.whileLoop, h0, Envelope.samples_zero]
  | succ n ih =>
    intro fuel l hf hd
    obtain ⟨fuel, rfl⟩ : ∃ k, fuel = k + 1 := ⟨fuel - 1, by omega⟩
    have h0 := Envelope.doneAfter_not_done env hd
    have h1 := Envelope.doneAfter_pred env hd
    rw [envelopeGraphVec.whileLoop]
    simp only [h0, Bool.false_eq_true, if_false]
    rw [ih fuel _ (by omega) h1]
    simp [Envelope.samples_succ, Function.iterate_succ_apply]

/-- When the `while` loop ends, it ends after some `n` steps, at the first report of done. -/
theorem envelopeGraphVec.whileLoop_sound (fuel : Nat) :
    ∀ (l l' : envelopeGraphVec.Locals E), envelopeGraphVec.whileLoop env fuel l = some l' →
      ∃ n, n < fuel ∧ env.DoneAfter l.e n ∧
        l' = { l with e := env.step^[n] l.e, v := l.v ++ env.samples l.e n } := by
  induction fuel with
  | zero => intro l l' h; simp [envelopeGraphVec.whileLoop] at h
  | succ fuel ih =>
    intro l l' h
    rw [envelopeGraphVec.whileLoop] at h
    by_cases h0 : env.EnvelopeDone1 l.e = true
    · simp only [h0, if_true, Option.some.injEq] at h
      subst h
      exact ⟨0, by omega, Envelope.doneAfter_zero env h0, by simp [Envelope.samples_zero]⟩
    · have h0 : env.EnvelopeDone1 l.e = false := by simpa using h0
      simp only [h0, Bool.false_eq_true, if_false] at h
      obtain ⟨n, hn, hd, rfl⟩ := ih _ _ h
      exact ⟨n + 1, by omega, Envelope.doneAfter_succ env h0 hd,
        by simp [Envelope.samples_succ, Function.iterate_succ_apply]⟩

/-- What the `for` loop leaves when it ends at index `k`. -/
theorem envelopeGraphVec.forLoop_complete (k : Nat) :
    ∀ (fuel : Nat) (l l' : envelopeGraphVec.Locals E), k < fuel →
      envelopeGraphVec.ForSpec env l l' k → envelopeGraphVec.forLoop env fuel l = some l' := by
  induction k with
  | zero =>
    intro fuel l l' hf hs
    obtain ⟨fuel, rfl⟩ : ∃ k, fuel = k + 1 := ⟨fuel - 1, by omega⟩
    rcases hs with ⟨hd, rfl⟩ | ⟨hb, -⟩
    · have h0 : env.EnvelopeDone1 l.e = true := by simpa using hd.1.1
      simp [envelopeGraphVec.forLoop, h0, Envelope.samples_zero]
    · exact absurd (Envelope.boundaryAt_pos env hb) (by omega)
  | succ k ih =>
    intro fuel l l' hf hs
    obtain ⟨fuel, rfl⟩ : ∃ k, fuel = k + 1 := ⟨fuel - 1, by omega⟩
    rw [envelopeGraphVec.forLoop]
    rcases hs with ⟨hd, rfl⟩ | ⟨hb, rfl⟩
    · have h0 := Envelope.doneAfter_not_done env hd.1
      obtain ⟨ha, h1⟩ := Envelope.doneBeforeBoundary_pred env hd
      simp only [h0, Bool.false_eq_true, if_false, ha, Bool.not_true]
      rw [ih fuel _ _ (by omega) (Or.inl ⟨h1, rfl⟩)]
      simp [Envelope.samples_succ, Function.iterate_succ_apply]
    · have h0 := Envelope.boundaryAt_not_done env hb
      cases k with
      | zero =>
        have ha := Envelope.boundaryAt_at_one env hb
        by_cases hr : env.Release = EnvelopeRelease.WaitForKeyRelease <;>
          simp [h0, ha, hr, Envelope.samples_succ, Envelope.samples_zero, Envelope.afterBoundary]
      | succ k =>
        obtain ⟨ha, h1⟩ := Envelope.boundaryAt_pred env hb
        simp only [h0, Bool.false_eq_true, if_false, ha, Bool.not_true]
        rw [ih fuel _ _ (by omega) (Or.inr ⟨h1, rfl⟩)]
        simp [Envelope.samples_succ, Function.iterate_succ_apply]
        refine ⟨?_, ?_⟩ <;> first | omega | ring_nf

/-- When the `for` loop ends, it ends at some index `k` as `ForSpec` describes. -/
theorem envelopeGraphVec.forLoop_sound (fuel : Nat) :
    ∀ (l l' : envelopeGraphVec.Locals E), envelopeGraphVec.forLoop env fuel l = some l' →
      ∃ k, k ≤ fuel ∧ envelopeGraphVec.ForSpec env l l' k := by
  induction fuel with
  | zero => intro l l' h; simp [envelopeGraphVec.forLoop] at h
  | succ fuel ih =>
    intro l l' h
    rw [envelopeGraphVec.forLoop] at h
    by_cases h0 : env.EnvelopeDone1 l.e = true
    · simp only [h0, if_true, Option.some.injEq] at h
      subst h
      exact ⟨0, by omega, Or.inl ⟨Envelope.doneBeforeBoundary_zero env h0,
        by simp [Envelope.samples_zero]⟩⟩
    · have h0 : env.EnvelopeDone1 l.e = false := by simpa using h0
      simp only [h0, Bool.false_eq_true, if_false] at h
      by_cases ha : env.afterAttackBeforeSustain (env.step l.e) = true
      · simp only [ha, Bool.not_true, Bool.false_eq_true, if_false] at h
        obtain ⟨k, hk, hs⟩ := ih _ _ h
        refine ⟨k + 1, by omega, ?_⟩
        rcases hs with ⟨hd, rfl⟩ | ⟨hb, rfl⟩
        · exact Or.inl ⟨Envelope.doneBeforeBoundary_succ env h0 ha hd,
            by simp [Envelope.samples_succ, Function.iterate_succ_apply]⟩
        · refine Or.inr ⟨Envelope.boundaryAt_succ env h0 ha hb, ?_⟩
          simp [Envelope.samples_succ, Function.iterate_succ_apply]
          refine ⟨?_, ?_⟩ <;> first | omega | ring_nf
      · have ha : env.afterAttackBeforeSustain (env.step l.e) = false := by simpa using ha
        simp only [ha, Bool.not_false, if_true] at h
        refine ⟨1, by omega, Or.inr ⟨Envelope.boundaryAt_one env h0 ha, ?_⟩⟩
        by_cases hr : env.Release = EnvelopeRelease.WaitForKeyRelease <;>
          simp [hr] at h <;> subst h <;>
          simp [hr, Envelope.samples_succ, Envelope.samples_zero, Envelope.afterBoundary]

/-- The start of the `for` loop in `envelopeGraphVec`. -/
theorem envelopeGraphVec_eq (envParams : P) (fuel : Nat) :
    envelopeGraphVec env envParams fuel =
      (envelopeGraphVec.forLoop env fuel
          { e := env.pressed envParams, splitAt := -1, v := [], keyReleases := [] }).bind
        fun l => (envelopeGraphVec.whileLoop env fuel l).map
          fun l => { v := l.v, splitAt := l.splitAt, keyReleases := l.keyReleases } := by
  simp only [envelopeGraphVec, Envelope.pressed]
  generalize envelopeGraphVec.forLoop env fuel _ = r
  cases r with
  | none => rfl
  | some l =>
    simp only [Option.some_bind]
    generalize envelopeGraphVec.whileLoop env fuel l = r2
    cases r2 <;> rfl

/-- Whatever `envelopeGraphVec` returns is the analysis that the spec describes, with the
split narrowed to an `int`. -/
theorem narrowed_of_envelopeGraphVec {envParams : P} {fuel : Nat} {g : EnvelopeGraph}
    (h : envelopeGraphVec env envParams fuel = some g) :
    ∃ g0, Analyzed env envParams g0 ∧ g = g0.narrowed := by
  rw [envelopeGraphVec_eq] at h
  simp only [Option.bind_eq_some, Option.map_eq_some'] at h
  obtain ⟨l1, h1, l2, h2, rfl⟩ := h
  obtain ⟨k, -, hk⟩ := envelopeGraphVec.forLoop_sound env fuel _ _ h1
  obtain ⟨n, -, hn, rfl⟩ := envelopeGraphVec.whileLoop_sound env fuel _ _ h2
  rcases hk with ⟨hd, rfl⟩ | ⟨hb, rfl⟩
  · obtain rfl := Envelope.doneAfter_done_zero env hn hd.1.1
    exact ⟨_, Or.inl ⟨k, hd, rfl⟩, by simp [Envelope.samples_zero, EnvelopeGraph.narrowed, wrapInt32]⟩
  · exact ⟨_, Or.inr ⟨k, n, hb, hn, rfl⟩, by simp [EnvelopeGraph.narrowed]⟩

/-- The analysis that the spec describes is returned, the split narrowed to an `int`, when
the fuel is enough. -/
theorem envelopeGraphVec_of_analyzed {envParams : P} {g : EnvelopeGraph}
    (h : Analyzed env envParams g) :
    ∃ fuel0, ∀ fuel, fuel0 ≤ fuel → envelopeGraphVec env envParams fuel = some g.narrowed := by
  rcases h with ⟨n, hd, rfl⟩ | ⟨m, n, hb, hn, rfl⟩
  · refine ⟨n + 1, fun fuel hf => ?_⟩
    rw [envelopeGraphVec_eq,
      envelopeGraphVec.forLoop_complete env n fuel _ _ (by omega) (Or.inl ⟨hd, rfl⟩)]
    simp only [Option.some_bind]
    rw [envelopeGraphVec.whileLoop_complete env 0 fuel _ (by omega)
      (Envelope.doneAfter_zero env hd.1.1)]
    simp [Envelope.samples_zero, EnvelopeGraph.narrowed, wrapInt32]
  · refine ⟨m + n + 1, fun fuel hf => ?_⟩
    rw [envelopeGraphVec_eq,
      envelopeGraphVec.forLoop_complete env m fuel _ _ (by omega) (Or.inr ⟨hb, rfl⟩)]
    simp only [Option.some_bind]
    rw [envelopeGraphVec.whileLoop_complete env n fuel _ (by omega) hn]
    simp [EnvelopeGraph.narrowed]

/-- Done before any boundary and a boundary exclude each other. -/
theorem Envelope.not_boundaryAt_of_doneBeforeBoundary {e : E} {n m : Nat}
    (hd : env.DoneBeforeBoundary e n) (hb : env.BoundaryAt e m) : False := by
  by_cases h : m ≤ n
  · have h1 := hd.2 m hb.1 h
    rw [hb.2.2.2] at h1
    cases h1
  · have h1 := hb.2.1 n (by omega)
    rw [hd.1.1] at h1
    cases h1

theorem Envelope.doneAfter_unique {e : E} {n n' : Nat}
    (h : env.DoneAfter e n) (h' : env.DoneAfter e n') : n = n' := by
  rcases Nat.lt_trichotomy n n' with hlt | heq | hgt
  · have := h'.2 n hlt
    rw [h.1] at this
    cases this
  · exact heq
  · have := h.2 n' hgt
    rw [h'.1] at this
    cases this

theorem Envelope.boundaryAt_unique {e : E} {m m' : Nat}
    (h : env.BoundaryAt e m) (h' : env.BoundaryAt e m') : m = m' := by
  rcases Nat.lt_trichotomy m m' with hlt | heq | hgt
  · have := h'.2.2.1 m h.1 hlt
    rw [h.2.2.2] at this
    cases this
  · exact heq
  · have := h.2.2.1 m' h'.1 hgt
    rw [h'.2.2.2] at this
    cases this

/-- The analysis that the spec describes has at most one result. -/
theorem Analyzed.unique {envParams : P} {g g' : EnvelopeGraph}
    (h : Analyzed env envParams g) (h' : Analyzed env envParams g') : g = g' := by
  rcases h with ⟨n, hd, rfl⟩ | ⟨m, n, hb, hn, rfl⟩ <;>
    rcases h' with ⟨n', hd', rfl⟩ | ⟨m', n', hb', hn', rfl⟩
  · rw [Envelope.doneAfter_unique env hd.1 hd'.1]
  · exact (Envelope.not_boundaryAt_of_doneBeforeBoundary env hd hb').elim
  · exact (Envelope.not_boundaryAt_of_doneBeforeBoundary env hd' hb).elim
  · obtain rfl := Envelope.boundaryAt_unique env hb hb'
    rw [Envelope.doneAfter_unique env hn hn']

/-- The split of an analysis is `-1` or a position in the samples, from `1` on. -/
theorem Analyzed.splitAt_bounds {envParams : P} {g : EnvelopeGraph}
    (h : Analyzed env envParams g) :
    g.splitAt = -1 ∨ (1 ≤ g.splitAt ∧ g.splitAt ≤ (g.v.length : Int)) := by
  rcases h with ⟨n, -, rfl⟩ | ⟨m, n, hb, -, rfl⟩
  · exact Or.inl rfl
  · have := hb.1
    refine Or.inr ⟨by simp only; omega, ?_⟩
    simp only [List.length_append, Envelope.samples_length]
    omega

/-- An analysis of fewer than `2^31` samples is not changed when the split is narrowed. -/
theorem Analyzed.narrowed_eq {envParams : P} {g : EnvelopeGraph}
    (h : Analyzed env envParams g) (hsize : g.v.length < 2147483648) : g.narrowed = g := by
  have hw : wrapInt32 g.splitAt = g.splitAt := by
    rcases Analyzed.splitAt_bounds env h with h1 | ⟨h1, h2⟩
    · rw [h1]; rfl
    · exact wrapInt32_of_range (by omega) (by omega)
  cases g
  simp only [EnvelopeGraph.narrowed] at hw ⊢
  rw [hw]

/-- The split of an analysis is `-1` exactly when done is reported before any boundary. -/
theorem Analyzed.splitAt_eq_neg_one_iff {envParams : P} {g : EnvelopeGraph}
    (h : Analyzed env envParams g) :
    g.splitAt = -1 ↔ ∃ n, env.DoneBeforeBoundary (env.pressed envParams) n := by
  constructor
  · intro hs
    rcases h with ⟨n, hd, -⟩ | ⟨m, n, -, -, rfl⟩
    · exact ⟨n, hd⟩
    · simp only at hs; omega
  · rintro ⟨n, hd⟩
    have := Analyzed.unique env h (Or.inl ⟨n, hd, rfl⟩)
    rw [this]

/-- The key release of an analysis: one, at the split, when there is a split and the family
honours the key release; none otherwise. -/
theorem Analyzed.keyReleases_eq {envParams : P} {g : EnvelopeGraph}
    (h : Analyzed env envParams g) :
    g.keyReleases =
      if g.splitAt ≠ -1 ∧ env.Release = EnvelopeRelease.WaitForKeyRelease then
        [g.splitAt.toNat]
      else [] := by
  rcases h with ⟨n, -, rfl⟩ | ⟨m, n, -, -, rfl⟩
  · simp
  · have : (m : Int) ≠ -1 := by omega
    by_cases hr : env.Release = EnvelopeRelease.WaitForKeyRelease <;> simp [hr, this]

/-- The samples of an analysis are empty exactly when done is reported before the first
step. -/
theorem Analyzed.v_eq_nil_iff {envParams : P} {g : EnvelopeGraph}
    (h : Analyzed env envParams g) :
    g.v = [] ↔ env.EnvelopeDone1 (env.pressed envParams) = true := by
  rcases h with ⟨n, hd, rfl⟩ | ⟨m, n, hb, hn, rfl⟩
  · constructor
    · intro hv
      have hl := congrArg List.length hv
      rw [Envelope.samples_length] at hl
      obtain rfl : n = 0 := hl
      exact hd.1.1
    · intro h0
      obtain rfl := Envelope.doneAfter_done_zero env hd.1 h0
      rfl
  · constructor
    · intro hv
      have hl := congrArg List.length hv
      simp only [List.length_append, Envelope.samples_length, List.length_nil] at hl
      have := hb.1
      omega
    · intro h0
      rw [Envelope.boundaryAt_not_done env hb] at h0
      cases h0

/-- An envelope that never reports done keeps `envelopeGraphVec` running, whatever the
fuel. -/
theorem envelopeGraphVec_never_done {envParams : P}
    (h : ∀ e, env.EnvelopeDone1 e = false) (fuel : Nat) :
    envelopeGraphVec env envParams fuel = none := by
  cases hg : envelopeGraphVec env envParams fuel with
  | none => rfl
  | some g =>
    obtain ⟨g0, hg0, -⟩ := narrowed_of_envelopeGraphVec env hg
    rcases hg0 with ⟨n, hd, -⟩ | ⟨m, n, -, hn, -⟩
    · have := hd.1.1
      rw [h] at this
      cases this
    · have := hn.1
      rw [h] at this
      cases this

end EnvelopeLemmas

section AHDSRLemmas

variable (rel : EnvelopeRelease) (value : AHDSREnvelope.State → AudioFloat)

theorem AHDSREnvelope.iterate_step (k : Nat) :
    ∀ e : AHDSREnvelope.State,
      (AHDSREnvelope rel value).step^[k] e = { e with t := e.t + k } := by
  induction k with
  | zero => intro e; rfl
  | succ k ih =>
    intro e
    rw [Function.iterate_succ_apply, ih]
    simp [AHDSREnvelope, Nat.add_assoc, Nat.add_comm 1 k]

theorem AHDSREnvelope.pressed_eq (p : AHDSR) :
    (AHDSREnvelope rel value).pressed p = { params := p, t := 0, released := none } := rfl

theorem AHDSREnvelope.iterate_pressed (p : AHDSR) (k : Nat) :
    (AHDSREnvelope rel value).step^[k] ((AHDSREnvelope rel value).pressed p) =
      { params := p, t := k, released := none } := by
  rw [AHDSREnvelope.iterate_step, AHDSREnvelope.pressed_eq]
  simp

/-- The release-after-decay family is never in the sustain phase while the key is held. -/
theorem AHDSREnvelope.phase_ne_sustain (p : AHDSR) (t : Nat) :
    AHDSREnvelope.phase .ReleaseAfterDecay { params := p, t := t, released := none } ≠
      .sustain := by
  simp only [AHDSREnvelope.phase]
  split_ifs <;> simp

/-- The release-after-decay family is done from step `p.duration` on, not earlier. -/
theorem AHDSREnvelope.phase_eq_done_iff (p : AHDSR) (t : Nat) :
    AHDSREnvelope.phase .ReleaseAfterDecay { params := p, t := t, released := none } = .done ↔
      p.duration ≤ t := by
  simp only [AHDSREnvelope.phase, AHDSR.duration]
  split_ifs <;> simp <;> omega

/-- The release-after-decay family, key pressed and then only stepped, reports done after
`p.duration` steps and the boundary is never observed. -/
theorem AHDSREnvelope.doneBeforeBoundary (p : AHDSR) :
    (AHDSREnvelope .ReleaseAfterDecay value).DoneBeforeBoundary
      ((AHDSREnvelope .ReleaseAfterDecay value).pressed p) p.duration := by
  refine ⟨⟨?_, fun j hj => ?_⟩, fun k _ _ => ?_⟩
  · rw [AHDSREnvelope.iterate_pressed]
    simp only [AHDSREnvelope, beq_iff_eq]
    exact (AHDSREnvelope.phase_eq_done_iff p _).2 (le_refl _)
  · rw [AHDSREnvelope.iterate_pressed]
    simp only [AHDSREnvelope, beq_eq_false_iff_ne, ne_eq]
    rw [AHDSREnvelope.phase_eq_done_iff]
    omega
  · rw [AHDSREnvelope.iterate_pressed]
    simp only [AHDSREnvelope, bne_iff_ne, ne_eq]
    exact AHDSREnvelope.phase_ne_sustain p k

end AHDSRLemmas

section ExampleEnvelopes

theorem Example.countdown_iterate (k : Nat) : ∀ n : Nat, Example.countdown.step^[k] n = n - k := by
  induction k with
  | zero => intro n; rfl
  | succ k ih =>
    intro n
    rw [Function.iterate_succ_apply, ih]
    simp only [Example.countdown]
    omega

theorem Example.countdown_doneBeforeBoundary (n : Nat) :
    Example.countdown.DoneBeforeBoundary (Example.countdown.pressed n) n := by
  have hp : Example.countdown.pressed n = n := rfl
  refine ⟨⟨?_, fun j hj => ?_⟩, fun k _ _ => rfl⟩
  · rw [hp, Example.countdown_iterate]
    simp [Example.countdown]
  · rw [hp, Example.countdown_iterate]
    simp only [Example.countdown, beq_eq_false_iff_ne, ne_eq]
    omega

end ExampleEnvelopes

/-! ## Properties of the specification -/

section Claims

variable {C K : Type}

/-- C1: lock-order safety.  Take any operation of the control path (`initializeAudioOutput`,
`teardownAudioOutput`, `Synths::get`, `Synths::recycleInstrument`, `Synths::finalize`,
`~withChannels`, the construction and destruction of a `Using`, `midiEvent` and the four
note calls), started by a caller whose recorded acquisitions are in order and who holds
nothing later in the order than the first latch the operation acquires (a top-level caller
holds nothing).  Then in the state the operation ends in (it returned, or it waits on a
latch, or it dereferenced a null pointer) every recorded acquisition is in order: the init
latch was never acquired while a registry or in-use latch was held, and no registry latch
while an in-use latch was held. -/
theorem C1_lock_order_safety [LinearOrder K] (ext : External C K) (op : ControlOp K)
    (s : State C K) (hs : s.LockOrdered) (hentry : op.entry s.held = true) :
    (op.run ext s).state.LockOrdered := by
  have hfacade : ∀ (b : Bool) (m : M C K Bool),
      SafeFrom s.held m (fun _ H1 => H1 = s.held) →
      SafeFrom s.held
        (do
          let _ ← (do
            let _ ← getState
            if (!b) = true then Pure.pure false else m : M C K Bool)
          Pure.pure ())
        fun _ _ => True := by
    intro b m hm
    refine SafeFrom.drop (Q := fun _ H1 => H1 = s.held) ?_
    refine SafeFrom.bind_eq (SafeFrom.getState _) ?_
    intro st
    split
    · exact SafeFrom.pure _ _
    · exact hm
  cases op with
  | initializeAudioOutput l ms =>
    have h : violatesOrder .initMutex s.held = false := by
      simpa [ControlOp.entry] using hentry
    exact ((initializeAudioOutput_safe ext l ms _ h).drop s hs rfl).1
  | teardownAudioOutput =>
    have h : violatesOrder .initMutex s.held = false := by
      simpa [ControlOp.entry] using hentry
    exact (teardownAudioOutput_safe ext _ h s hs rfl).1
  | get f k =>
    have h : (s.held.any fun l => l.isInUse) = false := by
      simpa [ControlOp.entry] using hentry
    exact ((Synths.get_safe ext f k _ h).drop s hs rfl).1
  | recycleInstrument f k =>
    exact ((Synths.recycleInstrument_safe ext f k _).drop s hs rfl).1
  | finalize f =>
    have h : (s.held.any fun l => l.isInUse) = false := by
      simpa [ControlOp.entry] using hentry
    exact (Synths.finalize_safe f _ h s hs rfl).1
  | withChannelsDestructor o => exact (withChannels.destructor_safe _ o s hs rfl).1
  | UsingConstructor o => exact ((Using.ctor_safe _ o).drop s hs rfl).1
  | UsingDestructor u => exact (Using.release_safe _ u s hs rfl).1
  | midiEvent f env e =>
    have h : (s.held.any fun l => l.isInUse) = false := by
      simpa [ControlOp.entry] using hentry
    exact ((midiEvent_safe ext f env e _ h).drop s hs rfl).1
  | midiNoteOn t p v =>
    have h : (s.held.any fun l => l.isInUse) = false := by
      simpa [ControlOp.entry] using hentry
    exact (hfacade _ _ (midiEvent_safe ext _ _ _ _ h) s hs rfl).1
  | midiNoteOff t p =>
    have h : (s.held.any fun l => l.isInUse) = false := by
      simpa [ControlOp.entry] using hentry
    exact (hfacade _ _ (midiEvent_safe ext _ _ _ _ h) s hs rfl).1
  | midiNoteOnAHDSR_ t a ai h d di su r ri p v =>
    have h : (s.held.any fun l => l.isInUse) = false := by
      simpa [ControlOp.entry] using hentry
    exact (hfacade _ _ (midiEventAHDSR_safe ext _ _ _ _ h) s hs rfl).1
  | midiNoteOffAHDSR_ t a ai h d di su r ri p =>
    have h : (s.held.any fun l => l.isInUse) = false := by
      simpa [ControlOp.entry] using hentry
    exact (hfacade _ _ (midiEventAHDSR_safe ext _ _ _ _ h) s hs rfl).1

/-- C1 at a concrete input: `get` for the key 200, while another handle has the instrument
2 in use, acquires the registry latch with nothing held and then the in-use latch of the
instrument 4 with the registry latch held. -/
theorem C1_lock_order_safety_witness :
    (Example.twoSynths 1 true [.isUsed 2]).LockOrdered ∧
    ControlOp.entry (.get .SimpleLinear (200 : Int))
      (Example.twoSynths 1 true [.isUsed 2]).held = true ∧
    (ControlOp.run (Example.ext true []) (.get .SimpleLinear 200)
      (Example.twoSynths 1 true [.isUsed 2])).state.acquisitions =
      [(.map_mutex .SimpleLinear, []), (.isUsed 4, [.map_mutex .SimpleLinear])] ∧
    (ControlOp.run (Example.ext true []) (.get .SimpleLinear 200)
      (Example.twoSynths 1 true [.isUsed 2])).state.LockOrdered :=
    by
  have hs : (Example.twoSynths 1 true [.isUsed 2]).LockOrdered := by
    intro a ha
    cases ha
  exact ⟨hs, rfl, by decide,
    C1_lock_order_safety (Example.ext true []) (.get .SimpleLinear 200)
      (Example.twoSynths 1 true [.isUsed 2]) hs rfl⟩

/-- C2: for every finite sequence of calls to `initializeAudioOutput` and
`teardownAudioOutput` from the initial statics, whatever the outside code answers, every
call returns and `countUsers()` is then the number of initializations minus the number of
teardowns, as a 32-bit `int` holds it: it is that number whenever the number is in the range
of `int`, in particular `0` after matched pairs, and that number modulo `2^32` otherwise.  A
failed initialization does not decrement. -/
theorem C2_countUsers_balance (c : C) (calls : List (External C K × LifecycleCall)) :
    ∃ s, runCalls calls (State.initial c) = .ret () s ∧
      s.countUsers =
        wrapInt32 ((countInitializations calls : Int) - (countTeardowns calls : Int)) ∧
      (-2147483648 ≤ (countInitializations calls : Int) - (countTeardowns calls : Int) →
        (countInitializations calls : Int) - (countTeardowns calls : Int) < 2147483648 →
        s.countUsers = (countInitializations calls : Int) - (countTeardowns calls : Int)) := by
  obtain ⟨_, s, hs, -, h⟩ :=
    (runCalls_quiet calls (State.initial c) ⟨rfl, rfl⟩ rfl).exists_ret
  have h2 : s.countUsers =
      wrapInt32 ((countInitializations calls : Int) - (countTeardowns calls : Int)) := by
    simpa [State.initial] using h
  exact ⟨s, hs, h2, fun h3 h4 => h2.trans (wrapInt32_of_range h3 h4)⟩

/-- C2 at a concrete input: two initializations and one teardown return, and the count is
then `1`. -/
theorem C2_countUsers_balance_witness :
    ∃ s, runCalls Example.lifecycle (State.initial false) = .ret () s ∧ s.countUsers = 1 := by
  obtain ⟨s, hs, -, h⟩ := C2_countUsers_balance false Example.lifecycle
  exact ⟨s, hs, (h (by decide) (by decide)).trans (by decide)⟩

/-- C3: when the audio context is not initialized, each of `midiNoteOn`, `midiNoteOff`,
`midiNoteOnAHDSR_`, `midiNoteOffAHDSR_`, `effectOn` and `effectOff` returns false and leaves
the statics as they were: no map, no channel-group collection, no mutex, no user count
changes, for every argument. -/
theorem C3_not_initialized_no_effect [LinearOrder K] (ext : External C K) (s : State C K)
    (h : ext.Initialized s.ctxt = false) :
    (∀ envelCharacTime pitch velocity,
      midiNoteOn ext envelCharacTime pitch velocity s = .ret false s) ∧
    (∀ envelCharacTime pitch, midiNoteOff ext envelCharacTime pitch s = .ret false s) ∧
    (∀ t a ai h d di su r ri pitch velocity,
      midiNoteOnAHDSR_ ext t a ai h d di su r ri pitch velocity s = .ret false s) ∧
    (∀ t a ai h d di su r ri pitch,
      midiNoteOffAHDSR_ ext t a ai h d di su r ri pitch s = .ret false s) ∧
    (∀ program pitch velocity, effectOn ext program pitch velocity s = .ret false s) ∧
    (∀ pitch, effectOff ext pitch s = .ret false s) := by
  refine ⟨?_, ?_, ?_, ?_, ?_, ?_⟩ <;> intros <;>
    simp [midiNoteOn, midiNoteOff, midiNoteOnAHDSR_, midiNoteOffAHDSR_, effectOn, effectOff,
      M.bind, h]

/-- C3 at a concrete input: two instruments, a held in-use latch, the context not
initialized. -/
theorem C3_not_initialized_no_effect_witness :
    (Example.ext true []).Initialized (Example.twoSynths 2 false [.isUsed 2]).ctxt = false ∧
    midiNoteOn (Example.ext true []) 100 60 ⟨1⟩ (Example.twoSynths 2 false [.isUsed 2]) =
      .ret false (Example.twoSynths 2 false [.isUsed 2]) ∧
    effectOff (Example.ext true []) 60 (Example.twoSynths 2 false [.isUsed 2]) =
      .ret false (Example.twoSynths 2 false [.isUsed 2]) :=
  ⟨rfl,
    (C3_not_initialized_no_effect (Example.ext true []) (Example.twoSynths 2 false [.isUsed 2])
      rfl).1 100 60 ⟨1⟩,
    (C3_not_initialized_no_effect (Example.ext true []) (Example.twoSynths 2 false [.isUsed 2])
      rfl).2.2.2.2.2 60⟩

/-- C4: when the keys of the map are in order and `k2` is not one of them, and
`recycleInstrument(map, k2)` returns an instrument, that instrument `I` was stored under a
key `k1`, and in the resulting map a lookup of `k1` misses, a lookup of `k2` returns `I`
(with the parameters `k2` written into it), every other key is mapped as before, and the
size is the same; the maps of the other families are untouched. -/
theorem C4_recycle_rekeys [LinearOrder K] (ext : External C K) (f : Family) (k2 : K)
    (s s1 : State C K) (p : Nat) (hord : (s.map f).Ordered)
    (hk2 : SynthMap.find (s.map f) k2 = none)
    (hret : Synths.recycleInstrument ext f k2 s = .ret (some p) s1) :
    ∃ k1 I, SynthMap.find (s.map f) k1 = some (some I) ∧ I.addr = p ∧
      SynthMap.find (s1.map f) k1 = none ∧
      SynthMap.find (s1.map f) k2 = some (some { I with param := some k2 }) ∧
      (∀ k, k ≠ k1 → k ≠ k2 → SynthMap.find (s1.map f) k = SynthMap.find (s.map f) k) ∧
      (s1.map f).length = (s.map f).length ∧
      (∀ g, g ≠ f → s1.map g = s.map g) := by
  cases hfind : (s.map f).find? (recyclable ext s.locked) with
  | none =>
    rw [Synths.recycleInstrument_none ext f k2 s (by simpa using hfind)] at hret
    cases hret
  | some e =>
    obtain ⟨pre, post, o, -, hm, hpre, ho, -⟩ := recyclable_split ext s.locked _ e hfind
    have hk : SynthMap.find (pre ++ post) k2 = none := by
      rw [SynthMap.find_eq_none_iff] at hk2 ⊢
      intro x hx
      apply hk2 x
      rw [hm]
      rcases List.mem_append.1 hx with h | h
      · exact List.mem_append_left _ h
      · exact List.mem_append_right _ (List.mem_cons_of_mem _ h)
    have hne : e.1 ≠ k2 := by
      rw [SynthMap.find_eq_none_iff] at hk2
      exact hk2 (e.1, some o) (by rw [hm]; simp)
    rw [Synths.recycleInstrument_some ext f k2 s pre post e.1 o hm hpre ho hk] at hret
    injection hret with hp hs
    injection hp with hp
    subst hs
    obtain ⟨-, e2, e3, e4, -⟩ := SynthMap.emplace_of_find_eq_none k2 (some o) _ hk
    have hord1 := hord
    rw [hm] at hord1
    refine ⟨e.1, o, ?_, hp, ?_, ?_, ?_, ?_, ?_⟩
    · exact SynthMap.find_eq_some_of_mem _ hord _ _ (by rw [hm]; simp)
    · simp only [State.map, Registries.get_set_self]
      rw [SynthMap.find_SetParam, if_neg hne, e3 _ hne]
      exact SynthMap.find_erased_self pre post e.1 (some o) hord1
    · simp only [State.map, Registries.get_set_self]
      rw [SynthMap.find_SetParam, if_pos rfl, e2]
      rfl
    · intro k h1 h2
      simp only [State.map, Registries.get_set_self]
      rw [SynthMap.find_SetParam, if_neg h2, e3 _ h2, ← State.map, hm]
      exact SynthMap.find_erased_of_ne pre post e.1 k (some o) h1
    · simp only [State.map, Registries.get_set_self]
      rw [SynthMap.length_SetParam, e4, ← State.map, hm]
      simp only [List.length_append, List.length_cons]
      omega
    · intro g hg
      simp only [State.map]
      exact Registries.get_set_of_ne _ _ hg

/-- C4 at a concrete input: the instrument 2 under the key 100 is in use, the instrument 4
under the key 200 is recycled for the key 150; the map keeps its size 2, 200 is gone and 150
maps to the instrument 4. -/
theorem C4_recycle_rekeys_witness :
    (Example.inUse.map .SimpleLinear).Ordered ∧
    SynthMap.find (Example.inUse.map .SimpleLinear) 150 = none ∧
    Synths.recycleInstrument (Example.ext true []) .SimpleLinear 150 Example.inUse =
      .ret (some 4)
        { Example.inUse with
          synths :=
            { simpleLinear := Example.rekeyed, waitForKeyRelease := [], releaseAfterDecay := [] }
          acquisitions := [(.isUsed 4, [.map_mutex .SimpleLinear])] } ∧
    ∃ k1 I, SynthMap.find (Example.inUse.map .SimpleLinear) k1 = some (some I) ∧ I.addr = 4 ∧
      SynthMap.find Example.rekeyed k1 = none ∧
      SynthMap.find Example.rekeyed 150 = some (some { I with param := some 150 }) ∧
      Example.rekeyed.length = (Example.inUse.map .SimpleLinear).length := by
  have hord : (Example.inUse.map .SimpleLinear).Ordered := by
    simp [SynthMap.Ordered, Example.inUse, Example.twoSynths, State.map, Registries.get]
  have hrun : Synths.recycleInstrument (Example.ext true []) .SimpleLinear 150 Example.inUse =
      .ret (some 4)
        { Example.inUse with
          synths :=
            { simpleLinear := Example.rekeyed, waitForKeyRelease := [], releaseAfterDecay := [] }
          acquisitions := [(.isUsed 4, [.map_mutex .SimpleLinear])] } := by
    decide
  obtain ⟨k1, I, h1, h2, h3, h4, -, h6, -⟩ :=
    C4_recycle_rekeys (Example.ext true []) .SimpleLinear 150 _ _ 4 hord (by decide) hrun
  exact ⟨hord, by decide, hrun, k1, I, h1, h2, h3, h4, h6⟩

/-- C5: for a key `k2` that is not in the map, `recycleInstrument` returns, and
* when no element has a free in-use latch and a channel group without realtime functions,
  it returns nothing and the map is as before;
* otherwise it returns the instrument of the first such element in the order of the map,
  and the map is the old one with that element erased and the instrument emplaced under
  `k2`, its parameters set to `k2`;
* it returns nothing exactly when no element passes that test;
* every element that does not pass the test (in-use latch held, or realtime functions
  outstanding) is in the resulting map, under the same key and with the same instrument;
* the mutexes are left as they were. -/
theorem C5_recycle_selection [LinearOrder K] (ext : External C K) (f : Family) (k2 : K)
    (s : State C K) (hk2 : SynthMap.find (s.map f) k2 = none) :
    (Synths.recycleInstrument ext f k2 s).Returns fun r s1 =>
      (match (s.map f).find? (recyclable ext s.locked) with
        | none => r = none ∧ s1.map f = s.map f
        | some e => ∃ o, e.2 = some o ∧ r = some o.addr ∧
            s1.map f = SynthMap.SetParam k2
              (SynthMap.emplace k2 (some o) ((s.map f).eraseP (recyclable ext s.locked))).1) ∧
      (r = none ↔ ∀ e ∈ s.map f, recyclable ext s.locked e = false) ∧
      (∀ e ∈ s.map f, recyclable ext s.locked e = false → e ∈ s1.map f) ∧
      s1.locked = s.locked ∧ s1.held = s.held := by
  cases hfind : (s.map f).find? (recyclable ext s.locked) with
  | none =>
    have hall : ∀ e ∈ s.map f, recyclable ext s.locked e = false := by simpa using hfind
    rw [Synths.recycleInstrument_none ext f k2 s hall]
    simp only [Outcome.Returns, State.map, true_and, and_true]
    exact ⟨⟨fun _ => hall, fun _ => trivial⟩, fun e he _ => he⟩
  | some e =>
    obtain ⟨pre, post, o, he2, hm, hpre, ho, her⟩ := recyclable_split ext s.locked _ e hfind
    have hk : SynthMap.find (pre ++ post) k2 = none := by
      rw [SynthMap.find_eq_none_iff] at hk2 ⊢
      intro x hx
      apply hk2 x
      rw [hm]
      rcases List.mem_append.1 hx with h | h
      · exact List.mem_append_left _ h
      · exact List.mem_append_right _ (List.mem_cons_of_mem _ h)
    rw [Synths.recycleInstrument_some ext f k2 s pre post e.1 o hm hpre ho hk]
    simp only [Outcome.Returns, State.map, Registries.get_set_self, and_true]
    refine ⟨⟨o, he2, rfl, ?_⟩, ?_, ?_⟩
    · rw [← State.map, her]
    · constructor
      · intro h
        cases h
      · intro h
        have := h (e.1, some o) (by rw [← State.map, hm]; simp)
        rw [ho] at this
        cases this
    · intro x hx hxr
      rw [SynthMap.find_eq_none_iff] at hk2
      apply SynthMap.mem_SetParam_of_ne _ _ _ (hk2 x hx)
      apply ((SynthMap.emplace_of_find_eq_none k2 (some o) _ hk).2.2.2.2 x).2
      right
      rw [← State.map, hm] at hx
      rcases List.mem_append.1 hx with h | h
      · exact List.mem_append_left _ h
      · rcases List.mem_cons.1 h with h1 | h1
        · rw [h1, ho] at hxr
          cases hxr
        · exact List.mem_append_right _ h1

/-- C5 at a concrete input: the instrument 2 is in use, so the instrument 4 is the first
that can be recycled. -/
theorem C5_recycle_selection_witness :
    SynthMap.find (Example.inUse.map .SimpleLinear) 150 = none ∧
    (Synths.recycleInstrument (Example.ext true []) .SimpleLinear 150 Example.inUse).Returns
      fun r s1 => r = some 4 ∧ s1.map .SimpleLinear = Example.rekeyed := by
  refine ⟨by decide, ?_⟩
  have h := C5_recycle_selection (Example.ext true []) .SimpleLinear 150 Example.inUse
    (by decide)
  cases hr : Synths.recycleInstrument (Example.ext true []) .SimpleLinear 150 Example.inUse with
  | ret r s1 =>
    rw [hr] at h
    obtain ⟨h1, -⟩ := h
    have hf : (Example.inUse.map .SimpleLinear).find? (recyclable (Example.ext true [])
        Example.inUse.locked) = some (200, some { addr := 4, chans := 3, param := some 200 }) := by
      decide
    rw [hf] at h1
    obtain ⟨o, ho, hr1, hm⟩ := h1
    cases ho
    exact ⟨hr1, by rw [hm]; decide⟩
  | blocked s1 => rw [hr] at h; exact h.elim
  | undefinedBehaviour s1 => rw [hr] at h; exact h.elim

/-- C6: `Synths<Envel>::get(k)`, called with the map's latch free on a map without null
pointer, on a path other than the degraded fallback.  When it returns, `k` is in the
resulting map and maps to the instrument that the handle targets.  On the lookup-hit path
the maps, the channel-group collections and the identities are as before.  On the creation
path the map is the old one with the single new element for `k` emplaced: one element more,
every other key mapped as before, the other families untouched.  The call does not return
only when `k` is in the map and the in-use latch of its instrument is held. -/
theorem C6_get_registers [LinearOrder K] (ext : External C K) (f : Family) (k : K)
    (s : State C K) (hm : Latch.map_mutex f ∉ s.locked) (hn : (s.map f).NoNull)
    (hfresh : ∀ a, s.fresh ≤ a → Latch.isUsed a ∉ s.locked)
    (hnf : ¬ Synths.isFallback ext s f k) :
    match Synths.get ext f k s with
    | .ret u s1 =>
      (∃ o, SynthMap.find (s1.map f) k = some (some o) ∧ o.addr = u.o) ∧
      (SynthMap.find (s.map f) k ≠ none →
        s1.synths = s.synths ∧ s1.noXfade = s.noXfade ∧ s1.xfade = s.xfade ∧
          s1.fresh = s.fresh) ∧
      (SynthMap.find (s.map f) k = none →
        (∀ e ∈ s.map f, recyclable ext s.locked e = false) →
        s1.map f = (SynthMap.emplace k
            (some { addr := u.o, chans := s.fresh, param := some k }) (s.map f)).1 ∧
          (s1.map f).length = (s.map f).length + 1 ∧
          (∀ k1, k1 ≠ k → SynthMap.find (s1.map f) k1 = SynthMap.find (s.map f) k1) ∧
          (∀ g, g ≠ f → s1.map g = s.map g))
    | .blocked _ =>
      ∃ o, SynthMap.find (s.map f) k = some (some o) ∧ Latch.isUsed o.addr ∈ s.locked
    | .undefinedBehaviour _ => False := by
  rcases Synths.get_cases ext s f k hn with ⟨o, hf⟩ | ⟨hf, pre, post, k1, o, hmap, hpre, ho⟩ |
    ⟨hf, hall, hinit⟩ | ⟨hfb, -⟩
  · by_cases hu : Latch.isUsed o.addr ∈ s.locked
    · rw [Synths.get_hit_blocked ext f k s o hm hf hu]
      exact ⟨o, hf, hu⟩
    · rw [Synths.get_hit ext f k s o hm hf hu]
      refine ⟨⟨o, hf, rfl⟩, fun _ => ⟨rfl, rfl, rfl, rfl⟩, ?_⟩
      intro h
      rw [hf] at h
      cases h
  · rw [Synths.get_recycle ext f k s pre post k1 o hm hf hmap hpre ho]
    have hk : SynthMap.find (pre ++ post) k = none := by
      rw [SynthMap.find_eq_none_iff] at hf ⊢
      intro x hx
      apply hf x
      rw [hmap]
      rcases List.mem_append.1 hx with h | h
      · exact List.mem_append_left _ h
      · exact List.mem_append_right _ (List.mem_cons_of_mem _ h)
    refine ⟨⟨{ o with param := some k }, ?_, rfl⟩, fun h => absurd hf h, ?_⟩
    · simp only [State.map, Registries.get_set_self]
      rw [SynthMap.find_SetParam, if_pos rfl,
        (SynthMap.emplace_of_find_eq_none k (some o) _ hk).2.1]
      rfl
    · intro _ h
      have := h (k1, some o) (by rw [hmap]; simp)
      rw [ho] at this
      cases this
  · rw [Synths.get_create ext f k s hm hf hall hinit (hfresh _ (Nat.le_succ _))]
    obtain ⟨-, e2, e3, e4, -⟩ := SynthMap.emplace_of_find_eq_none k
      (some { addr := s.fresh + 1, chans := s.fresh, param := some k }) _ hf
    refine ⟨⟨{ addr := s.fresh + 1, chans := s.fresh, param := some k }, ?_, rfl⟩,
      fun h => absurd hf h, fun _ _ => ⟨?_, ?_, ?_, ?_⟩⟩
    · simpa only [State.map, Registries.get_set_self] using e2
    · simp only [State.map, Registries.get_set_self]
    · simpa only [State.map, Registries.get_set_self] using e4
    · simpa only [State.map, Registries.get_set_self] using e3
    · intro g hg
      simp only [State.map]
      exact Registries.get_set_of_ne _ _ hg
  · exact absurd hfb hnf

/-- C6 at a concrete input: both instruments have realtime functions outstanding, the key
300 is new and its instrument is created with the identity 6 on the new group 5. -/
theorem C6_get_registers_witness :
    Latch.map_mutex .SimpleLinear ∉ (Example.twoSynths 1 true []).locked ∧
    ¬ Synths.isFallback (Example.ext true [1, 3]) (Example.twoSynths 1 true [])
      .SimpleLinear 300 ∧
    Synths.get (Example.ext true [1, 3]) .SimpleLinear 300 (Example.twoSynths 1 true []) =
      .ret { o := 6 } Example.created ∧
    ∃ o, SynthMap.find (Example.created.map .SimpleLinear) 300 = some (some o) ∧
      o.addr = 6 := by
  have hnf : ¬ Synths.isFallback (Example.ext true [1, 3]) (Example.twoSynths 1 true [])
      .SimpleLinear 300 := by
    intro h
    exact absurd h.2.2.1 (by decide)
  have hrun : Synths.get (Example.ext true [1, 3]) .SimpleLinear 300
      (Example.twoSynths 1 true []) = .ret { o := 6 } Example.created := by
    decide
  have h := C6_get_registers (Example.ext true [1, 3]) .SimpleLinear 300
    (Example.twoSynths 1 true []) (by decide)
    (by simp [SynthMap.NoNull, State.map, Registries.get, Example.twoSynths])
    (by intro a _; simp [Example.twoSynths]) hnf
  rw [hrun] at h
  exact ⟨by decide, hnf, hrun, h.1⟩

/-- C7: the degraded fallback.  Let the map's latch be free, `k` absent from the map, the
map start with the instrument `o0`, no element be recyclable, and the initialization of
the newly created instrument fail.  Then `Synths<Envel>::get(k)` leaves the maps as they
were (`k` is not inserted, the new instrument is in no map), the channel group it created
is at the head of the non-crossfaded collection, flagged for removal, the other groups are
as before, and it returns a handle to `o0`, the first element of the map; when the in-use
latch of `o0` is held by another handle, the call has done the same and waits on that
latch. -/
theorem C7_get_fallback [LinearOrder K] (ext : External C K) (f : Family) (k : K)
    (s : State C K) (k0 : K) (o0 : withChannels K) (rest : SynthMap K)
    (hm : Latch.map_mutex f ∉ s.locked) (hfresh : s.Fresh f)
    (hmap : s.map f = (k0, some o0) :: rest) (hk : SynthMap.find (s.map f) k = none)
    (hnone : ∀ e ∈ s.map f, recyclable ext s.locked e = false)
    (hinit : ext.initializeSynth k s.fresh = false) :
    match Synths.get ext f k s with
    | .ret u s1 =>
      u.o = o0.addr ∧ Latch.isUsed o0.addr ∉ s.locked ∧ s1.synths = s.synths ∧
        SynthMap.find (s1.map f) k = none ∧
        s1.noXfade =
          { id := s.fresh, nVoices := min ext.n_channels 255,
            n_max_orchestrator_per_channel := 0, flaggedForRemoval := true } :: s.noXfade
    | .blocked s1 =>
      Latch.isUsed o0.addr ∈ s.locked ∧ s1.synths = s.synths ∧
        s1.noXfade =
          { id := s.fresh, nVoices := min ext.n_channels 255,
            n_max_orchestrator_per_channel := 0, flaggedForRemoval := true } :: s.noXfade
    | .undefinedBehaviour _ => False := by
  obtain ⟨h1, h2, h3⟩ := hfresh
  have ho0 : o0.addr < s.fresh :=
    h2 o0 (by rw [hmap]; simp [SynthMap.instruments])
  have hnot : ¬ (s.fresh + 1 = o0.addr ∨ Latch.isUsed (s.fresh + 1) ∈ s.locked) := by
    intro h
    rcases h with h | h
    · omega
    · exact h1 _ (Nat.le_succ _) h
  rw [Synths.get_fallback ext f k s k0 o0 rest hm hk hnone hinit hmap]
  by_cases h0 : Latch.isUsed o0.addr ∈ s.locked
  · rw [if_pos h0]
    exact ⟨h0, rfl, by simp only [map_flagged_of_lt _ _ h3]⟩
  · rw [if_neg h0, if_neg hnot]
    exact ⟨rfl, h0, rfl, hk, by simp only [map_flagged_of_lt _ _ h3]⟩

/-- C7 at a concrete input: both instruments have realtime functions outstanding and the
initialization of the instrument created for the key 300 fails; the handle targets the
instrument 2, the first of the map, and the new group 5 is flagged. -/
theorem C7_get_fallback_witness :
    Latch.map_mutex .SimpleLinear ∉ (Example.twoSynths 1 true []).locked ∧
    (Example.twoSynths 1 true []).Fresh .SimpleLinear ∧
    (Example.ext false [1, 3]).initializeSynth 300 (Example.twoSynths 1 true []).fresh = false ∧
    Synths.get (Example.ext false [1, 3]) .SimpleLinear 300 (Example.twoSynths 1 true []) =
      .ret { o := 2 } Example.degraded ∧
    Example.degraded.synths = (Example.twoSynths 1 true []).synths := by
  have hfresh : (Example.twoSynths 1 true []).Fresh .SimpleLinear := by
    refine ⟨by intro a _; simp [Example.twoSynths], ?_, ?_⟩
    · intro o ho
      simp [State.map, Registries.get, Example.twoSynths, SynthMap.instruments] at ho
      rcases ho with h | h <;> subst h <;> decide
    · intro g hg
      simp [Example.twoSynths] at hg
      rcases hg with h | h <;> subst h <;> decide
  have hrun : Synths.get (Example.ext false [1, 3]) .SimpleLinear 300
      (Example.twoSynths 1 true []) = .ret { o := 2 } Example.degraded := by
    decide
  have h := C7_get_fallback (Example.ext false [1, 3]) .SimpleLinear 300
    (Example.twoSynths 1 true []) 100 { addr := 2, chans := 1, param := some 100 }
    [(200, some { addr := 4, chans := 3, param := some 200 })] (by decide) hfresh rfl
    (by decide) (by decide) rfl
  rw [hrun] at h
  exact ⟨by decide, hfresh, rfl, hrun, h.2.2.1⟩

/-- C8: the latch discipline of the guarded handle.  Let the map's latch be free, on a map
without null pointer.  When `Synths<Envel>::get` returns the handle `u`: the in-use latch
of the instrument of `u` was free before the call and is now held, every other mutex is as
before the call, the map's latch included, which is free; the call first acquired the
map's latch, every acquisition that it made after that was made with the map's latch held,
and one of them is that of the in-use latch of `u`, made with the map's latch and what the
caller held; and `~Using()` then leaves every mutex as it was before `get`.  The call does not return only when it waits on the
in-use latch of an instrument of the map, which was held before the call.  A complete
facade call `midiEvent` (handle, `onEvent2`, release) that returns leaves every mutex as it
found it. -/
theorem C8_guarded_handle_latches [LinearOrder K] (ext : External C K) (f : Family) (k : K)
    (s : State C K) (hm : Latch.map_mutex f ∉ s.locked) (hn : (s.map f).NoNull)
    (hfresh : s.Fresh f) :
    (match Synths.get ext f k s with
      | .ret u s1 =>
        Latch.isUsed u.o ∉ s.locked ∧ s1.locked = .isUsed u.o :: s.locked ∧
          s1.held = .isUsed u.o :: s.held ∧ Latch.map_mutex f ∉ s1.locked ∧
          (∃ new, s1.acquisitions = s.acquisitions ++ (.map_mutex f, s.held) :: new ∧
            (∀ r ∈ new, Latch.map_mutex f ∈ r.2) ∧
            (Latch.isUsed u.o, .map_mutex f :: s.held) ∈ new) ∧
          Using.destructor u s1 = .ret () { s1 with locked := s.locked, held := s.held }
      | .blocked s1 =>
        ∃ o ∈ (s.map f).instruments, Latch.isUsed o.addr ∈ s.locked ∧
          ∃ old, s1.acquisitions = old ++ [(.isUsed o.addr, .map_mutex f :: s.held)]
      | .undefinedBehaviour _ => False) ∧
    ∀ e, match midiEvent ext f k e s with
      | .ret _ s2 => s2.locked = s.locked ∧ s2.held = s.held
      | .blocked _ => ∃ o ∈ (s.map f).instruments, Latch.isUsed o.addr ∈ s.locked
      | .undefinedBehaviour _ => False := by
  have hget := Synths.get_latches ext f k s hm hn hfresh
  refine ⟨hget, ?_⟩
  intro e
  simp only [midiEvent, M.bind_apply, M.bind]
  cases hr : Synths.get ext f k s with
  | ret u s1 =>
    rw [hr] at hget
    obtain ⟨-, h2, h3, -, -, -⟩ := hget
    simp [Using.destructor, h2, h3]
  | blocked s1 =>
    rw [hr] at hget
    obtain ⟨o, ho, hl, -⟩ := hget
    exact ⟨o, ho, hl⟩
  | undefinedBehaviour s1 =>
    rw [hr] at hget
    exact hget

/-- C8 at a concrete input: the instrument 2 is in use by another handle; `get` for the key
200 returns a handle on the instrument 4 and holds exactly its in-use latch more, and the
destruction of the handle gives the mutexes as they were. -/
theorem C8_guarded_handle_latches_witness :
    Latch.map_mutex .SimpleLinear ∉ (Example.twoSynths 1 true [.isUsed 2]).locked ∧
    (Example.twoSynths 1 true [.isUsed 2]).Fresh .SimpleLinear ∧
    Synths.get (Example.ext true []) .SimpleLinear 200
      (Example.twoSynths 1 true [.isUsed 2]) = .ret { o := 4 } Example.handle ∧
    Example.handle.locked = [.isUsed 4, .isUsed 2] ∧
    Using.destructor { o := 4 } Example.handle =
      .ret () { Example.handle with locked := [.isUsed 2], held := [] } := by
  have hfresh : (Example.twoSynths 1 true [.isUsed 2]).Fresh .SimpleLinear := by
    refine ⟨?_, ?_, ?_⟩
    · intro a ha
      simp only [Example.twoSynths, List.mem_singleton, Latch.isUsed.injEq] at ha ⊢
      omega
    · intro o ho
      simp [State.map, Registries.get, Example.twoSynths, SynthMap.instruments] at ho
      rcases ho with h | h <;> subst h <;> decide
    · intro g hg
      simp [Example.twoSynths] at hg
      rcases hg with h | h <;> subst h <;> decide
  have hrun : Synths.get (Example.ext true []) .SimpleLinear 200
      (Example.twoSynths 1 true [.isUsed 2]) = .ret { o := 4 } Example.handle := by
    decide
  have h := (C8_guarded_handle_latches (Example.ext true []) .SimpleLinear 200
    (Example.twoSynths 1 true [.isUsed 2]) (by decide)
    (by simp [SynthMap.NoNull, State.map, Registries.get, Example.twoSynths]) hfresh).1
  rw [hrun] at h
  exact ⟨by decide, hfresh, hrun, h.2.1, h.2.2.2.2.2⟩

/-- C9: `teardownAudioOutput`, with the init latch free, decrements the user count, an
`int`.  When the decremented count is `> 0` nothing else changes (but the record of the
acquisition of the init latch).  Otherwise, the maps' latches and the instruments' in-use
latches being free, it signals the close and sleeps when the context is initialized,
finalizes the wind voice, calls `finalize()` on every instrument of the three families in
turn (each map in its order, and the instruments of a map destroyed from its last to its
first), leaves the three maps empty, tears the context down and clears both channel-group
collections; `xfadeChannels`, `fresh` and the mutexes are as before. -/
theorem C9_teardownAudioOutput_frame (ext : External C K) (s : State C K)
    (hl : Latch.initMutex ∉ s.locked) :
    (wrapInt32 (s.countUsers - 1) > 0 →
      teardownAudioOutput ext s = .ret ()
        { s with
          countUsers := wrapInt32 (s.countUsers - 1)
          acquisitions := s.acquisitions ++ [(.initMutex, s.held)] }) ∧
    (¬ wrapInt32 (s.countUsers - 1) > 0 →
      (∀ f, Latch.map_mutex f ∉ s.locked) → (∀ f, (s.map f).NoNull) →
      (∀ f, (s.map f).NotInUse s.locked) →
      teardownAudioOutput ext s = .ret ()
        { s with
          countUsers := wrapInt32 (s.countUsers - 1)
          ctxt := ext.TearDown
            (if ext.Initialized s.ctxt then ext.onApplicationShouldClose s.ctxt else s.ctxt)
          xfade := []
          noXfade := []
          synths := Registries.empty
          calls := s.calls ++ (if ext.Initialized s.ctxt then [Call.sleep_for] else []) ++
            [Call.windVoiceFinalize] ++ s.synths.finalizeCalls
          acquisitions := s.acquisitions ++ [(.initMutex, s.held)] ++
            s.synths.finalizeAcquisitions (.initMutex :: s.held) }) :=
  ⟨teardownAudioOutput_eq_of_pos ext s hl, teardownAudioOutput_eq_of_not_pos ext s hl⟩

/-- C9 at concrete inputs: with two users the teardown only decrements; with one user it
finalizes the instruments 2 and 4 and destroys 4, then 2, and empties everything; and with
the least count of an `int` the decremented count is the greatest, so that nothing is shut
down. -/
theorem C9_teardownAudioOutput_frame_witness :
    Latch.initMutex ∉ (Example.twoSynths 2 true []).locked ∧
    teardownAudioOutput (Example.ext true []) (Example.twoSynths 2 true []) =
      .ret () { Example.twoSynths 1 true [] with acquisitions := [(.initMutex, [])] } ∧
    teardownAudioOutput (Example.ext true []) (Example.twoSynths 1 true []) =
      .ret ()
        { countUsers := 0, ctxt := false, xfade := [], noXfade := [], xfadeChannels := some 0,
          synths := Registries.empty, fresh := 5,
          calls := [.sleep_for, .windVoiceFinalize, .synthFinalize 2, .synthFinalize 4],
          locked := [], held := [],
          acquisitions :=
            [(.initMutex, []), (.map_mutex .SimpleLinear, [.initMutex]),
             (.isUsed 4, [.map_mutex .SimpleLinear, .initMutex]),
             (.isUsed 2, [.map_mutex .SimpleLinear, .initMutex]),
             (.map_mutex .WaitForKeyRelease, [.initMutex]),
             (.map_mutex .ReleaseAfterDecay, [.initMutex])] } ∧
    teardownAudioOutput (Example.ext true []) (Example.twoSynths (-2147483648) true []) =
      .ret ()
        { Example.twoSynths 2147483647 true [] with acquisitions := [(.initMutex, [])] } :=
  ⟨by decide,
    (C9_teardownAudioOutput_frame (Example.ext true []) (Example.twoSynths 2 true [])
      (by decide)).1 (by decide),
    (C9_teardownAudioOutput_frame (Example.ext true []) (Example.twoSynths 1 true [])
      (by decide)).2 (by decide) (by intro f; cases f <;> decide)
      (by intro f; cases f <;> simp [SynthMap.NoNull, State.map, Registries.get,
        Example.twoSynths])
      (by intro f; cases f <;> simp [SynthMap.NotInUse, State.map, Registries.get,
        Example.twoSynths, SynthMap.instruments]),
    (C9_teardownAudioOutput_frame (Example.ext true [])
      (Example.twoSynths (-2147483648) true []) (by decide)).1 (by decide)⟩

/-- C10: when `initializeAudioOutput` is called with the init latch free and a user count
that is already `>= 1` and less than the greatest `int`, so that the incremented count is
`> 1`, it returns the context's current initialized state and changes nothing but the user
count, incremented (and the record of the acquisition of the init latch): no channel group
is added, no outside code is called; the result and the statics do not depend on the two
latency parameters. -/
theorem C10_initializeAudioOutput_not_first (ext : External C K) (s : State C K)
    (hl : Latch.initMutex ∉ s.locked) (h : 1 ≤ s.countUsers) (hmax : s.countUsers < 2147483647)
    (minLatencySeconds : AudioFloat) (portaudioMinLatencyMillis : Int) :
    initializeAudioOutput ext minLatencySeconds portaudioMinLatencyMillis s =
      .ret (ext.Initialized s.ctxt)
        { s with
          countUsers := s.countUsers + 1
          acquisitions := s.acquisitions ++ [(.initMutex, s.held)] } ∧
    ∀ minLatencySeconds1 portaudioMinLatencyMillis1,
      initializeAudioOutput ext minLatencySeconds1 portaudioMinLatencyMillis1 s =
        initializeAudioOutput ext minLatencySeconds portaudioMinLatencyMillis s := by
  have hw : wrapInt32 (s.countUsers + 1) = s.countUsers + 1 :=
    wrapInt32_of_range (by omega) (by omega)
  have h1 : s.countUsers + 1 > 1 := by omega
  have e : ∀ l ms, initializeAudioOutput ext l ms s =
      .ret (ext.Initialized s.ctxt)
        { s with
          countUsers := s.countUsers + 1
          acquisitions := s.acquisitions ++ [(.initMutex, s.held)] } := by
    intro l ms
    simp [initializeAudioOutput, initializeAudioOutput.body, M.bind, lock, hl, hw, h1]
  exact ⟨e _ _, fun l ms => by rw [e, e]⟩

/-- C10 at a concrete input: a second user, with a context that is not initialized. -/
theorem C10_initializeAudioOutput_not_first_witness :
    Latch.initMutex ∉ (Example.twoSynths 1 false []).locked ∧
    (1 : Int) ≤ (Example.twoSynths 1 false []).countUsers ∧
    (Example.twoSynths 1 false []).countUsers < 2147483647 ∧
    initializeAudioOutput (Example.ext true []) ⟨0⟩ 7 (Example.twoSynths 1 false []) =
      .ret false { Example.twoSynths 2 false [] with acquisitions := [(.initMutex, [])] } :=
  ⟨by decide, by decide, by decide,
    (C10_initializeAudioOutput_not_first (Example.ext true []) (Example.twoSynths 1 false [])
      (by decide) (by decide) (by decide) ⟨0⟩ 7).1⟩

/-- C11: for every envelope behaviour and every result `g` of fewer than `2^31` samples,
so that the number of samples at the split is kept when it is stored in the `int`
`splitAt`: `envelopeGraphVec` returns `g` exactly when `g` is the analysis that the spec
describes.  The envelope, key pressed, is stepped and its value after each step is
appended, in order, until done is reported; `splitAt` is the number of samples at the first
step after which `afterAttackBeforeSustain()` is false, and then
`1 <= splitAt <= samples.size()`; `splitAt` is `-1` exactly when done is reported before
any such boundary is observed; one key release is issued, at the boundary, exactly when
there is a boundary and the family honours the key release.  "Returns" is: with enough
fuel, and with any more; and whatever is returned with any fuel is that analysis. -/
theorem C11_envelopeGraphVec_split {E P : Type} (env : Envelope E P) (envParams : P)
    (g : EnvelopeGraph) (hsize : g.v.length < 2147483648) :
    (Analyzed env envParams g ↔
      ∃ fuel0, ∀ fuel, fuel0 ≤ fuel → envelopeGraphVec env envParams fuel = some g) ∧
    (∀ fuel, envelopeGraphVec env envParams fuel = some g → Analyzed env envParams g) ∧
    (Analyzed env envParams g →
      (g.splitAt = -1 ∨ (1 ≤ g.splitAt ∧ g.splitAt ≤ (g.v.length : Int))) ∧
      (g.splitAt = -1 ↔ ∃ n, env.DoneBeforeBoundary (env.pressed envParams) n) ∧
      g.keyReleases =
        if g.splitAt ≠ -1 ∧ env.Release = EnvelopeRelease.WaitForKeyRelease then
          [g.splitAt.toNat]
        else []) := by
  have hret : ∀ fuel, envelopeGraphVec env envParams fuel = some g →
      Analyzed env envParams g := by
    intro fuel h
    obtain ⟨g0, h0, rfl⟩ := narrowed_of_envelopeGraphVec env h
    rw [Analyzed.narrowed_eq env h0 hsize]
    exact h0
  refine ⟨⟨fun h => ?_, fun ⟨fuel0, h⟩ => hret fuel0 (h fuel0 (le_refl fuel0))⟩, hret,
    fun h => ⟨Analyzed.splitAt_bounds env h, Analyzed.splitAt_eq_neg_one_iff env h,
      Analyzed.keyReleases_eq env h⟩⟩
  obtain ⟨fuel0, h0⟩ := envelopeGraphVec_of_analyzed env h
  rw [Analyzed.narrowed_eq env h hsize] at h0
  exact ⟨fuel0, h0⟩

/-- C11 at a concrete input: an envelope whose boundary is observed after the third step and
that is done two steps after the key release gives five samples, the split `3` and one key
release at three samples. -/
theorem C11_envelopeGraphVec_split_witness :
    envelopeGraphVec Example.plateau () 10 =
      some { v := [⟨10⟩, ⟨20⟩, ⟨30⟩, ⟨40⟩, ⟨50⟩], splitAt := 3, keyReleases := [3] } ∧
    Analyzed Example.plateau ()
      { v := [⟨10⟩, ⟨20⟩, ⟨30⟩, ⟨40⟩, ⟨50⟩], splitAt := 3, keyReleases := [3] } ∧
    ¬ ∃ n, Example.plateau.DoneBeforeBoundary (Example.plateau.pressed ()) n := by
  have h : envelopeGraphVec Example.plateau () 10 =
      some { v := [⟨10⟩, ⟨20⟩, ⟨30⟩, ⟨40⟩, ⟨50⟩], splitAt := 3, keyReleases := [3] } := by
    decide
  have ha := (C11_envelopeGraphVec_split Example.plateau () _ (by decide)).2.1 10 h
  refine ⟨h, ha, fun hn => ?_⟩
  have := ((C11_envelopeGraphVec_split Example.plateau () _ (by decide)).2.2 ha).2.1.2 hn
  exact absurd this (by decide)

/-- C12: for every parameter set, `envelopeGraphVec` on the release-after-decay AHDSR
envelope (the class as modelled from the spec, with any sample values) returns (with
enough fuel, and with any more) a result with `splitAt == -1`, no
key release and one sample per step of the attack, hold, decay and release; whatever it
returns with any fuel has `splitAt == -1` and no key release.  And on the code alone: for
every envelope behaviour whose `Env::Release` is not `WaitForKeyRelease`, the analyzer
issues no key release. -/
theorem C12_release_after_decay_no_split (value : AHDSREnvelope.State → AudioFloat)
    (envParams : AHDSR) :
    (∃ g fuel0,
      (∀ fuel, fuel0 ≤ fuel →
        envelopeGraphVec (AHDSREnvelope .ReleaseAfterDecay value) envParams fuel = some g) ∧
      g.splitAt = -1 ∧ g.keyReleases = [] ∧ g.v.length = envParams.duration) ∧
    (∀ fuel g,
      envelopeGraphVec (AHDSREnvelope .ReleaseAfterDecay value) envParams fuel = some g →
      g.splitAt = -1 ∧ g.keyReleases = []) ∧
    (∀ (E P : Type) (env : Envelope E P) (p : P) (fuel : Nat) (g : EnvelopeGraph),
      env.Release ≠ EnvelopeRelease.WaitForKeyRelease →
      envelopeGraphVec env p fuel = some g → g.keyReleases = []) := by
  have ha : Analyzed (AHDSREnvelope .ReleaseAfterDecay value) envParams
      { v := (AHDSREnvelope .ReleaseAfterDecay value).samples
               ((AHDSREnvelope .ReleaseAfterDecay value).pressed envParams) envParams.duration,
        splitAt := -1, keyReleases := [] } :=
    Or.inl ⟨_, AHDSREnvelope.doneBeforeBoundary value envParams, rfl⟩
  refine ⟨?_, fun fuel g hg => ?_, fun E P env p fuel g hr hg => ?_⟩
  · obtain ⟨fuel0, h0⟩ := envelopeGraphVec_of_analyzed _ ha
    exact ⟨_, fuel0, h0, rfl, rfl, Envelope.samples_length _ _ _⟩
  · obtain ⟨g0, h0, rfl⟩ := narrowed_of_envelopeGraphVec _ hg
    rw [← Analyzed.unique _ ha h0]
    exact ⟨rfl, rfl⟩
  · obtain ⟨g0, h0, rfl⟩ := narrowed_of_envelopeGraphVec env hg
    show g0.keyReleases = []
    rw [Analyzed.keyReleases_eq env h0]
    simp [hr]

/-- C12 at the parameters of the spec (`a=10, h=5, d=20, r=15`, and `s=0.5` as the bits of
the `float`): fifty samples, `splitAt == -1`, no key release, also by running the
definitions with fuel 51. -/
theorem C12_release_after_decay_no_split_witness :
    (∃ g fuel0,
      (∀ fuel, fuel0 ≤ fuel →
        envelopeGraphVec (AHDSREnvelope .ReleaseAfterDecay Example.stepCount)
          (Example.ahdsr ⟨1056964608⟩) fuel = some g) ∧
      g.splitAt = -1 ∧ g.keyReleases = [] ∧ g.v.length = 50) ∧
    (envelopeGraphVec (AHDSREnvelope .ReleaseAfterDecay Example.stepCount)
        (Example.ahdsr ⟨1056964608⟩) 51).map (fun g => (g.v.length, g.splitAt, g.keyReleases)) =
      some (50, -1, []) :=
  ⟨(C12_release_after_decay_no_split Example.stepCount (Example.ahdsr ⟨1056964608⟩)).1,
    by decide⟩

/-- C13, the input that refutes it: on an envelope that never reports done,
`envelopeGraphVec` does not return, whatever the number of steps allowed. -/
theorem C13_envelopeGraphVec_never_done_counterexample :
    ¬ ∃ fuel g, envelopeGraphVec Example.neverDone () fuel = some g := by
  rintro ⟨fuel, g, h⟩
  rw [envelopeGraphVec_never_done Example.neverDone (fun _ => rfl) fuel] at h
  cases h

/-- C13, amended: `envelopeGraphVec` has no step limit, for every envelope behaviour.  It
returns (with some fuel) exactly when the envelope, driven as the analyzer drives it,
reports done after finitely many steps, which is when the analysis that the spec describes
has a result `g0`; what it returns then, with any fuel, has every sample of `g0`, one for
each step of the run however many, the key releases of `g0` and its split in an `int`; the
samples are empty only when done is reported before the first step.  When the envelope does
not report done on that run, it does not return, whatever the fuel.  And for every `n` there
is an envelope behaviour, done after `n` steps, on which it returns all `n` samples. -/
theorem C13_envelopeGraphVec_no_step_limit :
    (∀ (E P : Type) (env : Envelope E P) (envParams : P),
      ((∃ fuel g, envelopeGraphVec env envParams fuel = some g) ↔
        ∃ g0, Analyzed env envParams g0) ∧
      (∀ fuel g, envelopeGraphVec env envParams fuel = some g →
        (∃ g0, Analyzed env envParams g0 ∧ g = g0.narrowed) ∧
        (g.v = [] ↔ env.EnvelopeDone1 (env.pressed envParams) = true)) ∧
      ((¬ ∃ g0, Analyzed env envParams g0) →
        ∀ fuel, envelopeGraphVec env envParams fuel = none) ∧
      ((∀ e, env.EnvelopeDone1 e = false) →
        ∀ fuel, envelopeGraphVec env envParams fuel = none)) ∧
    (∀ n : Nat, ∃ g fuel0,
      (∀ fuel, fuel0 ≤ fuel → envelopeGraphVec Example.countdown n fuel = some g) ∧
      g.v.length = n ∧ g.splitAt = -1) := by
  refine ⟨fun E P env envParams => ⟨⟨?_, ?_⟩, fun fuel g hg => ?_, fun hno fuel => ?_,
    fun h fuel => envelopeGraphVec_never_done env h fuel⟩, fun n => ?_⟩
  · rintro ⟨fuel, g, hg⟩
    obtain ⟨g0, h0, -⟩ := narrowed_of_envelopeGraphVec env hg
    exact ⟨g0, h0⟩
  · rintro ⟨g0, h0⟩
    obtain ⟨fuel0, hf⟩ := envelopeGraphVec_of_analyzed env h0
    exact ⟨fuel0, _, hf fuel0 (le_refl fuel0)⟩
  · obtain ⟨g0, h0, rfl⟩ := narrowed_of_envelopeGraphVec env hg
    refine ⟨⟨g0, h0, rfl⟩, ?_⟩
    show g0.v = [] ↔ _
    exact Analyzed.v_eq_nil_iff env h0
  · cases hg : envelopeGraphVec env envParams fuel with
    | none => rfl
    | some g =>
      obtain ⟨g0, h0, -⟩ := narrowed_of_envelopeGraphVec env hg
      exact (hno ⟨g0, h0⟩).elim
  · obtain ⟨fuel0, h0⟩ := envelopeGraphVec_of_analyzed Example.countdown
      (Or.inl ⟨n, Example.countdown_doneBeforeBoundary n, rfl⟩)
    exact ⟨_, fuel0, h0, Envelope.samples_length _ _ _, rfl⟩

/-- C13, amended, at concrete inputs: the envelope that never reports done is still being
analysed after 100000 tests of the loop condition, and an envelope that is done after
10001 steps gives 10001 samples. -/
theorem C13_envelopeGraphVec_no_step_limit_witness :
    envelopeGraphVec Example.neverDone () 100000 = none ∧
    ∃ g fuel0,
      (∀ fuel, fuel0 ≤ fuel → envelopeGraphVec Example.countdown 10001 fuel = some g) ∧
      g.v.length = 10001 ∧ g.splitAt = -1 :=
  ⟨(C13_envelopeGraphVec_no_step_limit.1 Nat Unit Example.neverDone ()).2.2.2
      (fun _ => rfl) 100000,
    C13_envelopeGraphVec_no_step_limit.2 10001⟩

end Claims
end imajuscule
